import Mathlib

/-!
Verification development for the chainscan scanning pipeline.

This file shallowly embeds the data model and the algorithms of the
scanning pipeline (`chainscan/scan.py`, `chainscan/track.py`,
`chainscan/blockchain.py`) and proves properties of the embedded code.

Modelling conventions:
* Python dicts are embedded as association lists (one entry per key;
  assignment overwrites in place, insertion of a fresh key appends).
* Python iterators are embedded as functions from an explicit state plus
  the list of elements the upstream iterator will still produce; a
  `StopIteration` from upstream corresponds to the list being empty.
* An uncaught exception other than `StopIteration` (AttributeError,
  AssertionError, KeyError, ValueError, IndexError) aborts the iteration;
  such outcomes are modelled by `Option`/dedicated constructors (`none` /
  `crash`), distinct from clean end of iteration.
* Block hashes are byte strings, modelled as `List Nat`; the genesis
  prev-hash is 32 zero bytes.
* Recursions whose termination metric is not structural use an explicit
  fuel parameter, with enough fuel supplied at the call sites that the
  fuel can never run out (each step consumes an element of a finite
  structure).
-/

set_option autoImplicit false

namespace Chainscan

/-! ## Association list primitives (model of Python dict) -/

/-- Model of `d.get(k)` / `d[k]` lookup: first entry with the given key. -/
def alookup {κ β : Type} [DecidableEq κ] (k : κ) : List (κ × β) → Option β
  | [] => none
  | (k', v) :: rest => if k' = k then some v else alookup k rest

/-- Model of `d[k] = v`: overwrite the existing entry in place, or append
a fresh entry at the end (Python dicts preserve insertion order). -/
def aset {κ β : Type} [DecidableEq κ] (k : κ) (v : β) : List (κ × β) → List (κ × β)
  | [] => [(k, v)]
  | (k', v') :: rest => if k' = k then (k, v) :: rest else (k', v') :: aset k v rest

/-- Model of `d.pop(k)`: remove the entry and return its value, or `none`
(`KeyError`) when the key is absent. -/
def apop {κ β : Type} [DecidableEq κ] (k : κ) : List (κ × β) → Option (β × List (κ × β))
  | [] => none
  | (k', v) :: rest =>
    if k' = k then some (v, rest)
    else
      match apop k rest with
      | none => none
      | some (v'', rest') => some (v'', (k', v) :: rest')


/-- The keys of an association list, in order. -/
def akeys {κ β : Type} (l : List (κ × β)) : List κ := l.map Prod.fst

/-! ## Sorted multiset of heights (model of `sortedcontainers.SortedList`) -/

/-- Model of `SortedList.add`: insert keeping the list sorted ascending. -/
def insertSorted (x : Int) : List Int → List Int
  | [] => [x]
  | y :: ys => if x ≤ y then x :: y :: ys else y :: insertSorted x ys

/-- Model of `SortedList.remove`: remove one occurrence, or `none`
(`ValueError`) when the element is absent. -/
def removeOne (x : Int) : List Int → Option (List Int)
  | [] => none
  | y :: ys => if y = x then some ys else (removeOne x ys).map (fun l => y :: l)

/-! ## Block data model -/

/-- A hash value: a byte string (`bytes` of length 32 in the source). -/
abbrev Hash := List Nat

/-- `ZERO_HASH` / `GENESIS_PREV_BLOCK_HASH` from `chainscan/defs.py`:
32 zero bytes. -/
def ZERO_HASH : Hash := List.replicate 32 0

/-- The fields of a `Block` that the scanning pipeline reads.  `height`
is a mutable attribute in the source (set to -1 by `RawFileBlockIterator`
and assigned by `TopologicalBlockIterator`); the embedding represents
height updates by functional record update. -/
structure Block where
  block_hash : Hash
  prev_block_hash : Hash
  height : Int
  timestamp : Nat
deriving DecidableEq, Repr

/-! ## TopologicalBlockIterator (`chainscan/scan.py`) -/

/-- The state of `TopologicalBlockIterator`: `_height_by_hash`,
`_orphans` and `_ready_blocks`. -/
structure TopoState where
  height_by_hash : List (Hash × Int)
  orphans : List (Hash × List Block)
  ready : List Block
deriving DecidableEq, Repr

/-- The state of a freshly constructed `TopologicalBlockIterator`:
`_height_by_hash` is seeded with the genesis prev-hash at height -1. -/
def initTopoState : TopoState :=
  { height_by_hash := [(ZERO_HASH, -1)], orphans := [], ready := [] }

/-- `TopologicalBlockIterator._disorphanate_block`: record the block's
height and append it to the ready queue. -/
def disorphanateBlock (st : TopoState) (b : Block) (height : Int) : TopoState :=
  let b' := { b with height := height }
  { st with
    height_by_hash := aset b'.block_hash height st.height_by_hash
    ready := st.ready ++ [b'] }

/-- `TopologicalBlockIterator._read_another_block`, given the block the
upstream iterator produced: either the prev-height is known and the block
becomes ready, or it is stored as an orphan under its prev-hash
(`orphans.setdefault(prev_block_hash, []).append(block)`). -/
def topoReadBlock (st : TopoState) (b : Block) : TopoState :=
  match alookup b.prev_block_hash st.height_by_hash with
  | none =>
    let entry :=
      match alookup b.prev_block_hash st.orphans with
      | none => [b]
      | some l => l ++ [b]
    { st with orphans := aset b.prev_block_hash entry st.orphans }
  | some prevHeight => disorphanateBlock st b (prevHeight + 1)

/-- The loop inside `TopologicalBlockIterator._disorphanate_children_of`:
disorphanate each child at the given height, in list order. -/
def disorphanateChildren (st : TopoState) (children : List Block) (height : Int) : TopoState :=
  match children with
  | [] => st
  | c :: rest => disorphanateChildren (disorphanateBlock st c height) rest height

/-- `TopologicalBlockIterator._get_next_block_to_release`, applied to a
state whose ready queue starts with `b`: pop it and disorphanate its
children (`orphans.pop(block.block_hash, ())`). -/
def topoRelease (st : TopoState) (b : Block) (rest : List Block) : TopoState :=
  let st1 := { st with ready := rest }
  match apop b.block_hash st1.orphans with
  | none => st1
  | some (children, orphans') =>
    disorphanateChildren { st1 with orphans := orphans' } children (b.height + 1)

/-- `TopologicalBlockIterator.__next__`: read upstream blocks until the
ready queue is nonempty, then release its head.  Returns `none` when the
upstream iterator is exhausted while the ready queue is empty
(`StopIteration`). -/
def topoNext : TopoState → List Block → Option (Block × TopoState × List Block)
  | st, input =>
    match st.ready with
    | b :: rest => some (b, topoRelease st b rest, input)
    | [] =>
      match input with
      | [] => none
      | c :: input' => topoNext (topoReadBlock st c) input'

/-- Iterating `TopologicalBlockIterator.__next__` to exhaustion,
collecting the emitted blocks.  The fuel bounds the number of emissions;
each emission consumes a block that was read exactly once, so
`input.length` emissions can never be exceeded. -/
def topoRunFuel : Nat → TopoState → List Block → List Block
  | 0, _, _ => []
  | fuel + 1, st, input =>
    match topoNext st input with
    | none => []
    | some (b, st', input') => b :: topoRunFuel fuel st' input'

/-- The full sequence emitted by a `TopologicalBlockIterator` whose
upstream stored-block iterator produces `input`. -/
def topoRun (input : List Block) : List Block :=
  topoRunFuel (input.length + 1) initTopoState input

/-! ## BlockFilter (`chainscan/scan.py`) -/

/-- The three possible results of a filter check in
`BlockFilter._check`: pass (`True`), exclude (`False`), or end the
stream (`raise StopIteration`). -/
inductive FCheck where
  | incl
  | excl
  | stopIter
deriving DecidableEq, Repr

/-- `BlockFilter._check` with `is_ordered=True` (height and timestamp
boundaries): before the inclusive start and not yet started, exclude; at
or after the exclusive stop and already started, stop. -/
def filterCheckOrdered {α : Type} [LinearOrder α]
    (value : α) (bounds : Option α × Option α) (is_started : Bool) : FCheck :=
  let startFail :=
    match bounds.1, is_started with
    | some s, false => decide (value < s)
    | _, _ => false
  let stopHit :=
    match bounds.2, is_started with
    | some s, true => decide (s ≤ value)
    | _, _ => false
  if startFail then .excl else if stopHit then .stopIter else .incl

/-- `BlockFilter._check` with `is_ordered=False` (block-hash
boundaries): exact-match sentinels. -/
def filterCheckUnordered {α : Type} [DecidableEq α]
    (value : α) (bounds : Option α × Option α) (is_started : Bool) : FCheck :=
  let startFail :=
    match bounds.1, is_started with
    | some s, false => decide (value ≠ s)
    | _, _ => false
  let stopHit :=
    match bounds.2, is_started with
    | some s, true => decide (value = s)
    | _, _ => false
  if startFail then .excl else if stopHit then .stopIter else .incl

/-- `BlockFilter`: start/stop criteria on height, timestamp and block
hash.  Each field is `some (start?, stop?)` when at least one of the two
bounds was given to `__init__`, `none` otherwise. -/
structure BlockFilter where
  block_height : Option (Option Int × Option Int)
  block_time : Option (Option Nat × Option Nat)
  block_hash : Option (Option Hash × Option Hash)
deriving DecidableEq, Repr

/-- `BlockFilter.__init__` from the six keyword arguments. -/
def mkBlockFilter (start_block_height stop_block_height : Option Int)
    (start_block_time stop_block_time : Option Nat)
    (start_block_hash stop_block_hash : Option Hash) : BlockFilter :=
  { block_height :=
      if start_block_height.isSome ∨ stop_block_height.isSome then
        some (start_block_height, stop_block_height)
      else none
    block_time :=
      if start_block_time.isSome ∨ stop_block_time.isSome then
        some (start_block_time, stop_block_time)
      else none
    block_hash :=
      if start_block_hash.isSome ∨ stop_block_hash.isSome then
        some (start_block_hash, stop_block_hash)
      else none }

/-- Sequencing of the per-attribute checks in `BlockFilter.check_block`:
a check that passes falls through to the next one; `False` and
`StopIteration` short-circuit. -/
def fcSeq (r : FCheck) (next : FCheck) : FCheck :=
  match r with
  | .incl => next
  | r => r

/-- `BlockFilter.check_block`: apply the height, timestamp and hash
checks in this order. -/
def BlockFilter.checkBlock (f : BlockFilter) (b : Block) (is_started : Bool) : FCheck :=
  let rh :=
    match f.block_height with
    | none => FCheck.incl
    | some bounds => filterCheckOrdered b.height bounds is_started
  let rt :=
    match f.block_time with
    | none => FCheck.incl
    | some bounds => filterCheckOrdered b.timestamp bounds is_started
  let rb :=
    match f.block_hash with
    | none => FCheck.incl
    | some bounds => filterCheckUnordered b.block_hash bounds is_started
  fcSeq rh (fcSeq rt rb)

/-- `_WorkingBlockFilter.check_block`: the filter together with its
`is_started` / `is_ended` state.  Returns the check result and the new
`(is_started, is_ended)` pair. -/
def workingCheckBlock (f : BlockFilter) (is_started is_ended : Bool) (b : Block) :
    FCheck × Bool × Bool :=
  if is_ended then (.stopIter, is_started, is_ended)
  else
    match f.checkBlock b is_started with
    | .incl => (.incl, true, is_ended)
    | .excl => (.excl, is_started, is_ended)
    | .stopIter => (.stopIter, is_started, true)

/-- Sequential application of `_WorkingBlockFilter.check_block` to a
stream of blocks, as the `while True` loop of
`LongestChainBlockIterator.__next__` does with each block it is about to
release: a `True` verdict emits the block, a `False` verdict skips it,
and a `StopIteration` from the filter ends the run (recorded as `true`
in the second component; `false` means the stream itself was
exhausted). -/
def filterRun (f : BlockFilter) : Bool → Bool → List Block → List Block × Bool
  | _, _, [] => ([], false)
  | is_started, is_ended, b :: rest =>
    match workingCheckBlock f is_started is_ended b with
    | (.incl, s, e) =>
      match filterRun f s e rest with
      | (out, ended) => (b :: out, ended)
    | (.excl, s, e) => filterRun f s e rest
    | (.stopIter, _, _) => ([], true)

/-! ## LongestChainBlockIterator (`chainscan/scan.py`) -/

/-- A node of the longest-chain fork tree: either the dummy pre-genesis
block (`_DUMMY_PRE_GENESIS_BLOCK`, a `Bunch` carrying only `height = -1`
and `block_hash = GENESIS_PREV_BLOCK_HASH`) or a real block. -/
inductive TreeBlock where
  | preGenesis
  | real (b : Block)
deriving DecidableEq, Repr

/-- The `height` attribute of a tree node. -/
def TreeBlock.height : TreeBlock → Int
  | .preGenesis => -1
  | .real b => b.height

/-- The `block_hash` attribute of a tree node. -/
def TreeBlock.bhash : TreeBlock → Hash
  | .preGenesis => ZERO_HASH
  | .real b => b.block_hash

/-- The `prev_block_hash` attribute of a tree node.  The dummy
pre-genesis `Bunch` has no such attribute: accessing it raises
`AttributeError`, modelled by `none`. -/
def TreeBlock.prevHash? : TreeBlock → Option Hash
  | .preGenesis => none
  | .real b => some b.prev_block_hash

/-- The state of `LongestChainBlockIterator`: the fork tree
(`_blocks_by_hash`, `_block_children`, `_leaf_heights` — kept sorted
ascending), `_root_block`, `_last_block`, and the working-filter state
(unused when no filter is configured). -/
structure LCState where
  root_block : TreeBlock
  last_block : TreeBlock
  blocks_by_hash : List (Hash × TreeBlock)
  block_children : List (Hash × List Block)
  leaf_heights : List Int
  filter_started : Bool
  filter_ended : Bool
deriving DecidableEq, Repr

/-- The state of a freshly constructed `LongestChainBlockIterator`. -/
def initLCState : LCState :=
  { root_block := .preGenesis
    last_block := .preGenesis
    blocks_by_hash := [(ZERO_HASH, .preGenesis)]
    block_children := [(ZERO_HASH, [])]
    leaf_heights := [-1]
    filter_started := false
    filter_ended := false }

/-- `LongestChainBlockIterator._read_another_block`, given the block the
upstream topological iterator produced.  A block whose prev is not in
the tree is silently ignored (`except KeyError`); a failure of the
height assertion is a crash (`none`). -/
def readAnotherBlock (st : LCState) (b : Block) : Option LCState :=
  match alookup b.prev_block_hash st.blocks_by_hash with
  | none => some st
  | some prev =>
    if prev.height + 1 = b.height then
      let bbh := aset b.block_hash (TreeBlock.real b) st.blocks_by_hash
      let bc0 := aset b.block_hash ([] : List Block) st.block_children
      match alookup b.prev_block_hash bc0 with
      | none => none
      | some prevChildren =>
        let bc1 := aset b.prev_block_hash (prevChildren ++ [b]) bc0
        let isPrevLeaf := prevChildren.isEmpty
        match (if isPrevLeaf then removeOne (b.height - 1) st.leaf_heights
               else some st.leaf_heights) with
        | none => none
        | some lh0 =>
          some { st with
                 last_block := TreeBlock.real b
                 blocks_by_hash := bbh
                 block_children := bc1
                 leaf_heights := insertSorted b.height lh0 }
    else none

/-- `LongestChainBlockIterator._check_heights_gap`: is the longest fork
leading by at least the safety margin over the second longest
(`leaf_heights[-2]`, or the root's height when there is a single leaf)?
Crashes (`none`) when `leaf_heights` is empty or the `height1 >= height2`
assertion fails. -/
def checkHeightsGap (margin : Int) (st : LCState) : Option Bool :=
  match st.leaf_heights.getLast? with
  | none => none
  | some h1 =>
    match (if st.leaf_heights.length ≥ 2 then st.leaf_heights[st.leaf_heights.length - 2]?
           else some st.root_block.height) with
    | none => none
    | some h2 => if h1 ≥ h2 then some (decide (h1 - h2 ≥ margin)) else none

/-- `LongestChainBlockIterator._find_child_from`: walk `prev_block_hash`
links from `block` until reaching a block whose prev is the root's hash;
that block is the root's survivor child.  Crashes (`none`) on the dummy
pre-genesis block (AttributeError), on a missing hash (KeyError), or on
fuel exhaustion (the walk is no longer than the tree, so the fuel
supplied at the call site cannot run out). -/
def findChildFrom (fuel : Nat) (bbh : List (Hash × TreeBlock)) (block : TreeBlock)
    (rootHash : Hash) : Option Block :=
  match fuel with
  | 0 => none
  | fuel + 1 =>
    match block with
    | .preGenesis => none
    | .real b =>
      if b.prev_block_hash = rootHash then some b
      else
        match alookup b.prev_block_hash bbh with
        | none => none
        | some blk => findChildFrom fuel bbh blk rootHash

/-- `LongestChainBlockIterator._discard_block`: remove a block from
`_blocks_by_hash` and `_block_children`, and from `_leaf_heights` when
it is a leaf; return the children it had. -/
def discardBlock (st : LCState) (tb : TreeBlock) : Option (LCState × List Block) :=
  match apop tb.bhash st.blocks_by_hash with
  | none => none
  | some (_, bbh) =>
    match apop tb.bhash st.block_children with
    | none => none
    | some (children, bc) =>
      if children.isEmpty then
        match removeOne tb.height st.leaf_heights with
        | none => none
        | some lh =>
          some ({ st with blocks_by_hash := bbh, block_children := bc, leaf_heights := lh },
                children)
      else
        some ({ st with blocks_by_hash := bbh, block_children := bc }, children)

/-- The recursive part of `LongestChainBlockIterator._discard_tree`:
discard every block in the worklist together with its descendants, depth
first (a block's children are processed before the rest of the
worklist, exactly as in the DFS of the source). -/
def discardAll : Nat → LCState → List Block → Option LCState
  | 0, _, _ => none
  | _ + 1, st, [] => some st
  | fuel + 1, st, c :: rest =>
    match discardBlock st (.real c) with
    | none => none
    | some (st', children) => discardAll fuel st' (children ++ rest)

/-- `LongestChainBlockIterator._discard_tree(root, survivor_child)`:
discard the root, then all of its children except the survivor, each
with its whole subtree. -/
def discardTreeFrom (st : LCState) (root : TreeBlock) (survivor : Block) : Option LCState :=
  match discardBlock st root with
  | none => none
  | some (st1, children) =>
    discardAll (st1.blocks_by_hash.length + 1) st1 (children.filter (fun c => c ≠ survivor))

/-- `LongestChainBlockIterator._get_next_block_to_release`: `none` is a
crash; `some (none, st)` means the longest chain is not determined yet;
`some (some b, st')` releases `b` and trims the tree. -/
def getNextBlockToRelease (margin : Int) (st : LCState) : Option (Option Block × LCState) :=
  match checkHeightsGap margin st with
  | none => none
  | some false => some (none, st)
  | some true =>
    match st.leaf_heights.getLast? with
    | none => none
    | some h1 =>
      if st.last_block.height = h1 then
        match findChildFrom (st.blocks_by_hash.length + 1) st.blocks_by_hash
            st.last_block st.root_block.bhash with
        | none => none
        | some nb =>
          match discardTreeFrom st st.root_block nb with
          | none => none
          | some st' => some (some nb, st')
      else none

/-- `LongestChainBlockIterator._check_block`: apply the block filter, if
any, through its working state kept in `st`. -/
def lcCheckBlock (filt : Option BlockFilter) (st : LCState) (b : Block) : FCheck × LCState :=
  match filt with
  | none => (FCheck.incl, st)
  | some f =>
    let r := workingCheckBlock f st.filter_started st.filter_ended b
    (r.1, { st with filter_started := r.2.1, filter_ended := r.2.2 })

/-- The three ways one call to `LongestChainBlockIterator.__next__` can
end: it returns a block (with the new state and the upstream elements
not yet consumed), raises `StopIteration` (upstream exhausted, or the
filter ended the stream), or raises some other exception. -/
inductive LCStep where
  | yield (b : Block) (st : LCState) (rest : List Block)
  | stop
  | crash
deriving Repr

/-- `LongestChainBlockIterator.__next__`: repeatedly try to release a
pending block (assigning `_root_block` and applying the filter), reading
another upstream block whenever no block is released or the released
block was excluded by the filter. -/
def lcNext (margin : Int) (filt : Option BlockFilter) : LCState → List Block → LCStep
  | st, input =>
    match getNextBlockToRelease margin st with
    | none => LCStep.crash
    | some (some b, st1) =>
      let st2 := { st1 with root_block := TreeBlock.real b }
      match lcCheckBlock filt st2 b with
      | (FCheck.incl, st3) => LCStep.yield b st3 input
      | (FCheck.stopIter, _) => LCStep.stop
      | (FCheck.excl, st3) =>
        match input with
        | [] => LCStep.stop
        | c :: rest =>
          match readAnotherBlock st3 c with
          | none => LCStep.crash
          | some st4 => lcNext margin filt st4 rest
    | some (none, st1) =>
      match input with
      | [] => LCStep.stop
      | c :: rest =>
        match readAnotherBlock st1 c with
        | none => LCStep.crash
        | some st2 => lcNext margin filt st2 rest

/-- Iterating `LongestChainBlockIterator.__next__` to exhaustion.
Returns the emitted blocks, paired with `true` when the iteration ended
with `StopIteration` and `false` when it aborted with another exception.
Each emission removes at least the current root from the fork tree, so
`input.length + 1` emissions can never be exceeded. -/
def lcRunFuel : Nat → Int → Option BlockFilter → LCState → List Block → List Block × Bool
  | 0, _, _, _, _ => ([], false)
  | fuel + 1, margin, filt, st, input =>
    match lcNext margin filt st input with
    | .yield b st' rest =>
      let r := lcRunFuel fuel margin filt st' rest
      (b :: r.1, r.2)
    | .stop => ([], true)
    | .crash => ([], false)

/-- The full sequence emitted by a `LongestChainBlockIterator` with the
given safety margin and filter, whose upstream topological iterator
produces `input`; paired with `true` for a clean end of iteration. -/
def lcRun (margin : Int) (filt : Option BlockFilter) (input : List Block) :
    List Block × Bool :=
  lcRunFuel (input.length + 1) margin filt initLCState input

/-! ## BlockChain (`chainscan/blockchain.py`) -/

/-- `BlockInfo`: compact block metadata. -/
structure BlockInfo where
  block_hash : Hash
  height : Int
  timestamp : Nat
  num_txs : Nat
  rawsize : Nat
deriving DecidableEq, Repr

/-- `BlockChain`: an `OrderedDict` from block hash to `BlockInfo`
(`_blocks`, heights reflected by insertion order) plus the secondary
index `_height_to_hash`. -/
structure BlockChain where
  _blocks : List (Hash × BlockInfo)
  _height_to_hash : List (Int × Hash)
deriving DecidableEq, Repr

/-- `BlockChain.__init__` with no initial blocks. -/
def emptyBlockChain : BlockChain := { _blocks := [], _height_to_hash := [] }

/-- `BlockChain.__len__`. -/
def BlockChain.size (bc : BlockChain) : Nat := bc._blocks.length

/-- The `BlockChain.height` property: `len(self) - 1`. -/
def BlockChain.height (bc : BlockChain) : Int := (bc.size : Int) - 1

/-- `BlockChain.contains_hash`. -/
def BlockChain.contains_hash (bc : BlockChain) (block_hash : Hash) : Bool :=
  (alookup block_hash bc._blocks).isSome

/-- `BlockChain.contains_block`. -/
def BlockChain.contains_block (bc : BlockChain) (block : BlockInfo) : Bool :=
  bc.contains_hash block.block_hash

/-- The value returned by the `BlockChain.__contains__` method: its body
evaluates `self.contains_block(block)` but has no `return` statement, so
the method always returns `None` (modelled as `none`; a returned boolean
would be `some`). -/
def BlockChain.containsMethodResult (bc : BlockChain) (block : BlockInfo) : Option Bool :=
  let _ := bc.contains_block block
  none

/-- The result of the Python membership test `block in bc`: the `in`
operator coerces the value returned by `__contains__` to a boolean, and
`bool(None)` is `False`. -/
def BlockChain.mem (bc : BlockChain) (block : BlockInfo) : Bool :=
  match bc.containsMethodResult block with
  | none => false
  | some r => r

/-- `BlockChain.append`: verify the height is the current height plus
one and the hash is fresh, then add the block to both indexes.  `none`
models the `ValueError` raised on a failed check (the checks precede the
mutations, so the Python object is unchanged in that case). -/
def BlockChain.append (bc : BlockChain) (block : BlockInfo) : Option BlockChain :=
  if block.height ≠ bc.height + 1 then none
  else if bc.contains_hash block.block_hash then none
  else
    some { _blocks := aset block.block_hash block bc._blocks
           _height_to_hash := aset block.height block.block_hash bc._height_to_hash }

/-! ## UTXO set and spending tracker (`chainscan/track.py`) -/

/-- A transaction output: `value` in satoshis and a script. -/
structure TxOutput where
  value : Nat
  script : List Nat
deriving DecidableEq, Repr

/-- `OutputInfo`: what the UTXO set records per unspent output — at
minimum `value` and `block_height`, and the script when the set is
configured to retain scripts. -/
structure OutputInfo where
  value : Nat
  block_height : Int
  script : Option (List Nat)
deriving DecidableEq, Repr

/-- The payload of a transaction input: either a coinbase input
(`CoinbaseTxInput`, carrying only script and sequence) or a regular
input with its spent-output reference. -/
inductive TxInputData where
  | coinbase (script : List Nat) (sequence : Nat)
  | spending (spent_txid : List Nat) (spent_output_idx : Nat)
      (script : List Nat) (sequence : Nat)
deriving DecidableEq, Repr

/-- A transaction input, together with the `spending_info` attribute the
tracker sets on it (absent until set). -/
structure TxInput where
  data : TxInputData
  spending_info : Option OutputInfo
deriving DecidableEq, Repr

/-- The `is_coinbase` attribute of a tx input. -/
def TxInput.is_coinbase (txin : TxInput) : Bool :=
  match txin.data with
  | .coinbase _ _ => true
  | .spending _ _ _ _ => false

/-- The fields of a transaction that the spending tracker reads.
`block_height` is the height of the containing block, which the UTXO set
records in the `OutputInfo` of each output. -/
structure Tx where
  txid : List Nat
  inputs : List TxInput
  outputs : List TxOutput
  block_height : Int
deriving DecidableEq, Repr

/-- A UTXO key: `(txid, output index)`. -/
abbrev UtxoKey := List Nat × Nat

/-- Modelled from the spec: `UtxoSet` is implemented in the Cython
module `_track_c`, which is not part of the Python sources; per spec
§4.7 it is a mapping `(txid, vout) → OutputInfo`, with an
`include_scripts` flag controlling whether output scripts are
retained. -/
structure UtxoSet where
  entries : List (UtxoKey × OutputInfo)
  include_scripts : Bool
deriving DecidableEq, Repr

/-- Modelled from the spec: `UtxoSet.spend` removes `(txid, vout)` from
the index and returns the removed `OutputInfo`; a missing entry signals
`UnknownOutput` (modelled as `none`). -/
def UtxoSet.spend (u : UtxoSet) (txid : List Nat) (idx : Nat) :
    Option (OutputInfo × UtxoSet) :=
  match apop (txid, idx) u.entries with
  | none => none
  | some (info, entries') => some (info, { u with entries := entries' })

/-- Modelled from the spec: `UtxoSet.add_from_tx` inserts
`(txid, i) → OutputInfo { value, block_height, [script] }` for each
output of the transaction; duplicate insertion overwrites. -/
def UtxoSet.add_from_tx (u : UtxoSet) (tx : Tx) : UtxoSet :=
  let rec go (entries : List (UtxoKey × OutputInfo)) (outs : List TxOutput) (i : Nat) :
      List (UtxoKey × OutputInfo) :=
    match outs with
    | [] => entries
    | o :: rest =>
      let info : OutputInfo :=
        { value := o.value
          block_height := tx.block_height
          script := if u.include_scripts then some o.script else none }
      go (aset (tx.txid, i) info entries) rest (i + 1)
  { u with entries := go u.entries tx.outputs 0 }

/-- The input loop of `_track_tx_spending`: coinbase inputs are skipped
(`continue`) with no UTXO access; for each other input, the referenced
output is removed from the UTXO set and attached to the input as its
`spending_info`.  `none` models the `UnknownOutput` failure. -/
def trackInputs (inputs : List TxInput) (u : UtxoSet) :
    Option (List TxInput × UtxoSet) :=
  match inputs with
  | [] => some ([], u)
  | txin :: rest =>
    match txin.data with
    | .coinbase _ _ =>
      match trackInputs rest u with
      | none => none
      | some (rest', u') => some (txin :: rest', u')
    | .spending spent_txid spent_output_idx _ _ =>
        match u.spend spent_txid spent_output_idx with
        | none => none
        | some (info, u') =>
          match trackInputs rest u' with
          | none => none
          | some (rest', u'') =>
            some ({ txin with spending_info := some info } :: rest', u'')

/-- `_track_tx_spending`: process all inputs (removing the outputs they
spend from the UTXO set and attaching them), and only then add the
transaction's own outputs to the UTXO set. -/
def trackTxSpending (tx : Tx) (u : UtxoSet) : Option (Tx × UtxoSet) :=
  match trackInputs tx.inputs u with
  | none => none
  | some (inputs', u') =>
    let tx' := { tx with inputs := inputs' }
    some (tx', u'.add_from_tx tx')

/-! ## Concrete example data (used by witnesses and counterexamples) -/

/-- A synthetic stored block: hash `[i+1]`, parent `[i]` (the genesis
prev-hash for `i = 0`), height `-1` as left by `RawFileBlockIterator`. -/
def exBlock (i : Nat) : Block :=
  { block_hash := [i + 1]
    prev_block_hash := if i = 0 then ZERO_HASH else [i]
    height := -1
    timestamp := i }

/-- A synthetic linear chain of `n` stored blocks in storage order. -/
def exChain (n : Nat) : List Block := (List.range n).map exBlock

/-- A synthetic fork block: a second child of `exBlock 1`. -/
def exForkBlock : Block :=
  { block_hash := [99], prev_block_hash := [2], height := -1, timestamp := 99 }

/-- Replay a sequence of upstream reads into a longest-chain state
(used only to build concrete states for witnesses). -/
def lcFeed : LCState → List Block → Option LCState
  | st, [] => some st
  | st, b :: rest =>
    match readAnotherBlock st b with
    | none => none
    | some st' => lcFeed st' rest

/-- A concrete fork-tree state holding the six blocks of `exChain 6`. -/
def exLCState : LCState :=
  (lcFeed initLCState (topoRun (exChain 6))).getD initLCState

/-- A concrete fork-tree state with two fork tips at equal heights. -/
def exLCStateTie : LCState :=
  (lcFeed initLCState (topoRun (exChain 3 ++ [exForkBlock]))).getD initLCState

/-- A concrete coinbase transaction with one 50-coin output. -/
def exCoinbaseTx : Tx :=
  { txid := [10]
    inputs := [{ data := .coinbase [5] 0, spending_info := none }]
    outputs := [{ value := 5000000000, script := [1, 2] }]
    block_height := 0 }

/-- A concrete transaction spending `(exCoinbaseTx.txid, 0)` and
producing two outputs. -/
def exSpendTx : Tx :=
  { txid := [11]
    inputs := [{ data := .spending [10] 0 [6] 0, spending_info := none }]
    outputs := [{ value := 4000000000, script := [3] }, { value := 1000000000, script := [4] }]
    block_height := 1 }

/-- An empty UTXO set not retaining scripts. -/
def exUtxo0 : UtxoSet := { entries := [], include_scripts := false }

/-- A concrete `BlockInfo` at height `i`. -/
def exInfo (i : Nat) : BlockInfo :=
  { block_hash := [i + 1], height := i, timestamp := i, num_txs := 1, rawsize := 100 }

/-! ## Invariant predicates -/

/-- The relation claimed between consecutive blocks of the
longest-chain stream. -/
def chainRel (a b : Block) : Prop :=
  b.prev_block_hash = a.block_hash ∧ b.height = a.height + 1

/-- What the topological stream guarantees about an emitted block `b`
relative to the blocks `pre` emitted before it. -/
def topoCond (pre : List Block) (b : Block) : Prop :=
  (b.prev_block_hash = ZERO_HASH → b.height = 0) ∧
  (b.prev_block_hash ≠ ZERO_HASH →
    ∃ p ∈ pre, p.block_hash = b.prev_block_hash ∧ b.height = p.height + 1)

/-- The ready queue is consistent: each queued block is a genesis block
(height 0) or extends a block that appears among the already-emitted
blocks or earlier in the queue. -/
def ReadyOK (pre : List Block) : List Block → Prop
  | [] => True
  | b :: rest => topoCond pre b ∧ ReadyOK (pre ++ [b]) rest

/-- Invariant of the topological iterator state, relative to the blocks
already emitted. -/
structure TopoInv (st : TopoState) (emitted : List Block) : Prop where
  hbh_ok : ∀ h v, (h, v) ∈ st.height_by_hash →
    (h = ZERO_HASH ∧ v = -1) ∨
    ∃ p ∈ emitted ++ st.ready, p.block_hash = h ∧ p.height = v
  ready_ok : ReadyOK emitted st.ready
  no_zero : ∀ b ∈ emitted ++ st.ready, b.block_hash ≠ ZERO_HASH
  orph_prev : ∀ ph lst, (ph, lst) ∈ st.orphans → ∀ c ∈ lst, c.prev_block_hash = ph
  orph_no_zero : ∀ ph lst, (ph, lst) ∈ st.orphans → ∀ c ∈ lst, c.block_hash ≠ ZERO_HASH

/-- The hashes of all blocks stored in the children lists of the fork
tree. -/
def childHashes (st : LCState) : List Hash :=
  (st.block_children.flatMap Prod.snd).map Block.block_hash

/-- Invariant of the longest-chain iterator state, relative to the
blocks the upstream iterator will still produce. -/
structure LCInv (st : LCState) (rest : List Block) : Prop where
  ndk : (akeys st.blocks_by_hash).Nodup
  km : ∀ k tb, (k, tb) ∈ st.blocks_by_hash → TreeBlock.bhash tb = k
  rootMem : (st.root_block.bhash, st.root_block) ∈ st.blocks_by_hash
  lastMem : (st.last_block.bhash, st.last_block) ∈ st.blocks_by_hash ∨
    st.last_block = st.root_block
  heightOK : ∀ k tb, (k, tb) ∈ st.blocks_by_hash → ∀ ph, tb.prevHash? = some ph →
    ∀ p, alookup ph st.blocks_by_hash = some p → tb.height = p.height + 1
  ck : akeys st.blocks_by_hash = akeys st.block_children
  childrenOK : ∀ k cs, (k, cs) ∈ st.block_children → ∀ c ∈ cs, c.prev_block_hash = k
  uc : ((st.block_children.flatMap Prod.snd).map Block.block_hash).Nodup
  childMem : ∀ k tb, (k, tb) ∈ st.blocks_by_hash → tb ≠ st.root_block →
    ∃ c, tb = TreeBlock.real c ∧
      ∃ cs, alookup c.prev_block_hash st.block_children = some cs ∧ c ∈ cs
  listedMem : ∀ k cs, (k, cs) ∈ st.block_children → ∀ c ∈ cs,
    (c.block_hash, TreeBlock.real c) ∈ st.blocks_by_hash
  noSelfLoop : ∀ k b, (k, TreeBlock.real b) ∈ st.blocks_by_hash →
    b.prev_block_hash ≠ b.block_hash
  rootDelisted : TreeBlock.bhash st.root_block ∉ childHashes st
  rootPrevDead : ∀ rp, st.root_block.prevHash? = some rp → rp ∉ akeys st.blocks_by_hash
  fresh : ∀ r ∈ rest, r.block_hash ∉ akeys st.blocks_by_hash ∧
    r.block_hash ∉ childHashes st ∧
    (∀ rp, st.root_block.prevHash? = some rp → r.block_hash ≠ rp)
  freshNd : (rest.map Block.block_hash).Nodup

/-- Well-formedness of a `BlockChain`: block hashes occur at most once,
entries are keyed by their own hash, the stored heights are exactly
`0..len-1` in insertion order, and the height index mirrors the main
index. -/
structure BlockChainWF (bc : BlockChain) : Prop where
  nd : (akeys bc._blocks).Nodup
  km : ∀ k info, (k, info) ∈ bc._blocks → info.block_hash = k
  heights : bc._blocks.map (fun p => p.2.height) = (List.range bc.size).map Int.ofNat
  hindex : bc._height_to_hash = bc._blocks.map (fun p => (p.2.height, p.1))

/-- The UTXO key a transaction input spends, if it is not a coinbase
input. -/
def TxInput.spentKey? (txin : TxInput) : Option UtxoKey :=
  match txin.data with
  | .coinbase _ _ => none
  | .spending t i _ _ => some (t, i)

/-- The UTXO keys spent by a transaction's inputs. -/
def spentKeys (tx : Tx) : List UtxoKey := tx.inputs.filterMap TxInput.spentKey?

/-- The UTXO keys of a transaction's own outputs. -/
def outKeys (tx : Tx) : List UtxoKey :=
  (List.range tx.outputs.length).map (fun i => (tx.txid, i))

/-- The `OutputInfo` the UTXO set records for one output of `tx`. -/
def mkOutputInfo (u : UtxoSet) (tx : Tx) (o : TxOutput) : OutputInfo :=
  { value := o.value
    block_height := tx.block_height
    script := if u.include_scripts then some o.script else none }

/-- Lookup in the UTXO set. -/
def UtxoSet.lookup (u : UtxoSet) (k : UtxoKey) : Option OutputInfo := alookup k u.entries

/-- The height filter `[100, 200)` of scenario S6. -/
def exHeightFilter : BlockFilter :=
  mkBlockFilter (some 100) (some 200) none none none none

/-- Out-of-order storage: blocks `[A, C, B]` where `B`'s parent is `A`
and `C`'s parent is `B` (scenario S3). -/
def exOutOfOrder : List Block := [exBlock 0, exBlock 2, exBlock 1]

/-- What the spending tracker does to one input, in terms of the UTXO
set `u` the transaction was processed against: a coinbase input is left
untouched; any other input gets the `OutputInfo` that `u` held for its
spent-output reference attached as `spending_info`. -/
def trackedInput (u : UtxoSet) (txin txin' : TxInput) : Prop :=
  match txin.data with
  | .coinbase _ _ => txin' = txin
  | .spending t j _ _ =>
    txin'.data = txin.data ∧
    ∃ info, u.lookup (t, j) = some info ∧ txin'.spending_info = some info

/-- A block as the topological iterator emits it: `exBlock i` with its
height assigned. -/
def exTopoBlock (i : Nat) : Block := { exBlock i with height := i }

/-- The block released by `getNextBlockToRelease` on `exLCState` (a
concrete emission, used as witness input). -/
def exReleasedBlock : Block :=
  match getNextBlockToRelease 6 exLCState with
  | some (some b, _) => b
  | _ => exBlock 0

/-- The trimmed state left by that release. -/
def exReleasedState : LCState :=
  match getNextBlockToRelease 6 exLCState with
  | some (some _, st) => st
  | _ => initLCState

/-- The UTXO set after adding `exCoinbaseTx`'s outputs. -/
def exUtxo1 : UtxoSet := exUtxo0.add_from_tx exCoinbaseTx

/-- The concrete result of tracking `exSpendTx` against `exUtxo1`. -/
def exTracked : Tx × UtxoSet :=
  (trackTxSpending exSpendTx exUtxo1).getD (exSpendTx, exUtxo0)

-- Concrete run data for the longest-chain scenarios (states and inputs).

/-- The suffix of the 300-block topologically ordered chain after
`k` blocks have been consumed. -/
def c3In (k : Nat) : List Block := (List.range' k (300 - k)).map exTopoBlock

def c2aOut : List Block :=
  []

def c2aSt0 : LCState :=
  { root_block := TreeBlock.preGenesis,
    last_block := TreeBlock.preGenesis,
    blocks_by_hash := [(ZERO_HASH, TreeBlock.preGenesis)],
    block_children := [(ZERO_HASH, [])],
    leaf_heights := [-1],
    filter_started := false, filter_ended := false }

def c2aIn0 : List Block :=
  [{ block_hash := [1], prev_block_hash := ZERO_HASH, height := 0, timestamp := 0 }, { block_hash := [2], prev_block_hash := [1], height := 1, timestamp := 1 }]

def c2bOut : List Block :=
  []

def c2bSt0 : LCState :=
  { root_block := TreeBlock.preGenesis,
    last_block := TreeBlock.preGenesis,
    blocks_by_hash := [(ZERO_HASH, TreeBlock.preGenesis)],
    block_children := [(ZERO_HASH, [])],
    leaf_heights := [-1],
    filter_started := false, filter_ended := false }

def c2bIn0 : List Block :=
  [{ block_hash := [1], prev_block_hash := ZERO_HASH, height := 0, timestamp := 0 }, { block_hash := [2], prev_block_hash := [1], height := 1, timestamp := 1 }]

def c2bSt1 : LCState :=
  { root_block := TreeBlock.preGenesis,
    last_block := TreeBlock.real ({ block_hash := [1], prev_block_hash := ZERO_HASH, height := 0, timestamp := 0 }),
    blocks_by_hash := [(ZERO_HASH, TreeBlock.preGenesis), ([1], TreeBlock.real ({ block_hash := [1], prev_block_hash := ZERO_HASH, height := 0, timestamp := 0 }))],
    block_children := [(ZERO_HASH, [{ block_hash := [1], prev_block_hash := ZERO_HASH, height := 0, timestamp := 0 }]), ([1], [])],
    leaf_heights := [0],
    filter_started := false, filter_ended := false }

def c2bIn1 : List Block :=
  [{ block_hash := [2], prev_block_hash := [1], height := 1, timestamp := 1 }]

def c2bSt2 : LCState :=
  { root_block := TreeBlock.preGenesis,
    last_block := TreeBlock.real ({ block_hash := [2], prev_block_hash := [1], height := 1, timestamp := 1 }),
    blocks_by_hash := [(ZERO_HASH, TreeBlock.preGenesis), ([1], TreeBlock.real ({ block_hash := [1], prev_block_hash := ZERO_HASH, height := 0, timestamp := 0 })), ([2], TreeBlock.real ({ block_hash := [2], prev_block_hash := [1], height := 1, timestamp := 1 }))],
    block_children := [(ZERO_HASH, [{ block_hash := [1], prev_block_hash := ZERO_HASH, height := 0, timestamp := 0 }]), ([1], [{ block_hash := [2], prev_block_hash := [1], height := 1, timestamp := 1 }]), ([2], [])],
    leaf_heights := [1],
    filter_started := false, filter_ended := false }

def c2bIn2 : List Block :=
  []

def c2cOut : List Block :=
  []

def c2cSt0 : LCState :=
  { root_block := TreeBlock.preGenesis,
    last_block := TreeBlock.preGenesis,
    blocks_by_hash := [(ZERO_HASH, TreeBlock.preGenesis)],
    block_children := [(ZERO_HASH, [])],
    leaf_heights := [-1],
    filter_started := false, filter_ended := false }

def c2cIn0 : List Block :=
  [{ block_hash := [1], prev_block_hash := ZERO_HASH, height := 0, timestamp := 0 }, { block_hash := [2], prev_block_hash := [1], height := 1, timestamp := 1 }, { block_hash := [3], prev_block_hash := [2], height := 2, timestamp := 2 }, { block_hash := [4], prev_block_hash := [3], height := 3, timestamp := 3 }, { block_hash := [5], prev_block_hash := [4], height := 4, timestamp := 4 }]

def c2cSt1 : LCState :=
  { root_block := TreeBlock.preGenesis,
    last_block := TreeBlock.real ({ block_hash := [1], prev_block_hash := ZERO_HASH, height := 0, timestamp := 0 }),
    blocks_by_hash := [(ZERO_HASH, TreeBlock.preGenesis), ([1], TreeBlock.real ({ block_hash := [1], prev_block_hash := ZERO_HASH, height := 0, timestamp := 0 }))],
    block_children := [(ZERO_HASH, [{ block_hash := [1], prev_block_hash := ZERO_HASH, height := 0, timestamp := 0 }]), ([1], [])],
    leaf_heights := [0],
    filter_started := false, filter_ended := false }

def c2cIn1 : List Block :=
  [{ block_hash := [2], prev_block_hash := [1], height := 1, timestamp := 1 }, { block_hash := [3], prev_block_hash := [2], height := 2, timestamp := 2 }, { block_hash := [4], prev_block_hash := [3], height := 3, timestamp := 3 }, { block_hash := [5], prev_block_hash := [4], height := 4, timestamp := 4 }]

def c2cSt2 : LCState :=
  { root_block := TreeBlock.preGenesis,
    last_block := TreeBlock.real ({ block_hash := [2], prev_block_hash := [1], height := 1, timestamp := 1 }),
    blocks_by_hash := [(ZERO_HASH, TreeBlock.preGenesis), ([1], TreeBlock.real ({ block_hash := [1], prev_block_hash := ZERO_HASH, height := 0, timestamp := 0 })), ([2], TreeBlock.real ({ block_hash := [2], prev_block_hash := [1], height := 1, timestamp := 1 }))],
    block_children := [(ZERO_HASH, [{ block_hash := [1], prev_block_hash := ZERO_HASH, height := 0, timestamp := 0 }]), ([1], [{ block_hash := [2], prev_block_hash := [1], height := 1, timestamp := 1 }]), ([2], [])],
    leaf_heights := [1],
    filter_started := false, filter_ended := false }

def c2cIn2 : List Block :=
  [{ block_hash := [3], prev_block_hash := [2], height := 2, timestamp := 2 }, { block_hash := [4], prev_block_hash := [3], height := 3, timestamp := 3 }, { block_hash := [5], prev_block_hash := [4], height := 4, timestamp := 4 }]

def c2cSt3 : LCState :=
  { root_block := TreeBlock.preGenesis,
    last_block := TreeBlock.real ({ block_hash := [3], prev_block_hash := [2], height := 2, timestamp := 2 }),
    blocks_by_hash := [(ZERO_HASH, TreeBlock.preGenesis), ([1], TreeBlock.real ({ block_hash := [1], prev_block_hash := ZERO_HASH, height := 0, timestamp := 0 })), ([2], TreeBlock.real ({ block_hash := [2], prev_block_hash := [1], height := 1, timestamp := 1 })), ([3], TreeBlock.real ({ block_hash := [3], prev_block_hash := [2], height := 2, timestamp := 2 }))],
    block_children := [(ZERO_HASH, [{ block_hash := [1], prev_block_hash := ZERO_HASH, height := 0, timestamp := 0 }]), ([1], [{ block_hash := [2], prev_block_hash := [1], height := 1, timestamp := 1 }]), ([2], [{ block_hash := [3], prev_block_hash := [2], height := 2, timestamp := 2 }]), ([3], [])],
    leaf_heights := [2],
    filter_started := false, filter_ended := false }

def c2cIn3 : List Block :=
  [{ block_hash := [4], prev_block_hash := [3], height := 3, timestamp := 3 }, { block_hash := [5], prev_block_hash := [4], height := 4, timestamp := 4 }]

def c2cSt4 : LCState :=
  { root_block := TreeBlock.preGenesis,
    last_block := TreeBlock.real ({ block_hash := [4], prev_block_hash := [3], height := 3, timestamp := 3 }),
    blocks_by_hash := [(ZERO_HASH, TreeBlock.preGenesis), ([1], TreeBlock.real ({ block_hash := [1], prev_block_hash := ZERO_HASH, height := 0, timestamp := 0 })), ([2], TreeBlock.real ({ block_hash := [2], prev_block_hash := [1], height := 1, timestamp := 1 })), ([3], TreeBlock.real ({ block_hash := [3], prev_block_hash := [2], height := 2, timestamp := 2 })), ([4], TreeBlock.real ({ block_hash := [4], prev_block_hash := [3], height := 3, timestamp := 3 }))],
    block_children := [(ZERO_HASH, [{ block_hash := [1], prev_block_hash := ZERO_HASH, height := 0, timestamp := 0 }]), ([1], [{ block_hash := [2], prev_block_hash := [1], height := 1, timestamp := 1 }]), ([2], [{ block_hash := [3], prev_block_hash := [2], height := 2, timestamp := 2 }]), ([3], [{ block_hash := [4], prev_block_hash := [3], height := 3, timestamp := 3 }]), ([4], [])],
    leaf_heights := [3],
    filter_started := false, filter_ended := false }

def c2cIn4 : List Block :=
  [{ block_hash := [5], prev_block_hash := [4], height := 4, timestamp := 4 }]

def c2cSt5 : LCState :=
  { root_block := TreeBlock.preGenesis,
    last_block := TreeBlock.real ({ block_hash := [5], prev_block_hash := [4], height := 4, timestamp := 4 }),
    blocks_by_hash := [(ZERO_HASH, TreeBlock.preGenesis), ([1], TreeBlock.real ({ block_hash := [1], prev_block_hash := ZERO_HASH, height := 0, timestamp := 0 })), ([2], TreeBlock.real ({ block_hash := [2], prev_block_hash := [1], height := 1, timestamp := 1 })), ([3], TreeBlock.real ({ block_hash := [3], prev_block_hash := [2], height := 2, timestamp := 2 })), ([4], TreeBlock.real ({ block_hash := [4], prev_block_hash := [3], height := 3, timestamp := 3 })), ([5], TreeBlock.real ({ block_hash := [5], prev_block_hash := [4], height := 4, timestamp := 4 }))],
    block_children := [(ZERO_HASH, [{ block_hash := [1], prev_block_hash := ZERO_HASH, height := 0, timestamp := 0 }]), ([1], [{ block_hash := [2], prev_block_hash := [1], height := 1, timestamp := 1 }]), ([2], [{ block_hash := [3], prev_block_hash := [2], height := 2, timestamp := 2 }]), ([3], [{ block_hash := [4], prev_block_hash := [3], height := 3, timestamp := 3 }]), ([4], [{ block_hash := [5], prev_block_hash := [4], height := 4, timestamp := 4 }]), ([5], [])],
    leaf_heights := [4],
    filter_started := false, filter_ended := false }

def c2cIn5 : List Block :=
  []

def c2dOut : List Block :=
  [{ block_hash := [1], prev_block_hash := ZERO_HASH, height := 0, timestamp := 0 }]

def c2dSt0 : LCState :=
  { root_block := TreeBlock.real ({ block_hash := [1], prev_block_hash := ZERO_HASH, height := 0, timestamp := 0 }),
    last_block := TreeBlock.real ({ block_hash := [6], prev_block_hash := [5], height := 5, timestamp := 5 }),
    blocks_by_hash := [([1], TreeBlock.real ({ block_hash := [1], prev_block_hash := ZERO_HASH, height := 0, timestamp := 0 })), ([2], TreeBlock.real ({ block_hash := [2], prev_block_hash := [1], height := 1, timestamp := 1 })), ([3], TreeBlock.real ({ block_hash := [3], prev_block_hash := [2], height := 2, timestamp := 2 })), ([4], TreeBlock.real ({ block_hash := [4], prev_block_hash := [3], height := 3, timestamp := 3 })), ([5], TreeBlock.real ({ block_hash := [5], prev_block_hash := [4], height := 4, timestamp := 4 })), ([6], TreeBlock.real ({ block_hash := [6], prev_block_hash := [5], height := 5, timestamp := 5 }))],
    block_children := [([1], [{ block_hash := [2], prev_block_hash := [1], height := 1, timestamp := 1 }]), ([2], [{ block_hash := [3], prev_block_hash := [2], height := 2, timestamp := 2 }]), ([3], [{ block_hash := [4], prev_block_hash := [3], height := 3, timestamp := 3 }]), ([4], [{ block_hash := [5], prev_block_hash := [4], height := 4, timestamp := 4 }]), ([5], [{ block_hash := [6], prev_block_hash := [5], height := 5, timestamp := 5 }]), ([6], [])],
    leaf_heights := [5],
    filter_started := false, filter_ended := false }

def c2dIn6 : List Block :=
  []

def c2dSt1 : LCState :=
  { root_block := TreeBlock.preGenesis,
    last_block := TreeBlock.preGenesis,
    blocks_by_hash := [(ZERO_HASH, TreeBlock.preGenesis)],
    block_children := [(ZERO_HASH, [])],
    leaf_heights := [-1],
    filter_started := false, filter_ended := false }

def c2dIn0 : List Block :=
  [{ block_hash := [1], prev_block_hash := ZERO_HASH, height := 0, timestamp := 0 }, { block_hash := [2], prev_block_hash := [1], height := 1, timestamp := 1 }, { block_hash := [3], prev_block_hash := [2], height := 2, timestamp := 2 }, { block_hash := [4], prev_block_hash := [3], height := 3, timestamp := 3 }, { block_hash := [5], prev_block_hash := [4], height := 4, timestamp := 4 }, { block_hash := [6], prev_block_hash := [5], height := 5, timestamp := 5 }]

def c2dSt2 : LCState :=
  { root_block := TreeBlock.preGenesis,
    last_block := TreeBlock.real ({ block_hash := [1], prev_block_hash := ZERO_HASH, height := 0, timestamp := 0 }),
    blocks_by_hash := [(ZERO_HASH, TreeBlock.preGenesis), ([1], TreeBlock.real ({ block_hash := [1], prev_block_hash := ZERO_HASH, height := 0, timestamp := 0 }))],
    block_children := [(ZERO_HASH, [{ block_hash := [1], prev_block_hash := ZERO_HASH, height := 0, timestamp := 0 }]), ([1], [])],
    leaf_heights := [0],
    filter_started := false, filter_ended := false }

def c2dIn1 : List Block :=
  [{ block_hash := [2], prev_block_hash := [1], height := 1, timestamp := 1 }, { block_hash := [3], prev_block_hash := [2], height := 2, timestamp := 2 }, { block_hash := [4], prev_block_hash := [3], height := 3, timestamp := 3 }, { block_hash := [5], prev_block_hash := [4], height := 4, timestamp := 4 }, { block_hash := [6], prev_block_hash := [5], height := 5, timestamp := 5 }]

def c2dSt3 : LCState :=
  { root_block := TreeBlock.preGenesis,
    last_block := TreeBlock.real ({ block_hash := [2], prev_block_hash := [1], height := 1, timestamp := 1 }),
    blocks_by_hash := [(ZERO_HASH, TreeBlock.preGenesis), ([1], TreeBlock.real ({ block_hash := [1], prev_block_hash := ZERO_HASH, height := 0, timestamp := 0 })), ([2], TreeBlock.real ({ block_hash := [2], prev_block_hash := [1], height := 1, timestamp := 1 }))],
    block_children := [(ZERO_HASH, [{ block_hash := [1], prev_block_hash := ZERO_HASH, height := 0, timestamp := 0 }]), ([1], [{ block_hash := [2], prev_block_hash := [1], height := 1, timestamp := 1 }]), ([2], [])],
    leaf_heights := [1],
    filter_started := false, filter_ended := false }

def c2dIn2 : List Block :=
  [{ block_hash := [3], prev_block_hash := [2], height := 2, timestamp := 2 }, { block_hash := [4], prev_block_hash := [3], height := 3, timestamp := 3 }, { block_hash := [5], prev_block_hash := [4], height := 4, timestamp := 4 }, { block_hash := [6], prev_block_hash := [5], height := 5, timestamp := 5 }]

def c2dSt4 : LCState :=
  { root_block := TreeBlock.preGenesis,
    last_block := TreeBlock.real ({ block_hash := [3], prev_block_hash := [2], height := 2, timestamp := 2 }),
    blocks_by_hash := [(ZERO_HASH, TreeBlock.preGenesis), ([1], TreeBlock.real ({ block_hash := [1], prev_block_hash := ZERO_HASH, height := 0, timestamp := 0 })), ([2], TreeBlock.real ({ block_hash := [2], prev_block_hash := [1], height := 1, timestamp := 1 })), ([3], TreeBlock.real ({ block_hash := [3], prev_block_hash := [2], height := 2, timestamp := 2 }))],
    block_children := [(ZERO_HASH, [{ block_hash := [1], prev_block_hash := ZERO_HASH, height := 0, timestamp := 0 }]), ([1], [{ block_hash := [2], prev_block_hash := [1], height := 1, timestamp := 1 }]), ([2], [{ block_hash := [3], prev_block_hash := [2], height := 2, timestamp := 2 }]), ([3], [])],
    leaf_heights := [2],
    filter_started := false, filter_ended := false }

def c2dIn3 : List Block :=
  [{ block_hash := [4], prev_block_hash := [3], height := 3, timestamp := 3 }, { block_hash := [5], prev_block_hash := [4], height := 4, timestamp := 4 }, { block_hash := [6], prev_block_hash := [5], height := 5, timestamp := 5 }]

def c2dSt5 : LCState :=
  { root_block := TreeBlock.preGenesis,
    last_block := TreeBlock.real ({ block_hash := [4], prev_block_hash := [3], height := 3, timestamp := 3 }),
    blocks_by_hash := [(ZERO_HASH, TreeBlock.preGenesis), ([1], TreeBlock.real ({ block_hash := [1], prev_block_hash := ZERO_HASH, height := 0, timestamp := 0 })), ([2], TreeBlock.real ({ block_hash := [2], prev_block_hash := [1], height := 1, timestamp := 1 })), ([3], TreeBlock.real ({ block_hash := [3], prev_block_hash := [2], height := 2, timestamp := 2 })), ([4], TreeBlock.real ({ block_hash := [4], prev_block_hash := [3], height := 3, timestamp := 3 }))],
    block_children := [(ZERO_HASH, [{ block_hash := [1], prev_block_hash := ZERO_HASH, height := 0, timestamp := 0 }]), ([1], [{ block_hash := [2], prev_block_hash := [1], height := 1, timestamp := 1 }]), ([2], [{ block_hash := [3], prev_block_hash := [2], height := 2, timestamp := 2 }]), ([3], [{ block_hash := [4], prev_block_hash := [3], height := 3, timestamp := 3 }]), ([4], [])],
    leaf_heights := [3],
    filter_started := false, filter_ended := false }

def c2dIn4 : List Block :=
  [{ block_hash := [5], prev_block_hash := [4], height := 4, timestamp := 4 }, { block_hash := [6], prev_block_hash := [5], height := 5, timestamp := 5 }]

def c2dSt6 : LCState :=
  { root_block := TreeBlock.preGenesis,
    last_block := TreeBlock.real ({ block_hash := [5], prev_block_hash := [4], height := 4, timestamp := 4 }),
    blocks_by_hash := [(ZERO_HASH, TreeBlock.preGenesis), ([1], TreeBlock.real ({ block_hash := [1], prev_block_hash := ZERO_HASH, height := 0, timestamp := 0 })), ([2], TreeBlock.real ({ block_hash := [2], prev_block_hash := [1], height := 1, timestamp := 1 })), ([3], TreeBlock.real ({ block_hash := [3], prev_block_hash := [2], height := 2, timestamp := 2 })), ([4], TreeBlock.real ({ block_hash := [4], prev_block_hash := [3], height := 3, timestamp := 3 })), ([5], TreeBlock.real ({ block_hash := [5], prev_block_hash := [4], height := 4, timestamp := 4 }))],
    block_children := [(ZERO_HASH, [{ block_hash := [1], prev_block_hash := ZERO_HASH, height := 0, timestamp := 0 }]), ([1], [{ block_hash := [2], prev_block_hash := [1], height := 1, timestamp := 1 }]), ([2], [{ block_hash := [3], prev_block_hash := [2], height := 2, timestamp := 2 }]), ([3], [{ block_hash := [4], prev_block_hash := [3], height := 3, timestamp := 3 }]), ([4], [{ block_hash := [5], prev_block_hash := [4], height := 4, timestamp := 4 }]), ([5], [])],
    leaf_heights := [4],
    filter_started := false, filter_ended := false }

def c2dIn5 : List Block :=
  [{ block_hash := [6], prev_block_hash := [5], height := 5, timestamp := 5 }]

def c2dSt7 : LCState :=
  { root_block := TreeBlock.preGenesis,
    last_block := TreeBlock.real ({ block_hash := [6], prev_block_hash := [5], height := 5, timestamp := 5 }),
    blocks_by_hash := [(ZERO_HASH, TreeBlock.preGenesis), ([1], TreeBlock.real ({ block_hash := [1], prev_block_hash := ZERO_HASH, height := 0, timestamp := 0 })), ([2], TreeBlock.real ({ block_hash := [2], prev_block_hash := [1], height := 1, timestamp := 1 })), ([3], TreeBlock.real ({ block_hash := [3], prev_block_hash := [2], height := 2, timestamp := 2 })), ([4], TreeBlock.real ({ block_hash := [4], prev_block_hash := [3], height := 3, timestamp := 3 })), ([5], TreeBlock.real ({ block_hash := [5], prev_block_hash := [4], height := 4, timestamp := 4 })), ([6], TreeBlock.real ({ block_hash := [6], prev_block_hash := [5], height := 5, timestamp := 5 }))],
    block_children := [(ZERO_HASH, [{ block_hash := [1], prev_block_hash := ZERO_HASH, height := 0, timestamp := 0 }]), ([1], [{ block_hash := [2], prev_block_hash := [1], height := 1, timestamp := 1 }]), ([2], [{ block_hash := [3], prev_block_hash := [2], height := 2, timestamp := 2 }]), ([3], [{ block_hash := [4], prev_block_hash := [3], height := 3, timestamp := 3 }]), ([4], [{ block_hash := [5], prev_block_hash := [4], height := 4, timestamp := 4 }]), ([5], [{ block_hash := [6], prev_block_hash := [5], height := 5, timestamp := 5 }]), ([6], [])],
    leaf_heights := [5],
    filter_started := false, filter_ended := false }

def c2dSt8 : LCState :=
  { root_block := TreeBlock.preGenesis,
    last_block := TreeBlock.real ({ block_hash := [6], prev_block_hash := [5], height := 5, timestamp := 5 }),
    blocks_by_hash := [([1], TreeBlock.real ({ block_hash := [1], prev_block_hash := ZERO_HASH, height := 0, timestamp := 0 })), ([2], TreeBlock.real ({ block_hash := [2], prev_block_hash := [1], height := 1, timestamp := 1 })), ([3], TreeBlock.real ({ block_hash := [3], prev_block_hash := [2], height := 2, timestamp := 2 })), ([4], TreeBlock.real ({ block_hash := [4], prev_block_hash := [3], height := 3, timestamp := 3 })), ([5], TreeBlock.real ({ block_hash := [5], prev_block_hash := [4], height := 4, timestamp := 4 })), ([6], TreeBlock.real ({ block_hash := [6], prev_block_hash := [5], height := 5, timestamp := 5 }))],
    block_children := [([1], [{ block_hash := [2], prev_block_hash := [1], height := 1, timestamp := 1 }]), ([2], [{ block_hash := [3], prev_block_hash := [2], height := 2, timestamp := 2 }]), ([3], [{ block_hash := [4], prev_block_hash := [3], height := 3, timestamp := 3 }]), ([4], [{ block_hash := [5], prev_block_hash := [4], height := 4, timestamp := 4 }]), ([5], [{ block_hash := [6], prev_block_hash := [5], height := 5, timestamp := 5 }]), ([6], [])],
    leaf_heights := [5],
    filter_started := false, filter_ended := false }

def c2eOut : List Block :=
  [{ block_hash := [1], prev_block_hash := ZERO_HASH, height := 0, timestamp := 0 }, { block_hash := [2], prev_block_hash := [1], height := 1, timestamp := 1 }]

def c2eSt0 : LCState :=
  { root_block := TreeBlock.real ({ block_hash := [1], prev_block_hash := ZERO_HASH, height := 0, timestamp := 0 }),
    last_block := TreeBlock.real ({ block_hash := [6], prev_block_hash := [5], height := 5, timestamp := 5 }),
    blocks_by_hash := [([1], TreeBlock.real ({ block_hash := [1], prev_block_hash := ZERO_HASH, height := 0, timestamp := 0 })), ([2], TreeBlock.real ({ block_hash := [2], prev_block_hash := [1], height := 1, timestamp := 1 })), ([3], TreeBlock.real ({ block_hash := [3], prev_block_hash := [2], height := 2, timestamp := 2 })), ([4], TreeBlock.real ({ block_hash := [4], prev_block_hash := [3], height := 3, timestamp := 3 })), ([5], TreeBlock.real ({ block_hash := [5], prev_block_hash := [4], height := 4, timestamp := 4 })), ([6], TreeBlock.real ({ block_hash := [6], prev_block_hash := [5], height := 5, timestamp := 5 }))],
    block_children := [([1], [{ block_hash := [2], prev_block_hash := [1], height := 1, timestamp := 1 }]), ([2], [{ block_hash := [3], prev_block_hash := [2], height := 2, timestamp := 2 }]), ([3], [{ block_hash := [4], prev_block_hash := [3], height := 3, timestamp := 3 }]), ([4], [{ block_hash := [5], prev_block_hash := [4], height := 4, timestamp := 4 }]), ([5], [{ block_hash := [6], prev_block_hash := [5], height := 5, timestamp := 5 }]), ([6], [])],
    leaf_heights := [5],
    filter_started := false, filter_ended := false }

def c2eIn6 : List Block :=
  [{ block_hash := [7], prev_block_hash := [6], height := 6, timestamp := 6 }]

def c2eSt1 : LCState :=
  { root_block := TreeBlock.preGenesis,
    last_block := TreeBlock.preGenesis,
    blocks_by_hash := [(ZERO_HASH, TreeBlock.preGenesis)],
    block_children := [(ZERO_HASH, [])],
    leaf_heights := [-1],
    filter_started := false, filter_ended := false }

def c2eIn0 : List Block :=
  [{ block_hash := [1], prev_block_hash := ZERO_HASH, height := 0, timestamp := 0 }, { block_hash := [2], prev_block_hash := [1], height := 1, timestamp := 1 }, { block_hash := [3], prev_block_hash := [2], height := 2, timestamp := 2 }, { block_hash := [4], prev_block_hash := [3], height := 3, timestamp := 3 }, { block_hash := [5], prev_block_hash := [4], height := 4, timestamp := 4 }, { block_hash := [6], prev_block_hash := [5], height := 5, timestamp := 5 }, { block_hash := [7], prev_block_hash := [6], height := 6, timestamp := 6 }]

def c2eSt2 : LCState :=
  { root_block := TreeBlock.preGenesis,
    last_block := TreeBlock.real ({ block_hash := [1], prev_block_hash := ZERO_HASH, height := 0, timestamp := 0 }),
    blocks_by_hash := [(ZERO_HASH, TreeBlock.preGenesis), ([1], TreeBlock.real ({ block_hash := [1], prev_block_hash := ZERO_HASH, height := 0, timestamp := 0 }))],
    block_children := [(ZERO_HASH, [{ block_hash := [1], prev_block_hash := ZERO_HASH, height := 0, timestamp := 0 }]), ([1], [])],
    leaf_heights := [0],
    filter_started := false, filter_ended := false }

def c2eIn1 : List Block :=
  [{ block_hash := [2], prev_block_hash := [1], height := 1, timestamp := 1 }, { block_hash := [3], prev_block_hash := [2], height := 2, timestamp := 2 }, { block_hash := [4], prev_block_hash := [3], height := 3, timestamp := 3 }, { block_hash := [5], prev_block_hash := [4], height := 4, timestamp := 4 }, { block_hash := [6], prev_block_hash := [5], height := 5, timestamp := 5 }, { block_hash := [7], prev_block_hash := [6], height := 6, timestamp := 6 }]

def c2eSt3 : LCState :=
  { root_block := TreeBlock.preGenesis,
    last_block := TreeBlock.real ({ block_hash := [2], prev_block_hash := [1], height := 1, timestamp := 1 }),
    blocks_by_hash := [(ZERO_HASH, TreeBlock.preGenesis), ([1], TreeBlock.real ({ block_hash := [1], prev_block_hash := ZERO_HASH, height := 0, timestamp := 0 })), ([2], TreeBlock.real ({ block_hash := [2], prev_block_hash := [1], height := 1, timestamp := 1 }))],
    block_children := [(ZERO_HASH, [{ block_hash := [1], prev_block_hash := ZERO_HASH, height := 0, timestamp := 0 }]), ([1], [{ block_hash := [2], prev_block_hash := [1], height := 1, timestamp := 1 }]), ([2], [])],
    leaf_heights := [1],
    filter_started := false, filter_ended := false }

def c2eIn2 : List Block :=
  [{ block_hash := [3], prev_block_hash := [2], height := 2, timestamp := 2 }, { block_hash := [4], prev_block_hash := [3], height := 3, timestamp := 3 }, { block_hash := [5], prev_block_hash := [4], height := 4, timestamp := 4 }, { block_hash := [6], prev_block_hash := [5], height := 5, timestamp := 5 }, { block_hash := [7], prev_block_hash := [6], height := 6, timestamp := 6 }]

def c2eSt4 : LCState :=
  { root_block := TreeBlock.preGenesis,
    last_block := TreeBlock.real ({ block_hash := [3], prev_block_hash := [2], height := 2, timestamp := 2 }),
    blocks_by_hash := [(ZERO_HASH, TreeBlock.preGenesis), ([1], TreeBlock.real ({ block_hash := [1], prev_block_hash := ZERO_HASH, height := 0, timestamp := 0 })), ([2], TreeBlock.real ({ block_hash := [2], prev_block_hash := [1], height := 1, timestamp := 1 })), ([3], TreeBlock.real ({ block_hash := [3], prev_block_hash := [2], height := 2, timestamp := 2 }))],
    block_children := [(ZERO_HASH, [{ block_hash := [1], prev_block_hash := ZERO_HASH, height := 0, timestamp := 0 }]), ([1], [{ block_hash := [2], prev_block_hash := [1], height := 1, timestamp := 1 }]), ([2], [{ block_hash := [3], prev_block_hash := [2], height := 2, timestamp := 2 }]), ([3], [])],
    leaf_heights := [2],
    filter_started := false, filter_ended := false }

def c2eIn3 : List Block :=
  [{ block_hash := [4], prev_block_hash := [3], height := 3, timestamp := 3 }, { block_hash := [5], prev_block_hash := [4], height := 4, timestamp := 4 }, { block_hash := [6], prev_block_hash := [5], height := 5, timestamp := 5 }, { block_hash := [7], prev_block_hash := [6], height := 6, timestamp := 6 }]

def c2eSt5 : LCState :=
  { root_block := TreeBlock.preGenesis,
    last_block := TreeBlock.real ({ block_hash := [4], prev_block_hash := [3], height := 3, timestamp := 3 }),
    blocks_by_hash := [(ZERO_HASH, TreeBlock.preGenesis), ([1], TreeBlock.real ({ block_hash := [1], prev_block_hash := ZERO_HASH, height := 0, timestamp := 0 })), ([2], TreeBlock.real ({ block_hash := [2], prev_block_hash := [1], height := 1, timestamp := 1 })), ([3], TreeBlock.real ({ block_hash := [3], prev_block_hash := [2], height := 2, timestamp := 2 })), ([4], TreeBlock.real ({ block_hash := [4], prev_block_hash := [3], height := 3, timestamp := 3 }))],
    block_children := [(ZERO_HASH, [{ block_hash := [1], prev_block_hash := ZERO_HASH, height := 0, timestamp := 0 }]), ([1], [{ block_hash := [2], prev_block_hash := [1], height := 1, timestamp := 1 }]), ([2], [{ block_hash := [3], prev_block_hash := [2], height := 2, timestamp := 2 }]), ([3], [{ block_hash := [4], prev_block_hash := [3], height := 3, timestamp := 3 }]), ([4], [])],
    leaf_heights := [3],
    filter_started := false, filter_ended := false }

def c2eIn4 : List Block :=
  [{ block_hash := [5], prev_block_hash := [4], height := 4, timestamp := 4 }, { block_hash := [6], prev_block_hash := [5], height := 5, timestamp := 5 }, { block_hash := [7], prev_block_hash := [6], height := 6, timestamp := 6 }]

def c2eSt6 : LCState :=
  { root_block := TreeBlock.preGenesis,
    last_block := TreeBlock.real ({ block_hash := [5], prev_block_hash := [4], height := 4, timestamp := 4 }),
    blocks_by_hash := [(ZERO_HASH, TreeBlock.preGenesis), ([1], TreeBlock.real ({ block_hash := [1], prev_block_hash := ZERO_HASH, height := 0, timestamp := 0 })), ([2], TreeBlock.real ({ block_hash := [2], prev_block_hash := [1], height := 1, timestamp := 1 })), ([3], TreeBlock.real ({ block_hash := [3], prev_block_hash := [2], height := 2, timestamp := 2 })), ([4], TreeBlock.real ({ block_hash := [4], prev_block_hash := [3], height := 3, timestamp := 3 })), ([5], TreeBlock.real ({ block_hash := [5], prev_block_hash := [4], height := 4, timestamp := 4 }))],
    block_children := [(ZERO_HASH, [{ block_hash := [1], prev_block_hash := ZERO_HASH, height := 0, timestamp := 0 }]), ([1], [{ block_hash := [2], prev_block_hash := [1], height := 1, timestamp := 1 }]), ([2], [{ block_hash := [3], prev_block_hash := [2], height := 2, timestamp := 2 }]), ([3], [{ block_hash := [4], prev_block_hash := [3], height := 3, timestamp := 3 }]), ([4], [{ block_hash := [5], prev_block_hash := [4], height := 4, timestamp := 4 }]), ([5], [])],
    leaf_heights := [4],
    filter_started := false, filter_ended := false }

def c2eIn5 : List Block :=
  [{ block_hash := [6], prev_block_hash := [5], height := 5, timestamp := 5 }, { block_hash := [7], prev_block_hash := [6], height := 6, timestamp := 6 }]

def c2eSt7 : LCState :=
  { root_block := TreeBlock.preGenesis,
    last_block := TreeBlock.real ({ block_hash := [6], prev_block_hash := [5], height := 5, timestamp := 5 }),
    blocks_by_hash := [(ZERO_HASH, TreeBlock.preGenesis), ([1], TreeBlock.real ({ block_hash := [1], prev_block_hash := ZERO_HASH, height := 0, timestamp := 0 })), ([2], TreeBlock.real ({ block_hash := [2], prev_block_hash := [1], height := 1, timestamp := 1 })), ([3], TreeBlock.real ({ block_hash := [3], prev_block_hash := [2], height := 2, timestamp := 2 })), ([4], TreeBlock.real ({ block_hash := [4], prev_block_hash := [3], height := 3, timestamp := 3 })), ([5], TreeBlock.real ({ block_hash := [5], prev_block_hash := [4], height := 4, timestamp := 4 })), ([6], TreeBlock.real ({ block_hash := [6], prev_block_hash := [5], height := 5, timestamp := 5 }))],
    block_children := [(ZERO_HASH, [{ block_hash := [1], prev_block_hash := ZERO_HASH, height := 0, timestamp := 0 }]), ([1], [{ block_hash := [2], prev_block_hash := [1], height := 1, timestamp := 1 }]), ([2], [{ block_hash := [3], prev_block_hash := [2], height := 2, timestamp := 2 }]), ([3], [{ block_hash := [4], prev_block_hash := [3], height := 3, timestamp := 3 }]), ([4], [{ block_hash := [5], prev_block_hash := [4], height := 4, timestamp := 4 }]), ([5], [{ block_hash := [6], prev_block_hash := [5], height := 5, timestamp := 5 }]), ([6], [])],
    leaf_heights := [5],
    filter_started := false, filter_ended := false }

def c2eSt8 : LCState :=
  { root_block := TreeBlock.preGenesis,
    last_block := TreeBlock.real ({ block_hash := [6], prev_block_hash := [5], height := 5, timestamp := 5 }),
    blocks_by_hash := [([1], TreeBlock.real ({ block_hash := [1], prev_block_hash := ZERO_HASH, height := 0, timestamp := 0 })), ([2], TreeBlock.real ({ block_hash := [2], prev_block_hash := [1], height := 1, timestamp := 1 })), ([3], TreeBlock.real ({ block_hash := [3], prev_block_hash := [2], height := 2, timestamp := 2 })), ([4], TreeBlock.real ({ block_hash := [4], prev_block_hash := [3], height := 3, timestamp := 3 })), ([5], TreeBlock.real ({ block_hash := [5], prev_block_hash := [4], height := 4, timestamp := 4 })), ([6], TreeBlock.real ({ block_hash := [6], prev_block_hash := [5], height := 5, timestamp := 5 }))],
    block_children := [([1], [{ block_hash := [2], prev_block_hash := [1], height := 1, timestamp := 1 }]), ([2], [{ block_hash := [3], prev_block_hash := [2], height := 2, timestamp := 2 }]), ([3], [{ block_hash := [4], prev_block_hash := [3], height := 3, timestamp := 3 }]), ([4], [{ block_hash := [5], prev_block_hash := [4], height := 4, timestamp := 4 }]), ([5], [{ block_hash := [6], prev_block_hash := [5], height := 5, timestamp := 5 }]), ([6], [])],
    leaf_heights := [5],
    filter_started := false, filter_ended := false }

def c2eSt9 : LCState :=
  { root_block := TreeBlock.real ({ block_hash := [2], prev_block_hash := [1], height := 1, timestamp := 1 }),
    last_block := TreeBlock.real ({ block_hash := [7], prev_block_hash := [6], height := 6, timestamp := 6 }),
    blocks_by_hash := [([2], TreeBlock.real ({ block_hash := [2], prev_block_hash := [1], height := 1, timestamp := 1 })), ([3], TreeBlock.real ({ block_hash := [3], prev_block_hash := [2], height := 2, timestamp := 2 })), ([4], TreeBlock.real ({ block_hash := [4], prev_block_hash := [3], height := 3, timestamp := 3 })), ([5], TreeBlock.real ({ block_hash := [5], prev_block_hash := [4], height := 4, timestamp := 4 })), ([6], TreeBlock.real ({ block_hash := [6], prev_block_hash := [5], height := 5, timestamp := 5 })), ([7], TreeBlock.real ({ block_hash := [7], prev_block_hash := [6], height := 6, timestamp := 6 }))],
    block_children := [([2], [{ block_hash := [3], prev_block_hash := [2], height := 2, timestamp := 2 }]), ([3], [{ block_hash := [4], prev_block_hash := [3], height := 3, timestamp := 3 }]), ([4], [{ block_hash := [5], prev_block_hash := [4], height := 4, timestamp := 4 }]), ([5], [{ block_hash := [6], prev_block_hash := [5], height := 5, timestamp := 5 }]), ([6], [{ block_hash := [7], prev_block_hash := [6], height := 6, timestamp := 6 }]), ([7], [])],
    leaf_heights := [6],
    filter_started := false, filter_ended := false }

def c2eIn7 : List Block :=
  []

def c2eSt10 : LCState :=
  { root_block := TreeBlock.real ({ block_hash := [1], prev_block_hash := ZERO_HASH, height := 0, timestamp := 0 }),
    last_block := TreeBlock.real ({ block_hash := [7], prev_block_hash := [6], height := 6, timestamp := 6 }),
    blocks_by_hash := [([1], TreeBlock.real ({ block_hash := [1], prev_block_hash := ZERO_HASH, height := 0, timestamp := 0 })), ([2], TreeBlock.real ({ block_hash := [2], prev_block_hash := [1], height := 1, timestamp := 1 })), ([3], TreeBlock.real ({ block_hash := [3], prev_block_hash := [2], height := 2, timestamp := 2 })), ([4], TreeBlock.real ({ block_hash := [4], prev_block_hash := [3], height := 3, timestamp := 3 })), ([5], TreeBlock.real ({ block_hash := [5], prev_block_hash := [4], height := 4, timestamp := 4 })), ([6], TreeBlock.real ({ block_hash := [6], prev_block_hash := [5], height := 5, timestamp := 5 })), ([7], TreeBlock.real ({ block_hash := [7], prev_block_hash := [6], height := 6, timestamp := 6 }))],
    block_children := [([1], [{ block_hash := [2], prev_block_hash := [1], height := 1, timestamp := 1 }]), ([2], [{ block_hash := [3], prev_block_hash := [2], height := 2, timestamp := 2 }]), ([3], [{ block_hash := [4], prev_block_hash := [3], height := 3, timestamp := 3 }]), ([4], [{ block_hash := [5], prev_block_hash := [4], height := 4, timestamp := 4 }]), ([5], [{ block_hash := [6], prev_block_hash := [5], height := 5, timestamp := 5 }]), ([6], [{ block_hash := [7], prev_block_hash := [6], height := 6, timestamp := 6 }]), ([7], [])],
    leaf_heights := [6],
    filter_started := false, filter_ended := false }

def c2eSt11 : LCState :=
  { root_block := TreeBlock.real ({ block_hash := [1], prev_block_hash := ZERO_HASH, height := 0, timestamp := 0 }),
    last_block := TreeBlock.real ({ block_hash := [7], prev_block_hash := [6], height := 6, timestamp := 6 }),
    blocks_by_hash := [([2], TreeBlock.real ({ block_hash := [2], prev_block_hash := [1], height := 1, timestamp := 1 })), ([3], TreeBlock.real ({ block_hash := [3], prev_block_hash := [2], height := 2, timestamp := 2 })), ([4], TreeBlock.real ({ block_hash := [4], prev_block_hash := [3], height := 3, timestamp := 3 })), ([5], TreeBlock.real ({ block_hash := [5], prev_block_hash := [4], height := 4, timestamp := 4 })), ([6], TreeBlock.real ({ block_hash := [6], prev_block_hash := [5], height := 5, timestamp := 5 })), ([7], TreeBlock.real ({ block_hash := [7], prev_block_hash := [6], height := 6, timestamp := 6 }))],
    block_children := [([2], [{ block_hash := [3], prev_block_hash := [2], height := 2, timestamp := 2 }]), ([3], [{ block_hash := [4], prev_block_hash := [3], height := 3, timestamp := 3 }]), ([4], [{ block_hash := [5], prev_block_hash := [4], height := 4, timestamp := 4 }]), ([5], [{ block_hash := [6], prev_block_hash := [5], height := 5, timestamp := 5 }]), ([6], [{ block_hash := [7], prev_block_hash := [6], height := 6, timestamp := 6 }]), ([7], [])],
    leaf_heights := [6],
    filter_started := false, filter_ended := false }

-- End of concrete run data.

/-! ## Lemmas about the association-list primitives -/

section AListLemmas

variable {κ β : Type} [DecidableEq κ] {k k' : κ} {v v' w : β} {l l' : List (κ × β)}

theorem alookup_eq_none : alookup k l = none ↔ k ∉ akeys l := by
  induction l with
  | nil => simp [alookup, akeys]
  | cons p rest ih =>
    obtain ⟨k₀, v₀⟩ := p
    by_cases h : k₀ = k
    · subst h
      simp [alookup, akeys]
    · have h' : k ≠ k₀ := fun he => h he.symm
      simp [alookup, akeys, h, h', ih]

theorem mem_of_alookup (h : alookup k l = some v) : (k, v) ∈ l := by
  induction l with
  | nil => simp [alookup] at h
  | cons p rest ih =>
    obtain ⟨k₀, v₀⟩ := p
    by_cases hk : k₀ = k
    · subst hk
      simp [alookup] at h
      simp [h]
    · simp [alookup, hk] at h
      simp [ih h]

theorem akeys_mem_of_mem (h : (k, v) ∈ l) : k ∈ akeys l := by
  simpa [akeys] using List.mem_map_of_mem Prod.fst h

theorem alookup_of_mem_nodup (hnd : (akeys l).Nodup) (h : (k, v) ∈ l) :
    alookup k l = some v := by
  induction l with
  | nil => simp at h
  | cons p rest ih =>
    obtain ⟨k₀, v₀⟩ := p
    simp only [akeys, List.map_cons, List.nodup_cons] at hnd
    rcases List.mem_cons.mp h with h₁ | h₂
    · obtain ⟨hk, hv⟩ := Prod.mk.injEq .. ▸ h₁
      subst hk
      subst hv
      simp [alookup]
    · by_cases hk : k₀ = k
      · subst hk
        exact absurd (akeys_mem_of_mem h₂) (by simpa [akeys] using hnd.1)
      · simpa [alookup, hk] using ih (by simpa [akeys] using hnd.2) h₂

theorem mem_entry_unique (hnd : (akeys l).Nodup) (h₁ : (k, v) ∈ l) (h₂ : (k, v') ∈ l) :
    v = v' := by
  have e₁ := alookup_of_mem_nodup hnd h₁
  have e₂ := alookup_of_mem_nodup hnd h₂
  rw [e₁] at e₂
  exact (Option.some.injEq .. ▸ e₂)

theorem aset_of_not_mem (h : k ∉ akeys l) : aset k v l = l ++ [(k, v)] := by
  induction l with
  | nil => simp [aset]
  | cons p rest ih =>
    obtain ⟨k₀, v₀⟩ := p
    simp only [akeys, List.map_cons, List.mem_cons] at h
    push_neg at h
    have h0 : ¬k₀ = k := fun he => h.1 he.symm
    simp [aset, h0, ih (by simpa [akeys] using h.2)]

theorem mem_aset (h : (k', v') ∈ aset k v l) :
    (k', v') = (k, v) ∨ (k', v') ∈ l := by
  induction l with
  | nil => simpa [aset] using h
  | cons p rest ih =>
    obtain ⟨k₀, v₀⟩ := p
    by_cases hk : k₀ = k
    · subst hk
      simp only [aset, if_pos rfl] at h
      rcases List.mem_cons.mp h with h₁ | h₂
      · exact Or.inl h₁
      · exact Or.inr (List.mem_cons_of_mem _ h₂)
    · simp only [aset, if_neg hk] at h
      rcases List.mem_cons.mp h with h₁ | h₂
      · exact Or.inr (h₁ ▸ List.mem_cons_self ..)
      · rcases ih h₂ with h₃ | h₃
        · exact Or.inl h₃
        · exact Or.inr (List.mem_cons_of_mem _ h₃)

theorem akeys_aset_of_not_mem (h : k ∉ akeys l) : akeys (aset k v l) = akeys l ++ [k] := by
  rw [aset_of_not_mem h]
  simp [akeys]

theorem akeys_aset_of_mem (h : k ∈ akeys l) : akeys (aset k v l) = akeys l := by
  induction l with
  | nil => simp [akeys] at h
  | cons p rest ih =>
    obtain ⟨k₀, v₀⟩ := p
    by_cases hk : k₀ = k
    · subst hk
      simp [aset, akeys]
    · have h' : k ∈ akeys rest := by
        simp only [akeys, List.map_cons, List.mem_cons] at h
        rcases h with h₁ | h₁
        · exact absurd h₁.symm hk
        · exact h₁
      have hrec := ih h'
      simp only [akeys, List.map_cons] at hrec ⊢
      simp [aset, hk, hrec]

theorem alookup_aset_self : alookup k (aset k v l) = some v := by
  induction l with
  | nil => simp [aset, alookup]
  | cons p rest ih =>
    obtain ⟨k₀, v₀⟩ := p
    by_cases hk : k₀ = k <;> simp [aset, alookup, hk, ih]

theorem alookup_aset_other (h : k' ≠ k) : alookup k' (aset k v l) = alookup k' l := by
  have h' : ¬k = k' := fun he => h he.symm
  induction l with
  | nil => simp [aset, alookup, h']
  | cons p rest ih =>
    obtain ⟨k₀, v₀⟩ := p
    by_cases hk : k₀ = k
    · subst hk
      simp [aset, alookup, h']
    · by_cases hk' : k₀ = k' <;> simp [aset, alookup, hk, hk', h, ih]

theorem nodup_akeys_aset (hnd : (akeys l).Nodup) : (akeys (aset k v l)).Nodup := by
  by_cases h : k ∈ akeys l
  · rwa [akeys_aset_of_mem h]
  · rw [akeys_aset_of_not_mem h]
    simpa [List.nodup_append] using ⟨hnd, h⟩

theorem apop_decomp (h : apop k l = some (v, l')) :
    ∃ l₁ l₂, l = l₁ ++ (k, v) :: l₂ ∧ k ∉ akeys l₁ ∧ l' = l₁ ++ l₂ := by
  induction l generalizing l' with
  | nil => simp [apop] at h
  | cons p rest ih =>
    obtain ⟨k₀, v₀⟩ := p
    simp only [apop] at h
    by_cases hk : k₀ = k
    · rw [if_pos hk] at h
      subst hk
      simp only [Option.some.injEq, Prod.mk.injEq] at h
      obtain ⟨hv, hl⟩ := h
      subst hv
      subst hl
      exact ⟨[], rest, rfl, by simp [akeys], rfl⟩
    · rw [if_neg hk] at h
      cases hrec : apop k rest with
      | none =>
        rw [hrec] at h
        simp at h
      | some pr =>
        obtain ⟨v₂, rest₂⟩ := pr
        rw [hrec] at h
        simp only [Option.some.injEq, Prod.mk.injEq] at h
        obtain ⟨hv, hl⟩ := h
        subst hv
        obtain ⟨l₁, l₂, he, hnk, he'⟩ := ih hrec
        refine ⟨(k₀, v₀) :: l₁, l₂, by simp [he], ?_, by simp [← hl, he']⟩
        simp only [akeys, List.map_cons, List.mem_cons]
        push_neg
        exact ⟨fun hx => hk hx.symm, by simpa [akeys] using hnk⟩

theorem apop_eq_none : apop k l = none ↔ k ∉ akeys l := by
  induction l with
  | nil => simp [apop, akeys]
  | cons p rest ih =>
    obtain ⟨k₀, v₀⟩ := p
    simp only [apop, akeys, List.map_cons, List.mem_cons]
    by_cases hk : k₀ = k
    · subst hk
      simp
    · have h' : ¬k = k₀ := fun he => hk he.symm
      rw [if_neg hk]
      have hmatch : (match apop k rest with
                     | none => (none : Option (β × List (κ × β)))
                     | some (v'', rest') => some (v'', (k₀, v₀) :: rest')) = none ↔
          apop k rest = none := by
        cases apop k rest with
        | none => simp
        | some pr =>
          obtain ⟨a, b⟩ := pr
          simp
      rw [hmatch, ih]
      simp [akeys, h']

theorem apop_sublist (h : apop k l = some (v, l')) : l'.Sublist l := by
  obtain ⟨l₁, l₂, he, _, he'⟩ := apop_decomp h
  rw [he, he']
  exact (List.sublist_cons_self (k, v) l₂).append_left l₁

theorem alookup_append_left {l₂ : List (κ × β)} (h : alookup k l = some v) :
    alookup k (l ++ l₂) = some v := by
  induction l with
  | nil => simp [alookup] at h
  | cons p rest ih =>
    obtain ⟨k₀, v₀⟩ := p
    by_cases hk : k₀ = k <;> simp_all [alookup]

theorem alookup_append_right {l₂ : List (κ × β)} (h : alookup k l = none) :
    alookup k (l ++ l₂) = alookup k l₂ := by
  induction l with
  | nil => simp
  | cons p rest ih =>
    obtain ⟨k₀, v₀⟩ := p
    by_cases hk : k₀ = k <;> simp_all [alookup]

theorem apop_lookup (h : apop k l = some (v, l')) : alookup k l = some v := by
  obtain ⟨l₁, l₂, he, hnk, _⟩ := apop_decomp h
  subst he
  rw [alookup_append_right (alookup_eq_none.mpr hnk)]
  simp [alookup]

theorem alookup_apop_other (h : apop k l = some (v, l')) (hne : k' ≠ k) :
    alookup k' l' = alookup k' l := by
  obtain ⟨l₁, l₂, he, _, he'⟩ := apop_decomp h
  subst he
  subst he'
  cases hc : alookup k' l₁ with
  | some w => rw [alookup_append_left hc, alookup_append_left hc]
  | none =>
    have h'' : ¬k = k' := fun he => hne he.symm
    rw [alookup_append_right hc, alookup_append_right hc]
    simp [alookup, h'']

theorem akeys_apop_not_mem (hnd : (akeys l).Nodup) (h : apop k l = some (v, l')) :
    k ∉ akeys l' := by
  obtain ⟨l₁, l₂, he, _, he'⟩ := apop_decomp h
  subst he
  subst he'
  simp only [akeys, List.map_append, List.map_cons] at hnd ⊢
  rw [List.nodup_append] at hnd
  obtain ⟨h₁, h₂, h₃⟩ := hnd
  rw [List.mem_append]
  push_neg
  constructor
  · intro hm
    exact h₃ hm (List.mem_cons_self ..)
  · exact (List.nodup_cons.mp h₂).1

theorem sublist_flatMap {γ : Type} {l₁ l₂ : List (κ × β)} (h : l₁.Sublist l₂)
    (f : κ × β → List γ) : (l₁.flatMap f).Sublist (l₂.flatMap f) := by
  induction h with
  | slnil => exact List.Sublist.refl _
  | cons a h ih =>
    simp only [List.flatMap_cons]
    exact ih.trans (List.sublist_append_right _ _)
  | cons₂ a h ih =>
    simp only [List.flatMap_cons]
    exact ih.append_left _

end AListLemmas

/-! ## Claim C10: `BlockChain.__contains__` -/

/-- Claim C10: for every `BlockChain` `bc` and block `b`, the membership
expression `b in bc` evaluates to `False` — even when a block with `b`'s
hash has been appended to `bc` — because `__contains__` computes
`contains_block(b)` but does not return it (the method returns `None`,
which the `in` operator coerces to `False`); the information is
available through `contains_block` (and `contains_hash`). -/
theorem c10_contains_always_false :
    (∀ bc b, BlockChain.mem bc b = false) ∧
    (∀ bc b bc', BlockChain.append bc b = some bc' →
      bc'.contains_block b = true ∧ BlockChain.mem bc' b = false) := by
  constructor
  · intro bc b
    rfl
  · intro bc b bc' h
    refine ⟨?_, rfl⟩
    simp only [BlockChain.append] at h
    split at h
    · exact absurd h (by simp)
    · split at h
      · exact absurd h (by simp)
      · simp only [Option.some.injEq] at h
        subst h
        simp [BlockChain.contains_block, BlockChain.contains_hash, alookup_aset_self]

/-- Witness for C10 at a concrete one-block chain. -/
theorem c10_contains_always_false_witness :
    ∃ bc', BlockChain.append emptyBlockChain (exInfo 0) = some bc' ∧
      bc'.contains_block (exInfo 0) = true ∧ BlockChain.mem bc' (exInfo 0) = false := by
  have happ : BlockChain.append emptyBlockChain (exInfo 0) =
      some ((BlockChain.append emptyBlockChain (exInfo 0)).getD emptyBlockChain) := by decide
  exact ⟨_, happ, c10_contains_always_false.2 _ _ _ happ⟩

/-! ## Claim C8: `BlockChain.append` -/

/-- Claim C8: `append` preserves the invariant that each block hash
occurs at most once and that the stored heights are exactly `0..len-1`
in order; it raises `ValueError` (modelled by `none`; the checks precede
the mutations, so the chain is unchanged) when the appended block's
height is not the current last height plus one or its hash is already
present. -/
theorem c8_append_invariant :
    (∀ bc b bc', BlockChainWF bc → BlockChain.append bc b = some bc' → BlockChainWF bc') ∧
    (∀ bc b, b.height ≠ bc.height + 1 ∨ bc.contains_hash b.block_hash = true →
      BlockChain.append bc b = none) := by
  constructor
  · intro bc b bc' hwf h
    simp only [BlockChain.append] at h
    split at h
    · exact absurd h (by simp)
    · rename_i hh
      push_neg at hh
      split at h
      · exact absurd h (by simp)
      · rename_i hc
        simp only [Option.some.injEq] at h
        have hfresh : b.block_hash ∉ akeys bc._blocks := by
          intro hm
          rcases List.mem_map.mp hm with ⟨p, hp, hpk⟩
          have : alookup b.block_hash bc._blocks = some p.2 := by
            have : (b.block_hash, p.2) ∈ bc._blocks := by
              have : p = (b.block_hash, p.2) := by
                obtain ⟨p₁, p₂⟩ := p
                simp only at hpk
                simp [hpk]
              rwa [← this]
            exact alookup_of_mem_nodup hwf.nd this
          simp [BlockChain.contains_hash, this] at hc
        have hbl : bc'._blocks = bc._blocks ++ [(b.block_hash, b)] := by
          rw [← h]
          exact aset_of_not_mem hfresh
        have hht : b.height = (bc.size : Int) := by
          have : bc.height = (bc.size : Int) - 1 := rfl
          omega
        have hhfresh : b.height ∉ akeys bc._height_to_hash := by
          rw [hwf.hindex]
          intro hm
          have hm' : b.height ∈ bc._blocks.map (fun p => p.2.height) := by
            simp only [akeys, List.map_map] at hm
            rcases List.mem_map.mp hm with ⟨p, hp, hpk⟩
            rw [List.mem_map]
            exact ⟨p, hp, by simpa using hpk⟩
          rw [hwf.heights] at hm'
          rcases List.mem_map.mp hm' with ⟨i, hi, hie⟩
          have hlt := List.mem_range.mp hi
          rw [Int.ofNat_eq_natCast] at hie
          omega
        have hhl : bc'._height_to_hash = bc._height_to_hash ++ [(b.height, b.block_hash)] := by
          rw [← h]
          exact aset_of_not_mem hhfresh
        refine ⟨?_, ?_, ?_, ?_⟩
        · rw [hbl]
          simp only [akeys, List.map_append, List.map_cons, List.map_nil]
          rw [List.nodup_append]
          exact ⟨hwf.nd, List.nodup_singleton _, by
            intro a ha hb
            simp only [List.mem_singleton] at hb
            subst hb
            exact hfresh ha⟩
        · intro k info hm
          rw [hbl] at hm
          rcases List.mem_append.mp hm with h₁ | h₂
          · exact hwf.km k info h₁
          · simp only [List.mem_singleton, Prod.mk.injEq] at h₂
            obtain ⟨hk, hinfo⟩ := h₂
            subst hk
            subst hinfo
            rfl
        · rw [hbl]
          have hsz : bc'.size = bc.size + 1 := by
            simp [BlockChain.size, hbl]
          rw [hsz]
          simp only [List.map_append, List.map_cons, List.map_nil]
          rw [hwf.heights, List.range_succ]
          simp [hht]
        · rw [hbl, hhl, hwf.hindex]
          simp
  · intro bc b h
    rcases h with h | h
    · simp [BlockChain.append, h]
    · by_cases hh : b.height ≠ bc.height + 1
      · simp [BlockChain.append, hh]
      · simp [BlockChain.append, hh, h]

/-- Witness for C8: appending height 0 to the empty chain succeeds and
preserves well-formedness; appending height 5 fails. -/
theorem c8_append_invariant_witness :
    (∃ bc', BlockChain.append emptyBlockChain (exInfo 0) = some bc' ∧ BlockChainWF bc') ∧
    BlockChain.append emptyBlockChain (exInfo 5) = none := by
  have hwf : BlockChainWF emptyBlockChain :=
    ⟨by simp [emptyBlockChain, akeys], by simp [emptyBlockChain],
     by simp [emptyBlockChain, BlockChain.size], by simp [emptyBlockChain]⟩
  have happ : BlockChain.append emptyBlockChain (exInfo 0) =
      some ((BlockChain.append emptyBlockChain (exInfo 0)).getD emptyBlockChain) := by decide
  exact ⟨⟨_, happ, c8_append_invariant.1 _ _ _ hwf happ⟩,
    c8_append_invariant.2 _ _ (Or.inl (by decide))⟩

/-! ## Step lemmas for evaluating concrete runs, and gap-check facts -/

theorem release_gap_true {margin : Int} {st : LCState} {b : Block} {st' : LCState}
    (h : getNextBlockToRelease margin st = some (some b, st')) :
    checkHeightsGap margin st = some true := by
  simp only [getNextBlockToRelease] at h
  split at h
  · simp at h
  · simp at h
  · rename_i heq
    exact heq

theorem checkHeightsGap_true_spec {margin : Int} {st : LCState}
    (h : checkHeightsGap margin st = some true) :
    ∃ h1, st.leaf_heights.getLast? = some h1 ∧
      ∃ h2, ((st.leaf_heights.length ≥ 2 ∧
                st.leaf_heights[st.leaf_heights.length - 2]? = some h2) ∨
             (st.leaf_heights.length < 2 ∧ h2 = st.root_block.height)) ∧
        h2 + margin ≤ h1 := by
  simp only [checkHeightsGap] at h
  split at h
  · simp at h
  · rename_i h1 hlast
    split at h
    · simp at h
    · rename_i h2 hm2
      refine ⟨h1, hlast, h2, ?_, ?_⟩
      · by_cases hlen : st.leaf_heights.length ≥ 2
        · rw [if_pos hlen] at hm2
          exact Or.inl ⟨hlen, hm2⟩
        · rw [if_neg hlen] at hm2
          simp only [Option.some.injEq] at hm2
          exact Or.inr ⟨by omega, hm2.symm⟩
      · split at h
        · simp only [Option.some.injEq] at h
          have := of_decide_eq_true h
          omega
        · simp at h

theorem lcNext_step_read {margin : Int} {filt : Option BlockFilter} {st st2 : LCState}
    {b : Block} {rest : List Block}
    (h1 : getNextBlockToRelease margin st = some (none, st))
    (h3 : readAnotherBlock st b = some st2) :
    lcNext margin filt st (b :: rest) = lcNext margin filt st2 rest := by
  conv_lhs => rw [lcNext]
  simp only [h1, h3]

theorem lcNext_step_stop {margin : Int} {filt : Option BlockFilter} {st : LCState}
    (h1 : getNextBlockToRelease margin st = some (none, st)) :
    lcNext margin filt st [] = LCStep.stop := by
  rw [lcNext]
  simp only [h1]

theorem lcNext_step_crash {margin : Int} {filt : Option BlockFilter} {st : LCState}
    {input : List Block}
    (h1 : getNextBlockToRelease margin st = none) :
    lcNext margin filt st input = LCStep.crash := by
  rw [lcNext]
  simp only [h1]

theorem lcNext_step_yield {margin : Int} {filt : Option BlockFilter} {st st1 st3 : LCState}
    {b : Block} {input : List Block}
    (h1 : getNextBlockToRelease margin st = some (some b, st1))
    (h2 : lcCheckBlock filt { st1 with root_block := TreeBlock.real b } b =
      (FCheck.incl, st3)) :
    lcNext margin filt st input = LCStep.yield b st3 input := by
  rw [lcNext]
  simp only [h1, h2]

theorem lcNext_step_skip {margin : Int} {filt : Option BlockFilter} {st st1 st3 st4 : LCState}
    {b c : Block} {rest : List Block}
    (h1 : getNextBlockToRelease margin st = some (some b, st1))
    (h2 : lcCheckBlock filt { st1 with root_block := TreeBlock.real b } b =
      (FCheck.excl, st3))
    (h3 : readAnotherBlock st3 c = some st4) :
    lcNext margin filt st (c :: rest) = lcNext margin filt st4 rest := by
  conv_lhs => rw [lcNext]
  simp only [h1, h2, h3]

theorem lcNext_step_fstop {margin : Int} {filt : Option BlockFilter} {st st1 st3 : LCState}
    {b : Block} {input : List Block}
    (h1 : getNextBlockToRelease margin st = some (some b, st1))
    (h2 : lcCheckBlock filt { st1 with root_block := TreeBlock.real b } b =
      (FCheck.stopIter, st3)) :
    lcNext margin filt st input = LCStep.stop := by
  rw [lcNext]
  simp only [h1, h2]

theorem lcRunFuel_of_yield {fuel : Nat} {margin : Int} {filt : Option BlockFilter}
    {st st' : LCState} {b : Block} {input rest out : List Block} {e : Bool}
    (h : lcNext margin filt st input = LCStep.yield b st' rest)
    (hrec : lcRunFuel fuel margin filt st' rest = (out, e)) :
    lcRunFuel (fuel + 1) margin filt st input = (b :: out, e) := by
  rw [lcRunFuel]
  simp only [h, hrec]

theorem lcRunFuel_of_stop {fuel : Nat} {margin : Int} {filt : Option BlockFilter}
    {st : LCState} {input : List Block}
    (h : lcNext margin filt st input = LCStep.stop) :
    lcRunFuel (fuel + 1) margin filt st input = ([], true) := by
  rw [lcRunFuel]
  simp only [h]

theorem lcRunFuel_of_crash {fuel : Nat} {margin : Int} {filt : Option BlockFilter}
    {st : LCState} {input : List Block}
    (h : lcNext margin filt st input = LCStep.crash) :
    lcRunFuel (fuel + 1) margin filt st input = ([], false) := by
  rw [lcRunFuel]
  simp only [h]

-- Step-by-step evaluations of the concrete longest-chain runs.

theorem c2aCall0 : lcNext 0 none c2aSt0 (c2aIn0) = LCStep.crash := by
  exact @lcNext_step_crash 0 none c2aSt0 (c2aIn0) (by decide)

theorem c2aRunFuel : lcRunFuel 3 0 none c2aSt0 (c2aIn0) = (c2aOut, false) := by
  have h0 : lcRunFuel 3 0 none c2aSt0 (c2aIn0) = ([], false) := @lcRunFuel_of_crash 2 0 none c2aSt0 (c2aIn0) c2aCall0
  exact h0

theorem c2bCall0 : lcNext 6 none c2bSt0 (c2bIn0) = LCStep.stop := by
  refine (@lcNext_step_read 6 none c2bSt0 c2bSt1 ({ block_hash := [1], prev_block_hash := ZERO_HASH, height := 0, timestamp := 0 }) (c2bIn1) (by decide) (by decide)).trans ?_
  refine (@lcNext_step_read 6 none c2bSt1 c2bSt2 ({ block_hash := [2], prev_block_hash := [1], height := 1, timestamp := 1 }) (c2bIn2) (by decide) (by decide)).trans ?_
  exact @lcNext_step_stop 6 none c2bSt2 (by decide)

theorem c2bRunFuel : lcRunFuel 3 6 none c2bSt0 (c2bIn0) = (c2bOut, true) := by
  have h0 : lcRunFuel 3 6 none c2bSt0 (c2bIn0) = ([], true) := @lcRunFuel_of_stop 2 6 none c2bSt0 (c2bIn0) c2bCall0
  exact h0

theorem c2cCall0 : lcNext 6 none c2cSt0 (c2cIn0) = LCStep.stop := by
  refine (@lcNext_step_read 6 none c2cSt0 c2cSt1 ({ block_hash := [1], prev_block_hash := ZERO_HASH, height := 0, timestamp := 0 }) (c2cIn1) (by decide) (by decide)).trans ?_
  refine (@lcNext_step_read 6 none c2cSt1 c2cSt2 ({ block_hash := [2], prev_block_hash := [1], height := 1, timestamp := 1 }) (c2cIn2) (by decide) (by decide)).trans ?_
  refine (@lcNext_step_read 6 none c2cSt2 c2cSt3 ({ block_hash := [3], prev_block_hash := [2], height := 2, timestamp := 2 }) (c2cIn3) (by decide) (by decide)).trans ?_
  refine (@lcNext_step_read 6 none c2cSt3 c2cSt4 ({ block_hash := [4], prev_block_hash := [3], height := 3, timestamp := 3 }) (c2cIn4) (by decide) (by decide)).trans ?_
  refine (@lcNext_step_read 6 none c2cSt4 c2cSt5 ({ block_hash := [5], prev_block_hash := [4], height := 4, timestamp := 4 }) (c2cIn5) (by decide) (by decide)).trans ?_
  exact @lcNext_step_stop 6 none c2cSt5 (by decide)

theorem c2cRunFuel : lcRunFuel 6 6 none c2cSt0 (c2cIn0) = (c2cOut, true) := by
  have h0 : lcRunFuel 6 6 none c2cSt0 (c2cIn0) = ([], true) := @lcRunFuel_of_stop 5 6 none c2cSt0 (c2cIn0) c2cCall0
  exact h0

theorem c2dCall0 : lcNext 6 none c2dSt1 (c2dIn0) = LCStep.yield ({ block_hash := [1], prev_block_hash := ZERO_HASH, height := 0, timestamp := 0 }) c2dSt0 (c2dIn6) := by
  refine (@lcNext_step_read 6 none c2dSt1 c2dSt2 ({ block_hash := [1], prev_block_hash := ZERO_HASH, height := 0, timestamp := 0 }) (c2dIn1) (by decide) (by decide)).trans ?_
  refine (@lcNext_step_read 6 none c2dSt2 c2dSt3 ({ block_hash := [2], prev_block_hash := [1], height := 1, timestamp := 1 }) (c2dIn2) (by decide) (by decide)).trans ?_
  refine (@lcNext_step_read 6 none c2dSt3 c2dSt4 ({ block_hash := [3], prev_block_hash := [2], height := 2, timestamp := 2 }) (c2dIn3) (by decide) (by decide)).trans ?_
  refine (@lcNext_step_read 6 none c2dSt4 c2dSt5 ({ block_hash := [4], prev_block_hash := [3], height := 3, timestamp := 3 }) (c2dIn4) (by decide) (by decide)).trans ?_
  refine (@lcNext_step_read 6 none c2dSt5 c2dSt6 ({ block_hash := [5], prev_block_hash := [4], height := 4, timestamp := 4 }) (c2dIn5) (by decide) (by decide)).trans ?_
  refine (@lcNext_step_read 6 none c2dSt6 c2dSt7 ({ block_hash := [6], prev_block_hash := [5], height := 5, timestamp := 5 }) (c2dIn6) (by decide) (by decide)).trans ?_
  exact @lcNext_step_yield 6 none c2dSt7 c2dSt8 c2dSt0 ({ block_hash := [1], prev_block_hash := ZERO_HASH, height := 0, timestamp := 0 }) (c2dIn6) (by decide) (by decide)

theorem c2dCall1 : lcNext 6 none c2dSt0 (c2dIn6) = LCStep.stop := by
  exact @lcNext_step_stop 6 none c2dSt0 (by decide)

theorem c2dRunFuel : lcRunFuel 7 6 none c2dSt1 (c2dIn0) = (c2dOut, true) := by
  have h1 : lcRunFuel 6 6 none c2dSt0 (c2dIn6) = ([], true) := @lcRunFuel_of_stop 5 6 none c2dSt0 (c2dIn6) c2dCall1
  have h0 : lcRunFuel 7 6 none c2dSt1 (c2dIn0) = (c2dOut.drop 0, true) := @lcRunFuel_of_yield 6 6 none c2dSt1 c2dSt0 ({ block_hash := [1], prev_block_hash := ZERO_HASH, height := 0, timestamp := 0 }) (c2dIn0) (c2dIn6) (c2dOut.drop 1) true c2dCall0 h1
  exact h0

theorem c2eCall0 : lcNext 6 none c2eSt1 (c2eIn0) = LCStep.yield ({ block_hash := [1], prev_block_hash := ZERO_HASH, height := 0, timestamp := 0 }) c2eSt0 (c2eIn6) := by
  refine (@lcNext_step_read 6 none c2eSt1 c2eSt2 ({ block_hash := [1], prev_block_hash := ZERO_HASH, height := 0, timestamp := 0 }) (c2eIn1) (by decide) (by decide)).trans ?_
  refine (@lcNext_step_read 6 none c2eSt2 c2eSt3 ({ block_hash := [2], prev_block_hash := [1], height := 1, timestamp := 1 }) (c2eIn2) (by decide) (by decide)).trans ?_
  refine (@lcNext_step_read 6 none c2eSt3 c2eSt4 ({ block_hash := [3], prev_block_hash := [2], height := 2, timestamp := 2 }) (c2eIn3) (by decide) (by decide)).trans ?_
  refine (@lcNext_step_read 6 none c2eSt4 c2eSt5 ({ block_hash := [4], prev_block_hash := [3], height := 3, timestamp := 3 }) (c2eIn4) (by decide) (by decide)).trans ?_
  refine (@lcNext_step_read 6 none c2eSt5 c2eSt6 ({ block_hash := [5], prev_block_hash := [4], height := 4, timestamp := 4 }) (c2eIn5) (by decide) (by decide)).trans ?_
  refine (@lcNext_step_read 6 none c2eSt6 c2eSt7 ({ block_hash := [6], prev_block_hash := [5], height := 5, timestamp := 5 }) (c2eIn6) (by decide) (by decide)).trans ?_
  exact @lcNext_step_yield 6 none c2eSt7 c2eSt8 c2eSt0 ({ block_hash := [1], prev_block_hash := ZERO_HASH, height := 0, timestamp := 0 }) (c2eIn6) (by decide) (by decide)

theorem c2eCall1 : lcNext 6 none c2eSt0 (c2eIn6) = LCStep.yield ({ block_hash := [2], prev_block_hash := [1], height := 1, timestamp := 1 }) c2eSt9 (c2eIn7) := by
  refine (@lcNext_step_read 6 none c2eSt0 c2eSt10 ({ block_hash := [7], prev_block_hash := [6], height := 6, timestamp := 6 }) (c2eIn7) (by decide) (by decide)).trans ?_
  exact @lcNext_step_yield 6 none c2eSt10 c2eSt11 c2eSt9 ({ block_hash := [2], prev_block_hash := [1], height := 1, timestamp := 1 }) (c2eIn7) (by decide) (by decide)

theorem c2eCall2 : lcNext 6 none c2eSt9 (c2eIn7) = LCStep.stop := by
  exact @lcNext_step_stop 6 none c2eSt9 (by decide)

theorem c2eRunFuel : lcRunFuel 8 6 none c2eSt1 (c2eIn0) = (c2eOut, true) := by
  have h2 : lcRunFuel 6 6 none c2eSt9 (c2eIn7) = ([], true) := @lcRunFuel_of_stop 5 6 none c2eSt9 (c2eIn7) c2eCall2
  have h1 : lcRunFuel 7 6 none c2eSt0 (c2eIn6) = (c2eOut.drop 1, true) := @lcRunFuel_of_yield 6 6 none c2eSt0 c2eSt9 ({ block_hash := [2], prev_block_hash := [1], height := 1, timestamp := 1 }) (c2eIn6) (c2eIn7) (c2eOut.drop 2) true c2eCall1 h2
  have h0 : lcRunFuel 8 6 none c2eSt1 (c2eIn0) = (c2eOut.drop 0, true) := @lcRunFuel_of_yield 7 6 none c2eSt1 c2eSt0 ({ block_hash := [1], prev_block_hash := ZERO_HASH, height := 0, timestamp := 0 }) (c2eIn0) (c2eIn6) (c2eOut.drop 1) true c2eCall0 h1
  exact h0

-- End of concrete run evaluations.

/-! ## Claim C5: no emission without the safety-margin lead -/

/-- Claim C5: the longest-chain iterator never releases a block unless
the maximum leaf height of its fork tree (`leaf_heights[-1]`) exceeds
the second maximum (`leaf_heights[-2]`, or the root's height when there
is a single leaf) by at least `height_safety_margin`; in particular,
with two tips at equal heights and a positive margin, no block is
released. -/
theorem c5_no_release_below_margin :
    (∀ margin st b st', getNextBlockToRelease margin st = some (some b, st') →
      ∃ h1, st.leaf_heights.getLast? = some h1 ∧
        ∃ h2, ((st.leaf_heights.length ≥ 2 ∧
                  st.leaf_heights[st.leaf_heights.length - 2]? = some h2) ∨
               (st.leaf_heights.length < 2 ∧ h2 = st.root_block.height)) ∧
          h2 + margin ≤ h1) ∧
    (∀ margin st, 1 ≤ margin → st.leaf_heights.length ≥ 2 →
      st.leaf_heights.getLast? = st.leaf_heights[st.leaf_heights.length - 2]? →
      ∀ b st', getNextBlockToRelease margin st ≠ some (some b, st')) := by
  constructor
  · intro margin st b st' h
    exact checkHeightsGap_true_spec (release_gap_true h)
  · intro margin st hm hlen heq b st' h
    have hcg := release_gap_true h
    simp only [checkHeightsGap] at hcg
    split at hcg
    · simp at hcg
    · rename_i h1 hlast
      rw [if_pos hlen] at hcg
      split at hcg
      · simp at hcg
      · rename_i h2 hm2
        rw [hlast] at heq
        rw [hm2] at heq
        simp only [Option.some.injEq] at heq
        subst heq
        rw [if_pos (le_refl h1)] at hcg
        simp only [Option.some.injEq] at hcg
        have := of_decide_eq_true hcg
        omega

/-- Witness for C5: a release actually happens from the concrete state
`exLCState` with margin 6 and satisfies the gap bound; the tied state
`exLCStateTie` with margin 1 releases nothing. -/
theorem c5_no_release_below_margin_witness :
    (∃ h1, exLCState.leaf_heights.getLast? = some h1 ∧
      ∃ h2, ((exLCState.leaf_heights.length ≥ 2 ∧
                exLCState.leaf_heights[exLCState.leaf_heights.length - 2]? = some h2) ∨
             (exLCState.leaf_heights.length < 2 ∧ h2 = exLCState.root_block.height)) ∧
        h2 + 6 ≤ h1) ∧
    getNextBlockToRelease 1 exLCStateTie ≠ some (some (exBlock 0), initLCState) :=
  ⟨c5_no_release_below_margin.1 6 exLCState exReleasedBlock exReleasedState (by decide),
   c5_no_release_below_margin.2 1 exLCStateTie (by decide) (by decide) (by decide)
     (exBlock 0) initLCState⟩

/-! ## Claim C2: the two-block chain under margins 0 and 6 -/

/-- Counterexample to claim C2.  On the stored two-block chain
(genesis and child A), `LongestChainBlockIterator` with
`height_safety_margin = 0` does not emit `[genesis, A]` and signal end
of data: its very first `__next__` call hits the dummy pre-genesis
`Bunch` (which has no `prev_block_hash` attribute) inside
`_find_child_from` and raises `AttributeError` before emitting anything
(the run returns `([], false)`, `false` marking the crash as opposed to
a clean `StopIteration`).  And with `height_safety_margin = 6`, four
additional descendants of A (six stored blocks in all) already suffice
for an emission: the gap is measured against the dummy root at height
−1, so the tip at height 5 leads by 6 and genesis is released. -/
theorem c2_counterexample :
    lcRun 0 none (topoRun (exChain 2)) = ([], false) ∧
    lcRun 6 none (topoRun (exChain 6)) = ([exTopoBlock 0], true) := by
  constructor
  · have hin : topoRun (exChain 2) = c2aIn0 := by decide
    unfold lcRun
    rw [hin]
    exact c2aRunFuel
  · have hin : topoRun (exChain 6) = c2dIn0 := by decide
    unfold lcRun
    rw [hin]
    exact c2dRunFuel

/-- Claim C2 as amended.  On the stored two-block chain with
`height_safety_margin = 6`: nothing is emitted with no additional
descendants of A (two stored blocks) nor with three additional
descendants (five stored blocks, tip height 4, gap 5 < 6); with five
additional descendants of A (seven stored blocks, tip height 6) the
iterator emits genesis and then A and ends cleanly.  (With four
additional descendants genesis alone is already emitted, see the
counterexample; the margin-0 prediction is unsalvageable since that
configuration crashes.) -/
theorem c2_amended :
    lcRun 6 none (topoRun (exChain 2)) = ([], true) ∧
    lcRun 6 none (topoRun (exChain 5)) = ([], true) ∧
    lcRun 6 none (topoRun (exChain 7)) = ([exTopoBlock 0, exTopoBlock 1], true) := by
  refine ⟨?_, ?_, ?_⟩
  · have hin : topoRun (exChain 2) = c2bIn0 := by decide
    unfold lcRun
    rw [hin]
    exact c2bRunFuel
  · have hin : topoRun (exChain 5) = c2cIn0 := by decide
    unfold lcRun
    rw [hin]
    exact c2cRunFuel
  · have hin : topoRun (exChain 7) = c2eIn0 := by decide
    unfold lcRun
    rw [hin]
    exact c2eRunFuel

/-! ## Claim C3: block-filter start/stop behaviour -/

/-- Counterexample to claim C3.  The stop bound is only enforced once
the working filter `is_started`: with a height filter whose stop bound
is 0 (and no start bound), the first block — height 0, at the stop
bound — is *included* (the check returns `True` and marks the stream
started) rather than ending the stream, and only the next block
triggers the `StopIteration`.  So "if its value is at or after the stop
bound, the stream ends and that block is not emitted" fails for blocks
checked before the stream has started. -/
theorem c3_counterexample :
    (exTopoBlock 0).height = 0 ∧
    workingCheckBlock (mkBlockFilter none (some 0) none none none none) false false
      (exTopoBlock 0) = (.incl, true, false) ∧
    filterRun (mkBlockFilter none (some 0) none none none none) false false
      [exTopoBlock 0, exTopoBlock 1] = ([exTopoBlock 0], true) := by decide

/-- Claim C3 as amended.  For a height filter: (a) a block whose height
is below the start bound is excluded while the stream has not yet
started, leaving the filter state unchanged; (b) a block whose height
is at or after the stop bound ends the stream — and is not emitted —
provided the stream has already started; and (c) the height filter
[100, 200) over the linear 300-block chain emits exactly the 100 blocks
with heights 100..199, the block at height 200 ending the stream. -/
theorem c3_amended :
    (∀ (s : Int) (t : Option Int) (b : Block), b.height < s →
      workingCheckBlock (mkBlockFilter (some s) t none none none none) false false b
        = (.excl, false, false)) ∧
    (∀ (s : Option Int) (t : Int) (b : Block), t ≤ b.height →
      workingCheckBlock (mkBlockFilter s (some t) none none none none) true false b
        = (.stopIter, true, true)) ∧
    filterRun (mkBlockFilter (some 100) (some 200) none none none none) false false
      ((List.range 300).map exTopoBlock)
      = ((List.range' 100 100).map exTopoBlock, true) := by
  refine ⟨?_, ?_, ?_⟩
  · intro s t b h
    simp [workingCheckBlock, mkBlockFilter, BlockFilter.checkBlock, filterCheckOrdered,
      fcSeq, h]
  · intro s t b h
    cases s <;>
      simp [workingCheckBlock, mkBlockFilter, BlockFilter.checkBlock, filterCheckOrdered,
        fcSeq, h]
  · decide

/-! ## Claim C4: the topological stream -/

theorem topoCond_mono {pre pre' : List Block} {b : Block}
    (hsub : ∀ p ∈ pre, p ∈ pre') (h : topoCond pre b) : topoCond pre' b := by
  obtain ⟨h1, h2⟩ := h
  refine ⟨h1, fun hne => ?_⟩
  obtain ⟨p, hp, he⟩ := h2 hne
  exact ⟨p, hsub p hp, he⟩

theorem readyOK_mono : ∀ (l pre pre' : List Block),
    (∀ p ∈ pre, p ∈ pre') → ReadyOK pre l → ReadyOK pre' l := by
  intro l
  induction l with
  | nil =>
    intro pre pre' _ _
    trivial
  | cons b rest ih =>
    intro pre pre' hsub h
    obtain ⟨hc, hr⟩ := h
    refine ⟨topoCond_mono hsub hc, ih (pre ++ [b]) (pre' ++ [b]) ?_ hr⟩
    intro p hp
    rcases List.mem_append.mp hp with h' | h'
    · exact List.mem_append_left _ (hsub p h')
    · exact List.mem_append_right _ h'

theorem readyOK_snoc : ∀ (l pre : List Block) (b : Block),
    ReadyOK pre l → topoCond (pre ++ l) b → ReadyOK pre (l ++ [b]) := by
  intro l
  induction l with
  | nil =>
    intro pre b _ hc
    exact ⟨by simpa using hc, trivial⟩
  | cons x rest ih =>
    intro pre b h hc
    obtain ⟨hcx, hr⟩ := h
    refine ⟨hcx, ih (pre ++ [x]) b hr ?_⟩
    simpa [List.append_assoc] using hc

theorem disorphanateBlock_def (st : TopoState) (b : Block) (hh : Int) :
    disorphanateBlock st b hh =
      { st with height_by_hash := aset b.block_hash hh st.height_by_hash,
                ready := st.ready ++ [{ b with height := hh }] } := rfl

theorem disorphanateBlock_inv {st : TopoState} {emitted : List Block} {b : Block} {hh : Int}
    (hinv : TopoInv st emitted) (hb : b.block_hash ≠ ZERO_HASH)
    (hjust : (b.prev_block_hash = ZERO_HASH ∧ hh = 0) ∨
      ∃ p ∈ emitted ++ st.ready, p.block_hash = b.prev_block_hash ∧ hh = p.height + 1) :
    TopoInv (disorphanateBlock st b hh) emitted := by
  obtain ⟨hbh_ok, ready_ok, no_zero, orph_prev, orph_no_zero⟩ := hinv
  rw [disorphanateBlock_def]
  constructor
  case hbh_ok =>
    intro k v hm
    simp only at hm
    rcases mem_aset hm with he | hold
    · right
      obtain ⟨hk, hv⟩ := Prod.mk.injEq .. ▸ he
      refine ⟨{ b with height := hh }, ?_, by simpa using hk.symm, by simpa using hv.symm⟩
      simp
    · rcases hbh_ok k v hold with h | ⟨p, hp, he⟩
      · exact Or.inl h
      · refine Or.inr ⟨p, ?_, he⟩
        simp only [List.mem_append] at hp ⊢
        rcases hp with h' | h'
        · exact Or.inl h'
        · exact Or.inr (by simp [h'])
  case ready_ok =>
    refine readyOK_snoc _ _ _ ready_ok ?_
    rcases hjust with ⟨hz, h0⟩ | ⟨p, hp, hph, hhp⟩
    · exact ⟨fun _ => h0, fun hne => absurd hz hne⟩
    · refine ⟨fun hz => ?_, fun _ => ⟨p, hp, hph, hhp⟩⟩
      exact absurd (hph.trans hz) (no_zero p hp)
  case no_zero =>
    intro x hx
    simp only [List.mem_append, List.mem_singleton] at hx
    rcases hx with h' | h' | h'
    · exact no_zero x (List.mem_append_left _ h')
    · exact no_zero x (List.mem_append_right _ h')
    · subst h'
      simpa using hb
  case orph_prev => exact orph_prev
  case orph_no_zero => exact orph_no_zero

theorem disorphanateChildren_inv : ∀ (children : List Block) (st : TopoState)
    (emitted : List Block) (hh : Int),
    TopoInv st emitted →
    (∀ c ∈ children, c.block_hash ≠ ZERO_HASH) →
    (∀ c ∈ children, (c.prev_block_hash = ZERO_HASH ∧ hh = 0) ∨
      ∃ p ∈ emitted, p.block_hash = c.prev_block_hash ∧ hh = p.height + 1) →
    TopoInv (disorphanateChildren st children hh) emitted := by
  intro children
  induction children with
  | nil =>
    intro st emitted hh hinv _ _
    rw [disorphanateChildren]
    exact hinv
  | cons c rest ih =>
    intro st emitted hh hinv hz hj
    rw [disorphanateChildren]
    refine ih _ _ _ (disorphanateBlock_inv hinv (hz c (by simp)) ?_)
      (fun x hx => hz x (by simp [hx])) (fun x hx => hj x (by simp [hx]))
    rcases hj c (by simp) with h | ⟨p, hp, he⟩
    · exact Or.inl h
    · exact Or.inr ⟨p, List.mem_append_left _ hp, he⟩

theorem topoReadBlock_inv {st : TopoState} {emitted : List Block} {b : Block}
    (hinv : TopoInv st emitted) (hb : b.block_hash ≠ ZERO_HASH) :
    TopoInv (topoReadBlock st b) emitted := by
  rw [topoReadBlock]
  cases hl : alookup b.prev_block_hash st.height_by_hash with
  | none =>
    simp only
    obtain ⟨hbh_ok, ready_ok, no_zero, orph_prev, orph_no_zero⟩ := hinv
    constructor
    case hbh_ok => exact hbh_ok
    case ready_ok => exact ready_ok
    case no_zero => exact no_zero
    case orph_prev =>
      intro ph lst hm c hc
      rcases mem_aset hm with he | hold
      · obtain ⟨hk, hv⟩ := Prod.mk.injEq .. ▸ he
        subst hk
        rw [hv] at hc
        cases hl2 : alookup b.prev_block_hash st.orphans with
        | none =>
          simp only [hl2, List.mem_singleton] at hc
          subst hc
          rfl
        | some l =>
          simp only [hl2, List.mem_append, List.mem_singleton] at hc
          rcases hc with h' | h'
          · exact orph_prev _ _ (mem_of_alookup hl2) c h'
          · subst h'
            rfl
      · exact orph_prev _ _ hold c hc
    case orph_no_zero =>
      intro ph lst hm c hc
      rcases mem_aset hm with he | hold
      · obtain ⟨hk, hv⟩ := Prod.mk.injEq .. ▸ he
        rw [hv] at hc
        cases hl2 : alookup b.prev_block_hash st.orphans with
        | none =>
          simp only [hl2, List.mem_singleton] at hc
          subst hc
          exact hb
        | some l =>
          simp only [hl2, List.mem_append, List.mem_singleton] at hc
          rcases hc with h' | h'
          · exact orph_no_zero _ _ (mem_of_alookup hl2) c h'
          · subst h'
            exact hb
      · exact orph_no_zero _ _ hold c hc
  | some ph =>
    simp only
    refine disorphanateBlock_inv hinv hb ?_
    rcases hinv.hbh_ok _ _ (mem_of_alookup hl) with ⟨hz, hv⟩ | ⟨p, hp, hph, hv⟩
    · exact Or.inl ⟨hz, by omega⟩
    · exact Or.inr ⟨p, hp, hph, by omega⟩

theorem mem_shift {p x : Block} {A B : List Block} :
    p ∈ A ++ x :: B ↔ p ∈ (A ++ [x]) ++ B := by
  simp [List.mem_append, List.mem_cons]

theorem topoRelease_inv {st : TopoState} {emitted rrest : List Block} {rb : Block}
    (hinv : TopoInv st emitted) (hready : st.ready = rb :: rrest) :
    TopoInv (topoRelease st rb rrest) (emitted ++ [rb]) := by
  obtain ⟨hbh_ok, ready_ok, no_zero, orph_prev, orph_no_zero⟩ := hinv
  rw [hready] at ready_ok
  obtain ⟨hcond, hrest⟩ := ready_ok
  have hinv1 : TopoInv { st with ready := rrest } (emitted ++ [rb]) := by
    constructor
    case hbh_ok =>
      intro k v hm
      rcases hbh_ok k v hm with h | ⟨p, hp, he⟩
      · exact Or.inl h
      · refine Or.inr ⟨p, ?_, he⟩
        rw [hready] at hp
        simpa using mem_shift.mp hp
    case ready_ok => exact hrest
    case no_zero =>
      intro x hx
      refine no_zero x ?_
      rw [hready]
      exact mem_shift.mpr (by simpa using hx)
    case orph_prev => exact orph_prev
    case orph_no_zero => exact orph_no_zero
  rw [topoRelease]
  cases hpop : apop rb.block_hash { st with ready := rrest }.orphans with
  | none =>
    simp only
    exact hinv1
  | some pr =>
    obtain ⟨children, orphans'⟩ := pr
    simp only
    have hentry : (rb.block_hash, children) ∈ st.orphans :=
      mem_of_alookup (apop_lookup hpop)
    have hsub := apop_sublist hpop
    have hinv2 : TopoInv { st with ready := rrest, orphans := orphans' } (emitted ++ [rb]) := by
      obtain ⟨i1, i2, i3, i4, i5⟩ := hinv1
      exact ⟨i1, i2, i3,
        fun ph lst hm => i4 ph lst (hsub.subset hm),
        fun ph lst hm => i5 ph lst (hsub.subset hm)⟩
    refine disorphanateChildren_inv _ _ _ _ hinv2 ?_ ?_
    · exact fun c hc => orph_no_zero _ _ hentry c hc
    · intro c hc
      refine Or.inr ⟨rb, by simp, ?_, rfl⟩
      exact (orph_prev _ _ hentry c hc).symm

theorem topoNext_spec : ∀ (input : List Block) (st : TopoState) (emitted : List Block)
    {b : Block} {st' : TopoState} {input' : List Block},
    topoNext st input = some (b, st', input') →
    TopoInv st emitted → (∀ x ∈ input, x.block_hash ≠ ZERO_HASH) →
    topoCond emitted b ∧ TopoInv st' (emitted ++ [b]) ∧
      (∀ x ∈ input', x.block_hash ≠ ZERO_HASH) := by
  intro input
  induction input with
  | nil =>
    intro st emitted b st' input' h hinv hz
    rw [topoNext] at h
    cases hr : st.ready with
    | nil =>
      rw [hr] at h
      simp at h
    | cons rb rrest =>
      rw [hr] at h
      simp only [Option.some.injEq, Prod.mk.injEq] at h
      obtain ⟨h1, h2, h3⟩ := h
      have hcond : topoCond emitted rb := by
        have := hinv.ready_ok
        rw [hr] at this
        exact this.1
      subst h1
      refine ⟨hcond, h2 ▸ topoRelease_inv hinv hr, ?_⟩
      rw [← h3]
      intro x hx
      simp at hx
  | cons c crest ih =>
    intro st emitted b st' input' h hinv hz
    rw [topoNext] at h
    cases hr : st.ready with
    | nil =>
      rw [hr] at h
      simp only at h
      exact ih _ emitted h (topoReadBlock_inv hinv (hz c (by simp)))
        (fun x hx => hz x (by simp [hx]))
    | cons rb rrest =>
      rw [hr] at h
      simp only [Option.some.injEq, Prod.mk.injEq] at h
      obtain ⟨h1, h2, h3⟩ := h
      have hcond : topoCond emitted rb := by
        have := hinv.ready_ok
        rw [hr] at this
        exact this.1
      subst h1
      refine ⟨hcond, h2 ▸ topoRelease_inv hinv hr, ?_⟩
      rw [← h3]
      exact hz

theorem topoRunFuel_spec : ∀ (fuel : Nat) (st : TopoState) (input emitted : List Block),
    TopoInv st emitted → (∀ x ∈ input, x.block_hash ≠ ZERO_HASH) →
    ∀ l₁ b l₂, topoRunFuel fuel st input = l₁ ++ b :: l₂ →
    topoCond (emitted ++ l₁) b := by
  intro fuel
  induction fuel with
  | zero =>
    intro st input emitted _ _ l₁ b l₂ h
    rw [topoRunFuel] at h
    exact absurd h (by simp)
  | succ n ih =>
    intro st input emitted hinv hz l₁ b l₂ h
    rw [topoRunFuel] at h
    cases hn : topoNext st input with
    | none =>
      rw [hn] at h
      exact absurd h (by simp)
    | some trip =>
      obtain ⟨b₀, st', input'⟩ := trip
      rw [hn] at h
      simp only at h
      obtain ⟨hc, hinv', hz'⟩ := topoNext_spec input st emitted hn hinv hz
      cases l₁ with
      | nil =>
        simp only [List.nil_append, List.cons.injEq] at h
        rw [← h.1]
        simpa using hc
      | cons x l₁' =>
        simp only [List.cons_append, List.cons.injEq] at h
        obtain ⟨hx, hrest⟩ := h
        subst hx
        have := ih st' input' (emitted ++ [b₀]) hinv' hz' l₁' b l₂ hrest
        refine topoCond_mono (fun p hp => ?_) this
        exact mem_shift.mpr hp

/-- Claim C4: every block emitted by the topological iterator other than
a genesis block (`prev_block_hash` = 32 zero bytes) extends a block
emitted strictly earlier in the same stream, with height equal to that
parent's height plus one; genesis blocks are assigned height 0.
(The hypothesis that no block's own hash is the 32-zero genesis
prev-hash holds for any real data, a hash being the double-SHA-256 of
the block header.) -/
theorem c4_topological_parent_first (input : List Block)
    (hz : ZERO_HASH ∉ input.map Block.block_hash) :
    ∀ l₁ b l₂, topoRun input = l₁ ++ b :: l₂ → topoCond l₁ b := by
  intro l₁ b l₂ h
  have hz' : ∀ x ∈ input, x.block_hash ≠ ZERO_HASH := by
    intro x hx he
    exact hz (he ▸ List.mem_map_of_mem _ hx)
  have hinv : TopoInv initTopoState [] := by
    constructor
    case hbh_ok =>
      intro k v hm
      simp only [initTopoState, List.mem_singleton] at hm
      obtain ⟨hk, hv⟩ := Prod.mk.injEq .. ▸ hm
      exact Or.inl ⟨hk, hv⟩
    case ready_ok => trivial
    case no_zero =>
      intro x hx
      simp [initTopoState] at hx
    case orph_prev =>
      intro ph lst hm
      simp [initTopoState] at hm
    case orph_no_zero =>
      intro ph lst hm
      simp [initTopoState] at hm
  simpa using topoRunFuel_spec _ _ _ _ hinv hz' l₁ b l₂ h

/-- Witness for C4 on the out-of-order storage scenario `[A, C, B]`:
the topological stream emits `[A, B, C]` and the last emitted block
extends the one emitted just before it. -/
theorem c4_topological_parent_first_witness :
    topoRun exOutOfOrder = [exTopoBlock 0, exTopoBlock 1, exTopoBlock 2] ∧
    topoCond [exTopoBlock 0, exTopoBlock 1] (exTopoBlock 2) :=
  ⟨by decide,
   c4_topological_parent_first exOutOfOrder (by decide)
     [exTopoBlock 0, exTopoBlock 1] (exTopoBlock 2) [] (by decide)⟩

/-! ## Claim C6: the spending tracker -/

theorem spend_spec {u u' : UtxoSet} {t : List Nat} {i : Nat} {info : OutputInfo}
    (h : u.spend t i = some (info, u')) :
    u.lookup (t, i) = some info ∧
    (∀ k, k ≠ (t, i) → u'.lookup k = u.lookup k) ∧
    ((akeys u.entries).Nodup → u'.lookup (t, i) = none) ∧
    u'.entries.Sublist u.entries ∧
    u'.include_scripts = u.include_scripts := by
  unfold UtxoSet.spend at h
  cases hp : apop (t, i) u.entries with
  | none =>
    simp only [hp] at h
    exact absurd h (by simp)
  | some pr =>
    obtain ⟨info0, entries'⟩ := pr
    simp only [hp, Option.some.injEq, Prod.mk.injEq] at h
    obtain ⟨h1, h2⟩ := h
    subst h1
    refine ⟨apop_lookup hp, ?_, ?_, ?_, ?_⟩
    · intro k hk
      rw [← h2]
      exact alookup_apop_other hp hk
    · intro hnd
      rw [← h2]
      exact alookup_eq_none.mpr (akeys_apop_not_mem hnd hp)
    · rw [← h2]
      exact apop_sublist hp
    · rw [← h2]

theorem forall₂_tracked_mono : ∀ {xs ys : List TxInput} {u₁ u : UtxoSet},
    (∀ k ∈ xs.filterMap TxInput.spentKey?, UtxoSet.lookup u k = UtxoSet.lookup u₁ k) →
    List.Forall₂ (trackedInput u₁) xs ys → List.Forall₂ (trackedInput u) xs ys := by
  intro xs ys u₁ u hk h
  induction h with
  | nil => exact List.Forall₂.nil
  | @cons x y xs' ys' hxy htail ih =>
    refine List.Forall₂.cons ?_ (ih ?_)
    · cases hx : x.data with
      | coinbase s q =>
        simp only [trackedInput, hx] at hxy ⊢
        exact hxy
      | spending t j s q =>
        simp only [trackedInput, hx] at hxy ⊢
        obtain ⟨hd, info, hl, hsi⟩ := hxy
        refine ⟨hd, info, ?_, hsi⟩
        rw [hk (t, j) (List.mem_filterMap.mpr
          ⟨x, List.mem_cons_self x xs', by simp [TxInput.spentKey?, hx]⟩)]
        exact hl
    · intro k hkm
      rcases List.mem_filterMap.mp hkm with ⟨a, ha, hfa⟩
      exact hk k (List.mem_filterMap.mpr ⟨a, List.mem_cons_of_mem _ ha, hfa⟩)

theorem trackInputs_spec : ∀ (inputs : List TxInput) (u : UtxoSet)
    {inputs' : List TxInput} {u' : UtxoSet},
    trackInputs inputs u = some (inputs', u') →
    (inputs.filterMap TxInput.spentKey?).Nodup →
    List.Forall₂ (trackedInput u) inputs inputs' ∧
    (∀ k, k ∉ inputs.filterMap TxInput.spentKey? → u'.lookup k = u.lookup k) ∧
    ((akeys u.entries).Nodup →
      (∀ k ∈ inputs.filterMap TxInput.spentKey?, u'.lookup k = none) ∧
      (akeys u'.entries).Nodup) ∧
    u'.entries.Sublist u.entries ∧
    u'.include_scripts = u.include_scripts := by
  intro inputs
  induction inputs with
  | nil =>
    intro u inputs' u' h _
    rw [trackInputs] at h
    simp only [Option.some.injEq, Prod.mk.injEq] at h
    obtain ⟨h1, h2⟩ := h
    subst h1
    subst h2
    exact ⟨List.Forall₂.nil, fun k _ => rfl,
      fun hnd => ⟨fun k hk => absurd hk (by simp), hnd⟩, List.Sublist.refl _, rfl⟩
  | cons txin rest ih =>
    intro u inputs' u' h hnd
    rw [trackInputs] at h
    cases hx : txin.data with
    | coinbase s q =>
      simp only [hx] at h
      cases hr : trackInputs rest u with
      | none =>
        simp only [hr] at h
        exact absurd h (by simp)
      | some pr =>
        obtain ⟨rest', u₁⟩ := pr
        simp only [hr, Option.some.injEq, Prod.mk.injEq] at h
        obtain ⟨h1, h2⟩ := h
        subst h2
        have hkeys : (txin :: rest).filterMap TxInput.spentKey?
            = rest.filterMap TxInput.spentKey? := by
          simp [List.filterMap_cons, TxInput.spentKey?, hx]
        rw [hkeys] at hnd
        obtain ⟨f2, frame, rem, sub, scr⟩ := ih u hr hnd
        rw [← h1]
        refine ⟨List.Forall₂.cons ?_ f2, ?_, ?_, sub, scr⟩
        · simp only [trackedInput, hx]
        · intro k hk
          rw [hkeys] at hk
          exact frame k hk
        · intro hku
          rw [hkeys]
          exact rem hku
    | spending t j s q =>
      simp only [hx] at h
      cases hs : u.spend t j with
      | none =>
        simp only [hs] at h
        exact absurd h (by simp)
      | some pr =>
        obtain ⟨info, u₁⟩ := pr
        simp only [hs] at h
        cases hr : trackInputs rest u₁ with
        | none =>
          simp only [hr] at h
          exact absurd h (by simp)
        | some pr2 =>
          obtain ⟨rest', u₂⟩ := pr2
          simp only [hr, Option.some.injEq, Prod.mk.injEq] at h
          obtain ⟨h1, h2⟩ := h
          subst h2
          obtain ⟨hlook, hframe1, hrem1, hsub1, hscr1⟩ := spend_spec hs
          have hkeys : (txin :: rest).filterMap TxInput.spentKey?
              = (t, j) :: rest.filterMap TxInput.spentKey? := by
            simp [List.filterMap_cons, TxInput.spentKey?, hx]
          rw [hkeys] at hnd
          have hnotmem := (List.nodup_cons.mp hnd).1
          have hnd' := (List.nodup_cons.mp hnd).2
          obtain ⟨f2, frame, rem, sub, scr⟩ := ih u₁ hr hnd'
          rw [← h1]
          refine ⟨List.Forall₂.cons ?_ ?_, ?_, ?_, sub.trans hsub1, scr.trans hscr1⟩
          · simp only [trackedInput, hx]
            exact ⟨trivial, info, hlook, rfl⟩
          · refine forall₂_tracked_mono (fun k hkm => ?_) f2
            exact (hframe1 k (fun he => hnotmem (he ▸ hkm))).symm
          · intro k hk
            rw [hkeys] at hk
            simp only [List.mem_cons, not_or] at hk
            exact (frame k hk.2).trans (hframe1 k hk.1)
          · intro hku
            have hku₁ : (akeys u₁.entries).Nodup := hku.sublist (hsub1.map Prod.fst)
            refine ⟨?_, (rem hku₁).2⟩
            rw [hkeys]
            intro k hk
            rcases List.mem_cons.mp hk with he | hm
            · subst he
              exact (frame (t, j) hnotmem).trans (hrem1 hku)
            · exact (rem hku₁).1 k hm

theorem addFromTx_go_nil (u : UtxoSet) (tx : Tx)
    (entries : List (UtxoKey × OutputInfo)) (i : Nat) :
    UtxoSet.add_from_tx.go u tx entries [] i = entries := rfl

theorem addFromTx_go_cons (u : UtxoSet) (tx : Tx) (entries : List (UtxoKey × OutputInfo))
    (o : TxOutput) (rest : List TxOutput) (i : Nat) :
    UtxoSet.add_from_tx.go u tx entries (o :: rest) i
      = UtxoSet.add_from_tx.go u tx (aset (tx.txid, i) (mkOutputInfo u tx o) entries)
          rest (i + 1) := rfl

theorem addFromTx_go_spec (u : UtxoSet) (tx : Tx) : ∀ (outs : List TxOutput)
    (entries : List (UtxoKey × OutputInfo)) (i : Nat),
    (∀ j (hj : j < outs.length),
      alookup (tx.txid, i + j) (UtxoSet.add_from_tx.go u tx entries outs i)
        = some (mkOutputInfo u tx (outs.get ⟨j, hj⟩))) ∧
    (∀ k, (∀ j, j < outs.length → k ≠ (tx.txid, i + j)) →
      alookup k (UtxoSet.add_from_tx.go u tx entries outs i) = alookup k entries) := by
  intro outs
  induction outs with
  | nil =>
    intro entries i
    refine ⟨fun j hj => absurd hj (by simp), fun k _ => ?_⟩
    rw [addFromTx_go_nil]
  | cons o rest ih =>
    intro entries i
    constructor
    · intro j hj
      rw [addFromTx_go_cons]
      cases j with
      | zero =>
        have hne : ∀ j', j' < rest.length → ((tx.txid, i + 0) : UtxoKey) ≠ (tx.txid, (i + 1) + j') := by
          intro j' _ he
          injection he with h1 h2
          omega
        rw [(ih (aset (tx.txid, i) (mkOutputInfo u tx o) entries) (i + 1)).2 _ hne]
        exact alookup_aset_self
      | succ j' =>
        have hj' : j' < rest.length := by simpa using hj
        have h0 := (ih (aset (tx.txid, i) (mkOutputInfo u tx o) entries) (i + 1)).1 j' hj'
        have hidx : i + (j' + 1) = (i + 1) + j' := by omega
        rw [hidx]
        exact h0
    · intro k hk
      rw [addFromTx_go_cons]
      rw [(ih (aset (tx.txid, i) (mkOutputInfo u tx o) entries) (i + 1)).2 k ?_]
      · exact alookup_aset_other (hk 0 (by simp))
      · intro j' hj' he
        have h0 := hk (j' + 1) (by simpa using hj')
        rw [show (i + 1) + j' = i + (j' + 1) from by omega] at he
        exact h0 he

theorem addFromTx_spec (u : UtxoSet) (tx : Tx) :
    (∀ j (hj : j < tx.outputs.length),
      (u.add_from_tx tx).lookup (tx.txid, j)
        = some (mkOutputInfo u tx (tx.outputs.get ⟨j, hj⟩))) ∧
    (∀ k, k ∉ outKeys tx → (u.add_from_tx tx).lookup k = u.lookup k) ∧
    (u.add_from_tx tx).include_scripts = u.include_scripts := by
  refine ⟨?_, ?_, rfl⟩
  · intro j hj
    have h0 := (addFromTx_go_spec u tx tx.outputs u.entries 0).1 j hj
    simp only [Nat.zero_add] at h0
    exact h0
  · intro k hk
    refine (addFromTx_go_spec u tx tx.outputs u.entries 0).2 k ?_
    intro j hj he
    refine hk ?_
    rw [he]
    exact List.mem_map.mpr ⟨j, List.mem_range.mpr hj, by simp⟩

/-- Claim C6: when `_track_tx_spending` processes a transaction `tx`
against a UTXO set `u` (with distinct spent-output references and
distinct UTXO keys, as on real data) and succeeds: every coinbase input
is left untouched with no UTXO access, every other input has the
`OutputInfo` that `u` held for its `(spent_txid, spent_output_idx)`
reference attached as its `spending_info` and that entry removed from
the set, and the transaction's own outputs are inserted only after all
inputs have been processed — the intermediate set `u'` reached after the
input loop lacks all spent keys and is the set the outputs are added
to. -/
theorem c6_tracked_spending (tx : Tx) (u : UtxoSet) (tx' : Tx) (w : UtxoSet)
    (hnd : (spentKeys tx).Nodup)
    (hku : (akeys u.entries).Nodup)
    (h : trackTxSpending tx u = some (tx', w)) :
    List.Forall₂ (trackedInput u) tx.inputs tx'.inputs ∧
    tx'.txid = tx.txid ∧ tx'.outputs = tx.outputs ∧ tx'.block_height = tx.block_height ∧
    ∃ u', trackInputs tx.inputs u = some (tx'.inputs, u') ∧
      w = u'.add_from_tx tx' ∧
      (∀ k ∈ spentKeys tx, u'.lookup k = none) ∧
      (∀ k, k ∉ spentKeys tx → u'.lookup k = u.lookup k) ∧
      (∀ j (hj : j < tx.outputs.length),
        w.lookup (tx.txid, j) = some (mkOutputInfo u tx (tx.outputs.get ⟨j, hj⟩))) ∧
      (∀ k, k ∉ spentKeys tx → k ∉ outKeys tx → w.lookup k = u.lookup k) := by
  rw [trackTxSpending] at h
  cases hi : trackInputs tx.inputs u with
  | none =>
    simp only [hi] at h
    exact absurd h (by simp)
  | some pr =>
    obtain ⟨inputs', u'⟩ := pr
    simp only [hi, Option.some.injEq, Prod.mk.injEq] at h
    obtain ⟨h1, h2⟩ := h
    obtain ⟨f2, frame, rem, sub, scr⟩ := trackInputs_spec tx.inputs u hi hnd
    subst h1
    refine ⟨f2, rfl, rfl, rfl, u', rfl, h2.symm, (rem hku).1, frame, ?_, ?_⟩
    · intro j hj
      rw [← h2]
      have h3 := (addFromTx_spec u' { tx with inputs := inputs' }).1 j hj
      refine h3.trans ?_
      simp [mkOutputInfo, scr]
    · intro k hk1 hk2
      rw [← h2]
      have h4 := (addFromTx_spec u' { tx with inputs := inputs' }).2.1 k hk2
      exact h4.trans (frame k hk1)

/-- Witness for C6: tracking `exSpendTx` against the UTXO set holding
`exCoinbaseTx`'s output resolves its single input to that output. -/
theorem c6_tracked_spending_witness :
    List.Forall₂ (trackedInput exUtxo1) exSpendTx.inputs exTracked.1.inputs :=
  (c6_tracked_spending exSpendTx exUtxo1 exTracked.1 exTracked.2
    (by decide) (by decide) (by decide)).1

/-! ## Claim C1: list lemmas for the fork-tree proofs -/

theorem mem_apop_of_ne {κ β : Type} [DecidableEq κ] {k k' : κ} {v v' : β}
    {l l' : List (κ × β)} (h : apop k l = some (v, l')) (hm : (k', v') ∈ l)
    (hne : k' ≠ k) : (k', v') ∈ l' := by
  obtain ⟨A, B, he, _, he'⟩ := apop_decomp h
  subst he
  subst he'
  rcases List.mem_append.mp hm with h1 | h1
  · exact List.mem_append_left _ h1
  · rcases List.mem_cons.mp h1 with h2 | h2
    · exact absurd (congrArg Prod.fst h2) (by simpa using hne)
    · exact List.mem_append_right _ h2

theorem first_occ_unique {κ : Type} : ∀ (X X' Y Y' : List κ) (k : κ),
    X ++ k :: Y = X' ++ k :: Y' → k ∉ X → k ∉ X' → X = X' ∧ Y = Y' := by
  intro X
  induction X with
  | nil =>
    intro X' Y Y' k h _ hx'
    cases X' with
    | nil => simpa using h
    | cons a X₂ =>
      simp only [List.nil_append, List.cons_append, List.cons.injEq] at h
      refine absurd ?_ hx'
      rw [h.1]
      exact List.mem_cons_self ..
  | cons a X₂ ih =>
    intro X' Y Y' k h hx hx'
    cases X' with
    | nil =>
      simp only [List.cons_append, List.nil_append, List.cons.injEq] at h
      refine absurd ?_ hx
      rw [← h.1]
      exact List.mem_cons_self ..
    | cons b X₃ =>
      simp only [List.cons_append, List.cons.injEq] at h
      obtain ⟨hab, hrest⟩ := h
      obtain ⟨h1, h2⟩ := ih X₃ Y Y' k hrest (fun hm => hx (List.mem_cons_of_mem _ hm))
        (fun hm => hx' (hab ▸ List.mem_cons_of_mem _ hm))
      exact ⟨by rw [hab, h1], h2⟩

theorem akeys_append {κ β : Type} (A B : List (κ × β)) :
    akeys (A ++ B) = akeys A ++ akeys B := List.map_append _ _ _

theorem apop_pair_akeys {κ β γ : Type} [DecidableEq κ] {k : κ} {v : β} {w : γ}
    {l l' : List (κ × β)} {m m' : List (κ × γ)}
    (hck : akeys l = akeys m)
    (h1 : apop k l = some (v, l')) (h2 : apop k m = some (w, m')) :
    akeys l' = akeys m' := by
  obtain ⟨A, B, he, hA, he'⟩ := apop_decomp h1
  obtain ⟨C, D, hf, hC, hf'⟩ := apop_decomp h2
  subst he
  subst he'
  subst hf
  subst hf'
  rw [akeys_append, akeys_append]
  have h0 : akeys A ++ k :: akeys B = akeys C ++ k :: akeys D := by
    simpa [akeys] using hck
  obtain ⟨hAC, hBD⟩ := first_occ_unique (akeys A) (akeys C) (akeys B) (akeys D) k h0 hA hC
  rw [hAC, hBD]

theorem delisted_not_mem {bc bc' : List (Hash × List Block)} {k : Hash} {cs : List Block}
    (uc : ((bc.flatMap Prod.snd).map Block.block_hash).Nodup)
    (hp : apop k bc = some (cs, bc')) :
    ∀ c ∈ cs, c.block_hash ∉ (bc'.flatMap Prod.snd).map Block.block_hash := by
  obtain ⟨A, B, he, _, he'⟩ := apop_decomp hp
  subst he
  subst he'
  intro c hc hmem
  simp only [List.flatMap_append, List.flatMap_cons, List.map_append] at uc hmem
  rw [List.nodup_append] at uc
  obtain ⟨ndA, uc2, disjA⟩ := uc
  rw [List.nodup_append] at uc2
  obtain ⟨ndcs, ndB, disjcs⟩ := uc2
  have hcs : c.block_hash ∈ cs.map Block.block_hash := List.mem_map_of_mem _ hc
  rcases List.mem_append.mp hmem with h1 | h1
  · exact disjA h1 (List.mem_append_left _ hcs)
  · exact disjcs hcs h1

theorem aset_decomp {κ β : Type} [DecidableEq κ] {k : κ} {v : β} {l : List (κ × β)}
    (h : alookup k l = some v) (v' : β) :
    ∃ A B, l = A ++ (k, v) :: B ∧ k ∉ akeys A ∧ aset k v' l = A ++ (k, v') :: B := by
  induction l with
  | nil => simp [alookup] at h
  | cons p rest ih =>
    obtain ⟨k₀, v₀⟩ := p
    by_cases hk : k₀ = k
    · subst hk
      have hv : v₀ = v := by simpa [alookup] using h
      subst hv
      exact ⟨[], rest, rfl, by simp [akeys], by simp [aset]⟩
    · have h' : alookup k rest = some v := by simpa [alookup, hk] using h
      obtain ⟨A, B, he, hA, he'⟩ := ih h'
      refine ⟨(k₀, v₀) :: A, B, by simp [he], ?_, by simp [aset, hk, he']⟩
      simp only [akeys, List.map_cons, List.mem_cons]
      push_neg
      exact ⟨fun hh => hk hh.symm, by simpa [akeys] using hA⟩

/-! ## Claim C1: the survivor-child walk -/

theorem findChildFrom_zero (bbh : List (Hash × TreeBlock)) (tb : TreeBlock)
    (rootHash : Hash) : findChildFrom 0 bbh tb rootHash = none := rfl

theorem findChildFrom_succ_pre (n : Nat) (bbh : List (Hash × TreeBlock))
    (rootHash : Hash) : findChildFrom (n + 1) bbh TreeBlock.preGenesis rootHash = none := rfl

theorem findChildFrom_succ_real (n : Nat) (bbh : List (Hash × TreeBlock))
    (rootHash : Hash) (b : Block) :
    findChildFrom (n + 1) bbh (TreeBlock.real b) rootHash =
      if b.prev_block_hash = rootHash then some b
      else
        match alookup b.prev_block_hash bbh with
        | none => none
        | some blk => findChildFrom n bbh blk rootHash := rfl

theorem findChildFrom_prev : ∀ (fuel : Nat) (bbh : List (Hash × TreeBlock))
    (tb : TreeBlock) (rootHash : Hash) {nb : Block},
    findChildFrom fuel bbh tb rootHash = some nb → nb.prev_block_hash = rootHash := by
  intro fuel
  induction fuel with
  | zero =>
    intro bbh tb rootHash nb h
    rw [findChildFrom_zero] at h
    simp at h
  | succ n ih =>
    intro bbh tb rootHash nb h
    cases tb with
    | preGenesis =>
      rw [findChildFrom_succ_pre] at h
      simp at h
    | real b =>
      rw [findChildFrom_succ_real] at h
      by_cases hp : b.prev_block_hash = rootHash
      · rw [if_pos hp] at h
        simp only [Option.some.injEq] at h
        subst h
        exact hp
      · rw [if_neg hp] at h
        cases hl : alookup b.prev_block_hash bbh with
        | none =>
          simp only [hl] at h
          exact absurd h (by simp)
        | some blk =>
          simp only [hl] at h
          exact ih bbh blk rootHash h

theorem findChildFrom_mem : ∀ (fuel : Nat) (bbh : List (Hash × TreeBlock))
    (tb : TreeBlock) (rootHash : Hash) {nb : Block},
    (∀ k t, (k, t) ∈ bbh → TreeBlock.bhash t = k) →
    (TreeBlock.bhash tb, tb) ∈ bbh →
    findChildFrom fuel bbh tb rootHash = some nb →
    (nb.block_hash, TreeBlock.real nb) ∈ bbh := by
  intro fuel
  induction fuel with
  | zero =>
    intro bbh tb rootHash nb _ _ h
    rw [findChildFrom_zero] at h
    simp at h
  | succ n ih =>
    intro bbh tb rootHash nb km htb h
    cases tb with
    | preGenesis =>
      rw [findChildFrom_succ_pre] at h
      simp at h
    | real b =>
      rw [findChildFrom_succ_real] at h
      by_cases hp : b.prev_block_hash = rootHash
      · rw [if_pos hp] at h
        simp only [Option.some.injEq] at h
        subst h
        exact htb
      · rw [if_neg hp] at h
        cases hl : alookup b.prev_block_hash bbh with
        | none =>
          simp only [hl] at h
          exact absurd h (by simp)
        | some blk =>
          simp only [hl] at h
          have hm : (b.prev_block_hash, blk) ∈ bbh := mem_of_alookup hl
          have hb : TreeBlock.bhash blk = b.prev_block_hash := km _ _ hm
          exact ih bbh blk rootHash km (hb ▸ hm) h

theorem findChildFrom_path : ∀ (fuel : Nat) (bbh : List (Hash × TreeBlock))
    (tb : TreeBlock) (rootHash : Hash) {nb : Block},
    (∀ k t, (k, t) ∈ bbh → TreeBlock.bhash t = k) →
    (akeys bbh).Nodup →
    (∀ k t, (k, t) ∈ bbh → ∀ ph, TreeBlock.prevHash? t = some ph →
      ∀ p, alookup ph bbh = some p → TreeBlock.height t = TreeBlock.height p + 1) →
    (TreeBlock.bhash tb, tb) ∈ bbh →
    findChildFrom fuel bbh tb rootHash = some nb →
    ∃ P : List Hash, TreeBlock.bhash tb ∈ P ∧ nb.block_hash ∈ P ∧
      ∀ x ∈ P, ∃ b : Block, b.block_hash = x ∧ (x, TreeBlock.real b) ∈ bbh ∧
        nb.height ≤ b.height ∧ (b.prev_block_hash ∈ P ∨ b = nb) := by
  intro fuel
  induction fuel with
  | zero =>
    intro bbh tb rootHash nb _ _ _ _ h
    rw [findChildFrom_zero] at h
    simp at h
  | succ n ih =>
    intro bbh tb rootHash nb km ndk heightOK htb h
    cases tb with
    | preGenesis =>
      rw [findChildFrom_succ_pre] at h
      simp at h
    | real b =>
      rw [findChildFrom_succ_real] at h
      by_cases hp : b.prev_block_hash = rootHash
      · rw [if_pos hp] at h
        simp only [Option.some.injEq] at h
        subst h
        refine ⟨[b.block_hash], by simp [TreeBlock.bhash], by simp, ?_⟩
        intro x hx
        simp only [List.mem_singleton] at hx
        subst hx
        exact ⟨b, rfl, htb, le_refl _, Or.inr rfl⟩
      · rw [if_neg hp] at h
        cases hl : alookup b.prev_block_hash bbh with
        | none =>
          simp only [hl] at h
          exact absurd h (by simp)
        | some blk =>
          simp only [hl] at h
          have hm : (b.prev_block_hash, blk) ∈ bbh := mem_of_alookup hl
          have hbk : TreeBlock.bhash blk = b.prev_block_hash := km _ _ hm
          obtain ⟨P', hP1, hP2, hP3⟩ := ih bbh blk rootHash km ndk heightOK (hbk ▸ hm) h
          refine ⟨b.block_hash :: P', by simp [TreeBlock.bhash], List.mem_cons_of_mem _ hP2, ?_⟩
          intro x hx
          rcases List.mem_cons.mp hx with he | hmem
          · subst he
            obtain ⟨b₂, hb2h, hb2m, hb2le, _⟩ := hP3 _ hP1
            have hbent : (b.block_hash, TreeBlock.real b) ∈ bbh := htb
            have hblk2 : TreeBlock.real b₂ = blk := by
              have e1 : alookup (TreeBlock.bhash blk) bbh = some (TreeBlock.real b₂) :=
                alookup_of_mem_nodup ndk hb2m
              have e2 : alookup (TreeBlock.bhash blk) bbh = some blk :=
                alookup_of_mem_nodup ndk (hbk ▸ hm)
              exact Option.some.inj (e1.symm.trans e2)
            have hh : TreeBlock.height (TreeBlock.real b) = TreeBlock.height blk + 1 :=
              heightOK _ _ hbent b.prev_block_hash rfl blk hl
            rw [← hblk2] at hh
            refine ⟨b, rfl, hbent, ?_, Or.inl (List.mem_cons_of_mem _ (hbk ▸ hP1))⟩
            have : nb.height ≤ b₂.height := hb2le
            simp only [TreeBlock.height] at hh
            omega
          · obtain ⟨b₂, hb2h, hb2m, hb2le, hor⟩ := hP3 _ hmem
            refine ⟨b₂, hb2h, hb2m, hb2le, ?_⟩
            rcases hor with h' | h'
            · exact Or.inl (List.mem_cons_of_mem _ h')
            · exact Or.inr h'

/-! ## Claim C1: reading a block preserves the fork-tree invariant -/

theorem readAnotherBlock_eq (st : LCState) (b : Block) :
    readAnotherBlock st b =
      match alookup b.prev_block_hash st.blocks_by_hash with
      | none => some st
      | some prev =>
        if TreeBlock.height prev + 1 = b.height then
          match alookup b.prev_block_hash
              (aset b.block_hash ([] : List Block) st.block_children) with
          | none => none
          | some prevChildren =>
            match (if prevChildren.isEmpty then removeOne (b.height - 1) st.leaf_heights
                   else some st.leaf_heights) with
            | none => none
            | some lh0 =>
              some { st with
                     last_block := TreeBlock.real b
                     blocks_by_hash := aset b.block_hash (TreeBlock.real b) st.blocks_by_hash
                     block_children := aset b.prev_block_hash (prevChildren ++ [b])
                       (aset b.block_hash ([] : List Block) st.block_children)
                     leaf_heights := insertSorted b.height lh0 }
        else none := rfl

theorem insert_inv {st : LCState} {c : Block} {rest : List Block} {prev : TreeBlock}
    {cs0 : List Block} (lh1 : List Int)
    (hinv : LCInv st (c :: rest))
    (hl : alookup c.prev_block_hash st.blocks_by_hash = some prev)
    (hh : TreeBlock.height prev + 1 = c.height)
    (hpc : alookup c.prev_block_hash
      (aset c.block_hash ([] : List Block) st.block_children) = some cs0) :
    LCInv { st with last_block := TreeBlock.real c,
                    blocks_by_hash := aset c.block_hash (TreeBlock.real c) st.blocks_by_hash,
                    block_children := aset c.prev_block_hash (cs0 ++ [c])
                      (aset c.block_hash ([] : List Block) st.block_children),
                    leaf_heights := lh1 } rest := by
  obtain ⟨hf1, hf2, hf3⟩ := hinv.fresh c (List.mem_cons_self ..)
  have hpmem : (c.prev_block_hash, prev) ∈ st.blocks_by_hash := mem_of_alookup hl
  have hpkeys : c.prev_block_hash ∈ akeys st.blocks_by_hash := akeys_mem_of_mem hpmem
  have hne_pc : c.prev_block_hash ≠ c.block_hash := fun he => hf1 (he ▸ hpkeys)
  have hckf : c.block_hash ∉ akeys st.block_children := hinv.ck ▸ hf1
  have hb1 : aset c.block_hash (TreeBlock.real c) st.blocks_by_hash
      = st.blocks_by_hash ++ [(c.block_hash, TreeBlock.real c)] := aset_of_not_mem hf1
  have hb0 : aset c.block_hash ([] : List Block) st.block_children
      = st.block_children ++ [(c.block_hash, ([] : List Block))] := aset_of_not_mem hckf
  have hpc0 : alookup c.prev_block_hash st.block_children = some cs0 :=
    (alookup_aset_other hne_pc).symm.trans hpc
  have hcs0mem : (c.prev_block_hash, cs0) ∈ st.block_children := mem_of_alookup hpc0
  obtain ⟨A, B, hbc0d, hAkeys, hbc2d⟩ := aset_decomp hpc (cs0 ++ [c])
  have hmem1 : ∀ {k : Hash} {tb : TreeBlock},
      (k, tb) ∈ aset c.block_hash (TreeBlock.real c) st.blocks_by_hash →
      (k, tb) ∈ st.blocks_by_hash ∨ (k = c.block_hash ∧ tb = TreeBlock.real c) := by
    intro k tb hm
    rw [hb1] at hm
    rcases List.mem_append.mp hm with h' | h'
    · exact Or.inl h'
    · simp only [List.mem_singleton, Prod.mk.injEq] at h'
      exact Or.inr h'
  have hmem2 : ∀ {x : Hash × List Block},
      x ∈ aset c.prev_block_hash (cs0 ++ [c])
        (aset c.block_hash ([] : List Block) st.block_children) →
      x = (c.prev_block_hash, cs0 ++ [c]) ∨
        (x ∈ st.block_children ∨ x = (c.block_hash, ([] : List Block))) := by
    intro x hm
    rw [hbc2d] at hm
    have hsub : x ∈ A ∨ x ∈ B →
        x ∈ aset c.block_hash ([] : List Block) st.block_children := by
      intro hx
      rw [hbc0d]
      rcases hx with h' | h'
      · exact List.mem_append_left _ h'
      · exact List.mem_append_right _ (List.mem_cons_of_mem _ h')
    rcases List.mem_append.mp hm with h' | h'
    · refine Or.inr ?_
      have := hsub (Or.inl h')
      rw [hb0] at this
      rcases List.mem_append.mp this with h'' | h''
      · exact Or.inl h''
      · exact Or.inr (by simpa using h'')
    · rcases List.mem_cons.mp h' with h'' | h''
      · exact Or.inl h''
      · refine Or.inr ?_
        have := hsub (Or.inr h'')
        rw [hb0] at this
        rcases List.mem_append.mp this with h3 | h3
        · exact Or.inl h3
        · exact Or.inr (by simpa using h3)
  have hlookup1 : ∀ (ph : Hash) (p : TreeBlock), ph ≠ c.block_hash →
      alookup ph (aset c.block_hash (TreeBlock.real c) st.blocks_by_hash) = some p →
      alookup ph st.blocks_by_hash = some p := by
    intro ph p hne hp
    rwa [alookup_aset_other hne] at hp
  have hnoprevc : ∀ k tb, (k, tb) ∈ st.blocks_by_hash →
      TreeBlock.prevHash? tb ≠ some c.block_hash := by
    intro k tb hm hp
    by_cases hroot : tb = st.root_block
    · exact hf3 c.block_hash (hroot ▸ hp) rfl
    · obtain ⟨c', he, cs', hcs', hc'⟩ := hinv.childMem k tb hm hroot
      subst he
      simp only [TreeBlock.prevHash?, Option.some.injEq] at hp
      have : c'.prev_block_hash ∈ akeys st.block_children :=
        akeys_mem_of_mem (mem_of_alookup hcs')
      rw [hp] at this
      exact hf1 (hinv.ck ▸ this)
  have hchperm : List.Perm
      (((aset c.prev_block_hash (cs0 ++ [c])
        (aset c.block_hash ([] : List Block) st.block_children)).flatMap
          Prod.snd).map Block.block_hash)
      (c.block_hash :: childHashes st) := by
    rw [hbc2d]
    have h0 : (aset c.block_hash ([] : List Block) st.block_children).flatMap Prod.snd
        = st.block_children.flatMap Prod.snd := by
      rw [hb0]
      simp [List.flatMap_append]
    have h1 : childHashes st
        = ((A.flatMap Prod.snd).map Block.block_hash ++ (cs0.map Block.block_hash))
          ++ (B.flatMap Prod.snd).map Block.block_hash := by
      rw [childHashes, ← h0, hbc0d]
      simp [List.flatMap_append, List.map_append, List.append_assoc]
    rw [h1]
    have h2 : ((A ++ (c.prev_block_hash, cs0 ++ [c]) :: B).flatMap Prod.snd).map
        Block.block_hash
        = ((A.flatMap Prod.snd).map Block.block_hash ++ cs0.map Block.block_hash)
          ++ c.block_hash :: (B.flatMap Prod.snd).map Block.block_hash := by
      simp [List.flatMap_append, List.map_append, List.append_assoc]
    rw [h2]
    exact List.perm_middle
  constructor
  case ndk =>
    show (akeys (aset c.block_hash (TreeBlock.real c) st.blocks_by_hash)).Nodup
    rw [akeys_aset_of_not_mem hf1, List.nodup_append]
    refine ⟨hinv.ndk, List.nodup_singleton _, ?_⟩
    intro a ha hb
    simp only [List.mem_singleton] at hb
    subst hb
    exact hf1 ha
  case km =>
    intro k tb hm
    rcases hmem1 hm with h' | ⟨h1, h2⟩
    · exact hinv.km k tb h'
    · subst h1
      subst h2
      rfl
  case rootMem =>
    show (st.root_block.bhash, st.root_block)
      ∈ aset c.block_hash (TreeBlock.real c) st.blocks_by_hash
    rw [hb1]
    exact List.mem_append_left _ hinv.rootMem
  case lastMem =>
    refine Or.inl ?_
    show ((TreeBlock.real c).bhash, TreeBlock.real c)
      ∈ aset c.block_hash (TreeBlock.real c) st.blocks_by_hash
    rw [hb1]
    exact List.mem_append_right _ (by simp [TreeBlock.bhash])
  case heightOK =>
    intro k tb hm ph hph p hp
    rcases hmem1 hm with h' | ⟨h1, h2⟩
    · by_cases hc : ph = c.block_hash
      · exact absurd (hc ▸ hph) (hnoprevc k tb h')
      · exact hinv.heightOK k tb h' ph hph p (hlookup1 ph p hc hp)
    · subst h1
      subst h2
      simp only [TreeBlock.prevHash?, Option.some.injEq] at hph
      subst hph
      have hpl : alookup c.prev_block_hash
          (aset c.block_hash (TreeBlock.real c) st.blocks_by_hash) = some prev := by
        rw [alookup_aset_other hne_pc]
        exact hl
      rw [hpl] at hp
      simp only [Option.some.injEq] at hp
      subst hp
      simpa [TreeBlock.height] using hh.symm
  case ck =>
    show akeys (aset c.block_hash (TreeBlock.real c) st.blocks_by_hash)
      = akeys (aset c.prev_block_hash (cs0 ++ [c])
          (aset c.block_hash ([] : List Block) st.block_children))
    rw [akeys_aset_of_not_mem hf1,
      akeys_aset_of_mem (akeys_mem_of_mem (mem_of_alookup hpc)),
      akeys_aset_of_not_mem hckf, hinv.ck]
  case childrenOK =>
    intro k cs hm c' hc'
    rcases hmem2 hm with h' | h' | h'
    · obtain ⟨h1, h2⟩ := Prod.mk.injEq .. ▸ h'
      subst h1
      subst h2
      rcases List.mem_append.mp hc' with h3 | h3
      · exact hinv.childrenOK _ _ hcs0mem c' h3
      · simp only [List.mem_singleton] at h3
        subst h3
        rfl
    · exact hinv.childrenOK k cs h' c' hc'
    · obtain ⟨h1, h2⟩ := Prod.mk.injEq .. ▸ h'
      subst h2
      exact absurd hc' (by simp)
  case uc =>
    show ((aset c.prev_block_hash (cs0 ++ [c])
        (aset c.block_hash ([] : List Block) st.block_children)).flatMap
          Prod.snd).map Block.block_hash |>.Nodup
    rw [hchperm.nodup_iff]
    exact List.nodup_cons.mpr ⟨hf2, hinv.uc⟩
  case childMem =>
    intro k tb hm hroot
    rcases hmem1 hm with h' | ⟨h1, h2⟩
    · have hroot' : tb ≠ st.root_block := hroot
      obtain ⟨c', he, cs', hcs', hc'⟩ := hinv.childMem k tb h' hroot'
      refine ⟨c', he, ?_⟩
      by_cases hpp : c'.prev_block_hash = c.prev_block_hash
      · rw [hpp]
        refine ⟨cs0 ++ [c], alookup_aset_self, ?_⟩
        rw [hpp] at hcs'
        have : cs' = cs0 := by
          have := hcs'.symm.trans hpc0
          simpa using this
        exact List.mem_append_left _ (this ▸ hc')
      · have hpb : c'.prev_block_hash ≠ c.block_hash := by
          intro he'
          have : c'.prev_block_hash ∈ akeys st.block_children :=
            akeys_mem_of_mem (mem_of_alookup hcs')
          rw [he'] at this
          exact hf1 (hinv.ck ▸ this)
        refine ⟨cs', ?_, hc'⟩
        rw [alookup_aset_other hpp, alookup_aset_other hpb]
        exact hcs'
    · subst h1
      subst h2
      refine ⟨c, rfl, cs0 ++ [c], alookup_aset_self, List.mem_append_right _ (by simp)⟩
  case listedMem =>
    intro k cs hm c' hc'
    have hup : ∀ {x y : Block}, (x.block_hash, TreeBlock.real x) ∈ st.blocks_by_hash →
        (x.block_hash, TreeBlock.real x)
          ∈ aset c.block_hash (TreeBlock.real c) st.blocks_by_hash := by
      intro x y hx
      rw [hb1]
      exact List.mem_append_left _ hx
    rcases hmem2 hm with h' | h' | h'
    · obtain ⟨h1, h2⟩ := Prod.mk.injEq .. ▸ h'
      subst h2
      rcases List.mem_append.mp hc' with h3 | h3
      · exact hup (hinv.listedMem _ _ hcs0mem c' h3) (y := c)
      · simp only [List.mem_singleton] at h3
        subst h3
        rw [hb1]
        exact List.mem_append_right _ (by simp)
    · exact hup (hinv.listedMem k cs h' c' hc') (y := c)
    · obtain ⟨h1, h2⟩ := Prod.mk.injEq .. ▸ h'
      subst h2
      exact absurd hc' (by simp)
  case noSelfLoop =>
    intro k b hm
    rcases hmem1 hm with h' | ⟨h1, h2⟩
    · exact hinv.noSelfLoop k b h'
    · have : b = c := by simpa using h2
      subst this
      exact fun he => hne_pc he
  case rootDelisted =>
    show TreeBlock.bhash st.root_block ∉ ((aset c.prev_block_hash (cs0 ++ [c])
        (aset c.block_hash ([] : List Block) st.block_children)).flatMap
          Prod.snd).map Block.block_hash
    rw [hchperm.mem_iff]
    intro hmem
    rcases List.mem_cons.mp hmem with h' | h'
    · have hmem2 : TreeBlock.bhash st.root_block ∈ akeys st.blocks_by_hash :=
        akeys_mem_of_mem hinv.rootMem
      rw [h'] at hmem2
      exact hf1 hmem2
    · exact hinv.rootDelisted h'
  case rootPrevDead =>
    intro rp hrp
    show rp ∉ akeys (aset c.block_hash (TreeBlock.real c) st.blocks_by_hash)
    rw [akeys_aset_of_not_mem hf1]
    intro hmem
    rcases List.mem_append.mp hmem with h' | h'
    · exact hinv.rootPrevDead rp hrp h'
    · simp only [List.mem_singleton] at h'
      exact hf3 rp hrp h'.symm
  case fresh =>
    intro r hr
    obtain ⟨g1, g2, g3⟩ := hinv.fresh r (List.mem_cons_of_mem _ hr)
    have hrc : r.block_hash ≠ c.block_hash := by
      intro he
      have hnd := hinv.freshNd
      rw [List.map_cons] at hnd
      exact (List.nodup_cons.mp hnd).1 (he ▸ List.mem_map_of_mem _ hr)
    refine ⟨?_, ?_, g3⟩
    · show r.block_hash ∉ akeys (aset c.block_hash (TreeBlock.real c) st.blocks_by_hash)
      rw [akeys_aset_of_not_mem hf1]
      intro hmem
      rcases List.mem_append.mp hmem with h' | h'
      · exact g1 h'
      · simp only [List.mem_singleton] at h'
        exact hrc h'
    · show r.block_hash ∉ ((aset c.prev_block_hash (cs0 ++ [c])
          (aset c.block_hash ([] : List Block) st.block_children)).flatMap
            Prod.snd).map Block.block_hash
      rw [hchperm.mem_iff]
      intro hmem
      rcases List.mem_cons.mp hmem with h' | h'
      · exact hrc h'
      · exact g2 h'
  case freshNd =>
    have hnd := hinv.freshNd
    rw [List.map_cons] at hnd
    exact (List.nodup_cons.mp hnd).2

theorem readAnotherBlock_inv {st st' : LCState} {c : Block} {rest : List Block}
    (hinv : LCInv st (c :: rest)) (h : readAnotherBlock st c = some st') :
    LCInv st' rest ∧ st'.root_block = st.root_block := by
  rw [readAnotherBlock_eq] at h
  cases hl : alookup c.prev_block_hash st.blocks_by_hash with
  | none =>
    simp only [hl] at h
    obtain rfl : st = st' := Option.some.inj h
    refine ⟨?_, rfl⟩
    exact { hinv with
            fresh := fun r hr => hinv.fresh r (List.mem_cons_of_mem _ hr)
            freshNd := by
              have hnd := hinv.freshNd
              rw [List.map_cons] at hnd
              exact (List.nodup_cons.mp hnd).2 }
  | some prev =>
    simp only [hl] at h
    by_cases hh : TreeBlock.height prev + 1 = c.height
    · rw [if_pos hh] at h
      cases hpc : alookup c.prev_block_hash
          (aset c.block_hash ([] : List Block) st.block_children) with
      | none =>
        simp only [hpc] at h
        exact absurd h (by simp)
      | some cs0 =>
        simp only [hpc] at h
        cases hlh : (if cs0.isEmpty then removeOne (c.height - 1) st.leaf_heights
                     else some st.leaf_heights) with
        | none =>
          simp only [hlh] at h
          exact absurd h (by simp)
        | some lh0 =>
          simp only [hlh] at h
          obtain rfl := Option.some.inj h
          exact ⟨insert_inv (insertSorted c.height lh0) hinv hl hh hpc, rfl⟩
    · rw [if_neg hh] at h
      exact absurd h (by simp)

/-! ## Claim C1: the discard phase -/

/-- The structural part of the fork-tree invariant that every removal
step preserves. -/
structure TCore (st : LCState) : Prop where
  ndk : (akeys st.blocks_by_hash).Nodup
  km : ∀ k tb, (k, tb) ∈ st.blocks_by_hash → TreeBlock.bhash tb = k
  heightOK : ∀ k tb, (k, tb) ∈ st.blocks_by_hash → ∀ ph, tb.prevHash? = some ph →
    ∀ p, alookup ph st.blocks_by_hash = some p → tb.height = p.height + 1
  ck : akeys st.blocks_by_hash = akeys st.block_children
  childrenOK : ∀ k cs, (k, cs) ∈ st.block_children → ∀ c ∈ cs, c.prev_block_hash = k
  uc : ((st.block_children.flatMap Prod.snd).map Block.block_hash).Nodup
  listedMem : ∀ k cs, (k, cs) ∈ st.block_children → ∀ c ∈ cs,
    (c.block_hash, TreeBlock.real c) ∈ st.blocks_by_hash
  noSelfLoop : ∀ k b, (k, TreeBlock.real b) ∈ st.blocks_by_hash →
    b.prev_block_hash ≠ b.block_hash

theorem LCInv.core {st : LCState} {rest : List Block} (h : LCInv st rest) : TCore st :=
  ⟨h.ndk, h.km, h.heightOK, h.ck, h.childrenOK, h.uc, h.listedMem, h.noSelfLoop⟩

theorem discardBlock_cases {st : LCState} {tb : TreeBlock} {st1 : LCState}
    {children : List Block} (h : discardBlock st tb = some (st1, children)) :
    ∃ v, apop (TreeBlock.bhash tb) st.blocks_by_hash = some (v, st1.blocks_by_hash) ∧
      apop (TreeBlock.bhash tb) st.block_children = some (children, st1.block_children) ∧
      st1.root_block = st.root_block ∧ st1.last_block = st.last_block := by
  unfold discardBlock at h
  cases hp1 : apop (TreeBlock.bhash tb) st.blocks_by_hash with
  | none =>
    simp only [hp1] at h
    exact absurd h (by simp)
  | some pr1 =>
    obtain ⟨v, bbh'⟩ := pr1
    simp only [hp1] at h
    cases hp2 : apop (TreeBlock.bhash tb) st.block_children with
    | none =>
      simp only [hp2] at h
      exact absurd h (by simp)
    | some pr2 =>
      obtain ⟨cs, bc'⟩ := pr2
      simp only [hp2] at h
      by_cases hemp : cs.isEmpty
      · rw [if_pos hemp] at h
        cases hrm : removeOne (TreeBlock.height tb) st.leaf_heights with
        | none =>
          simp only [hrm] at h
          exact absurd h (by simp)
        | some lh =>
          simp only [hrm, Option.some.injEq, Prod.mk.injEq] at h
          obtain ⟨h1, h2⟩ := h
          subst h2
          rw [← h1]
          exact ⟨v, rfl, rfl, rfl, rfl⟩
      · rw [if_neg hemp] at h
        simp only [Option.some.injEq, Prod.mk.injEq] at h
        obtain ⟨h1, h2⟩ := h
        subst h2
        rw [← h1]
        exact ⟨v, rfl, rfl, rfl, rfl⟩

theorem pop_core {st st1 : LCState} {tb : TreeBlock} {children : List Block}
    (core : TCore st) (hnl : TreeBlock.bhash tb ∉ childHashes st)
    (h : discardBlock st tb = some (st1, children)) :
    TCore st1 := by
  obtain ⟨v, hp1, hp2, _, _⟩ := discardBlock_cases h
  have hsub1 : st1.blocks_by_hash.Sublist st.blocks_by_hash := apop_sublist hp1
  have hsub2 : st1.block_children.Sublist st.block_children := apop_sublist hp2
  constructor
  case ndk => exact core.ndk.sublist (hsub1.map Prod.fst)
  case km => exact fun k t hm => core.km k t (hsub1.subset hm)
  case heightOK =>
    intro k t hm ph hph p hp
    have hm' := hsub1.subset hm
    have hp' : (ph, p) ∈ st.blocks_by_hash := hsub1.subset (mem_of_alookup hp)
    exact core.heightOK k t hm' ph hph p (alookup_of_mem_nodup core.ndk hp')
  case ck => exact apop_pair_akeys core.ck hp1 hp2
  case childrenOK => exact fun k cs hm => core.childrenOK k cs (hsub2.subset hm)
  case uc => exact core.uc.sublist ((sublist_flatMap hsub2 Prod.snd).map Block.block_hash)
  case listedMem =>
    intro k cs hm c hc
    have hm' := hsub2.subset hm
    have hold := core.listedMem k cs hm' c hc
    refine mem_apop_of_ne hp1 hold ?_
    intro he
    refine hnl ?_
    rw [← he]
    refine List.mem_map_of_mem _ ?_
    exact List.mem_flatMap.mpr ⟨(k, cs), hm', hc⟩
  case noSelfLoop => exact fun k b hm => core.noSelfLoop k b (hsub1.subset hm)

/-- Invariant carried through the depth-first discard loop, relative to
the protected path `P` (the hashes on the surviving chain from the
survivor child `nb` up to the tip), the discarded root's hash, the
current `_last_block`, and the remaining worklist `W`. -/
structure DInv (P : List Hash) (rootHash : Hash) (nb : Block) (last₀ : TreeBlock)
    (st : LCState) (W : List Block) : Prop where
  core : TCore st
  cmW : ∀ k tb, (k, tb) ∈ st.blocks_by_hash →
    ∃ c, tb = TreeBlock.real c ∧ (c ∈ W ∨ c = nb ∨
      ∃ cs, alookup c.prev_block_hash st.block_children = some cs ∧ c ∈ cs)
  psurv : ∀ x ∈ P, ∃ b : Block, b.block_hash = x ∧
    (x, TreeBlock.real b) ∈ st.blocks_by_hash ∧ (b.prev_block_hash ∈ P ∨ b = nb)
  nbMem : (nb.block_hash, TreeBlock.real nb) ∈ st.blocks_by_hash
  lastMem : (TreeBlock.bhash last₀, last₀) ∈ st.blocks_by_hash
  rootDead : rootHash ∉ akeys st.blocks_by_hash
  wp : ∀ w ∈ W, w.block_hash ∉ P
  wl : ∀ w ∈ W, w.block_hash ∉ childHashes st
  wroot : ∀ w ∈ W, w.block_hash ≠ rootHash

theorem discard_step {P : List Hash} {rootHash : Hash} {nb : Block} {last₀ : TreeBlock}
    {st st1 : LCState} {w : Block} {children rest : List Block}
    (hnbP : nb.block_hash ∈ P) (hlastP : TreeBlock.bhash last₀ ∈ P)
    (hnbprev : nb.prev_block_hash = rootHash)
    (hD : DInv P rootHash nb last₀ st (w :: rest))
    (h : discardBlock st (TreeBlock.real w) = some (st1, children)) :
    DInv P rootHash nb last₀ st1 (children ++ rest) ∧
    st1.root_block = st.root_block ∧ st1.last_block = st.last_block := by
  obtain ⟨v, hp1, hp2, hroot, hlast⟩ := discardBlock_cases h
  have hwb : TreeBlock.bhash (TreeBlock.real w) = w.block_hash := rfl
  rw [hwb] at hp1 hp2
  have hwl := hD.wl w (List.mem_cons_self ..)
  have hcore1 : TCore st1 := pop_core hD.core (by rw [hwb]; exact hwl) h
  have hsub1 : st1.blocks_by_hash.Sublist st.blocks_by_hash := apop_sublist hp1
  have hsub2 : st1.block_children.Sublist st.block_children := apop_sublist hp2
  have hwhk : w.block_hash ∉ akeys st1.blocks_by_hash :=
    akeys_apop_not_mem hD.core.ndk hp1
  have hchsub : ∀ x, x ∈ childHashes st1 → x ∈ childHashes st := by
    intro x hx
    exact ((sublist_flatMap hsub2 Prod.snd).map Block.block_hash).subset hx
  have hCmem : (w.block_hash, children) ∈ st.block_children :=
    mem_of_alookup (apop_lookup hp2)
  have hchild_mem : ∀ c ∈ children,
      (c.block_hash, TreeBlock.real c) ∈ st.blocks_by_hash :=
    fun c hc => hD.core.listedMem _ _ hCmem c hc
  have hchild_prev : ∀ c ∈ children, c.prev_block_hash = w.block_hash :=
    fun c hc => hD.core.childrenOK _ _ hCmem c hc
  have hdl := delisted_not_mem hD.core.uc hp2
  have hwp : ∀ c ∈ children, c.block_hash ∉ P := by
    intro c hc hcP
    obtain ⟨b, hbh, hbm, hbor⟩ := hD.psurv _ hcP
    have hce : (c.block_hash, TreeBlock.real c) ∈ st.blocks_by_hash := hchild_mem c hc
    have hbc : TreeBlock.real b = TreeBlock.real c := by
      have e1 : alookup c.block_hash st.blocks_by_hash = some (TreeBlock.real b) :=
        alookup_of_mem_nodup hD.core.ndk (hbh ▸ hbm)
      have e2 : alookup c.block_hash st.blocks_by_hash = some (TreeBlock.real c) :=
        alookup_of_mem_nodup hD.core.ndk hce
      exact Option.some.inj (e1.symm.trans e2)
    obtain rfl : b = c := TreeBlock.real.inj hbc
    rcases hbor with h' | h'
    · rw [hchild_prev b hc] at h'
      exact hD.wp w (List.mem_cons_self ..) h'
    · subst h'
      exact hD.wroot w (List.mem_cons_self ..) ((hchild_prev _ hc).symm.trans hnbprev)
  refine ⟨⟨hcore1, ?_, ?_, ?_, ?_, ?_, ?_, ?_, ?_⟩, hroot, hlast⟩
  · intro k tb hm
    obtain ⟨c, hceq, hor⟩ := hD.cmW k tb (hsub1.subset hm)
    subst hceq
    refine ⟨c, rfl, ?_⟩
    rcases hor with h' | h' | h'
    · rcases List.mem_cons.mp h' with h'' | h''
      · exfalso
        subst h''
        have hk : c.block_hash = k := hcore1.km k (TreeBlock.real c) hm
        exact hwhk (hk ▸ akeys_mem_of_mem hm)
      · exact Or.inl (List.mem_append_right _ h'')
    · exact Or.inr (Or.inl h')
    · obtain ⟨cs', hcs', hc'⟩ := h'
      by_cases hcp : c.prev_block_hash = w.block_hash
      · rw [hcp] at hcs'
        have : cs' = children := Option.some.inj (hcs'.symm.trans (apop_lookup hp2))
        subst this
        exact Or.inl (List.mem_append_left _ hc')
      · refine Or.inr (Or.inr ⟨cs', ?_, hc'⟩)
        rw [alookup_apop_other hp2 hcp]
        exact hcs'
  · intro x hx
    obtain ⟨b, hbh, hbm, hbor⟩ := hD.psurv x hx
    refine ⟨b, hbh, mem_apop_of_ne hp1 hbm ?_, hbor⟩
    intro he
    exact hD.wp w (List.mem_cons_self ..) (he ▸ hx)
  · exact mem_apop_of_ne hp1 hD.nbMem
      (fun he => hD.wp w (List.mem_cons_self ..) (he ▸ hnbP))
  · exact mem_apop_of_ne hp1 hD.lastMem
      (fun he => hD.wp w (List.mem_cons_self ..) (he ▸ hlastP))
  · exact fun hm => hD.rootDead ((hsub1.map Prod.fst).subset hm)
  · intro w' hw'
    rcases List.mem_append.mp hw' with h' | h'
    · exact hwp w' h'
    · exact hD.wp w' (List.mem_cons_of_mem _ h')
  · intro w' hw'
    rcases List.mem_append.mp hw' with h' | h'
    · exact hdl w' h'
    · exact fun hm => hD.wl w' (List.mem_cons_of_mem _ h') (hchsub _ hm)
  · intro w' hw'
    rcases List.mem_append.mp hw' with h' | h'
    · exact fun he => hD.rootDead (he ▸ akeys_mem_of_mem (hchild_mem w' h'))
    · exact hD.wroot w' (List.mem_cons_of_mem _ h')

theorem discardAll_inv {P : List Hash} {rootHash : Hash} {nb : Block} {last₀ : TreeBlock}
    (hnbP : nb.block_hash ∈ P) (hlastP : TreeBlock.bhash last₀ ∈ P)
    (hnbprev : nb.prev_block_hash = rootHash) :
    ∀ (fuel : Nat) (st : LCState) (W : List Block) (st' : LCState),
      discardAll fuel st W = some st' →
      DInv P rootHash nb last₀ st W →
      DInv P rootHash nb last₀ st' [] ∧
      st'.root_block = st.root_block ∧ st'.last_block = st.last_block ∧
      (∀ k, k ∈ akeys st'.blocks_by_hash → k ∈ akeys st.blocks_by_hash) ∧
      (∀ x, x ∈ childHashes st' → x ∈ childHashes st) := by
  intro fuel
  induction fuel with
  | zero =>
    intro st W st' h
    rw [discardAll] at h
    simp at h
  | succ n ih =>
    intro st W st' h hD
    cases W with
    | nil =>
      rw [discardAll] at h
      obtain rfl := Option.some.inj h
      exact ⟨hD, rfl, rfl, fun k hk => hk, fun x hx => hx⟩
    | cons w rest =>
      rw [discardAll] at h
      cases hd : discardBlock st (TreeBlock.real w) with
      | none =>
        simp only [hd] at h
        exact absurd h (by simp)
      | some pr =>
        obtain ⟨st1, children⟩ := pr
        simp only [hd] at h
        obtain ⟨hD1, hroot1, hlast1⟩ := discard_step hnbP hlastP hnbprev hD hd
        obtain ⟨hDf, hrootf, hlastf, hkf, hxf⟩ := ih st1 (children ++ rest) st' h hD1
        obtain ⟨v, hp1, hp2, _, _⟩ := discardBlock_cases hd
        have hsub1 := apop_sublist hp1
        have hsub2 := apop_sublist hp2
        refine ⟨hDf, hrootf.trans hroot1, hlastf.trans hlast1, ?_, ?_⟩
        · exact fun k hk => (hsub1.map Prod.fst).subset (hkf k hk)
        · exact fun x hx =>
            ((sublist_flatMap hsub2 Prod.snd).map Block.block_hash).subset (hxf x hx)

/-! ## Claim C1: a successful release extends the chain by one link -/

theorem release_cases {margin : Int} {st st1 : LCState} {nb : Block}
    (h : getNextBlockToRelease margin st = some (some nb, st1)) :
    findChildFrom (st.blocks_by_hash.length + 1) st.blocks_by_hash st.last_block
      (TreeBlock.bhash st.root_block) = some nb ∧
    discardTreeFrom st st.root_block nb = some st1 := by
  unfold getNextBlockToRelease at h
  cases hg : checkHeightsGap margin st with
  | none =>
    simp only [hg] at h
    exact absurd h (by simp)
  | some b =>
    cases b with
    | false =>
      simp only [hg] at h
      exact absurd h (by simp)
    | true =>
      simp only [hg] at h
      cases hl : st.leaf_heights.getLast? with
      | none =>
        simp only [hl] at h
        exact absurd h (by simp)
      | some h1 =>
        simp only [hl] at h
        by_cases hlh : TreeBlock.height st.last_block = h1
        · rw [if_pos hlh] at h
          cases hfc : findChildFrom (st.blocks_by_hash.length + 1) st.blocks_by_hash
              st.last_block (TreeBlock.bhash st.root_block) with
          | none =>
            simp only [hfc] at h
            exact absurd h (by simp)
          | some nb' =>
            simp only [hfc] at h
            cases hdt : discardTreeFrom st st.root_block nb' with
            | none =>
              simp only [hdt] at h
              exact absurd h (by simp)
            | some st2 =>
              simp only [hdt, Option.some.injEq, Prod.mk.injEq] at h
              obtain ⟨h1', h2'⟩ := h
              subst h2'
              exact ⟨by rw [h1'], by rw [← h1']; exact hdt⟩
        · rw [if_neg hlh] at h
          exact absurd h (by simp)

theorem discardTreeFrom_cases {st : LCState} {root : TreeBlock} {survivor : Block}
    {st1 : LCState} (h : discardTreeFrom st root survivor = some st1) :
    ∃ stA children, discardBlock st root = some (stA, children) ∧
      discardAll (stA.blocks_by_hash.length + 1) stA
        (children.filter (fun c => c ≠ survivor)) = some st1 := by
  unfold discardTreeFrom at h
  cases hd : discardBlock st root with
  | none =>
    simp only [hd] at h
    exact absurd h (by simp)
  | some pr =>
    obtain ⟨stA, children⟩ := pr
    simp only [hd] at h
    exact ⟨stA, children, rfl, h⟩

theorem release_spec {margin : Int} {st st1 : LCState} {nb : Block} {input : List Block}
    (hinv : LCInv st input)
    (h : getNextBlockToRelease margin st = some (some nb, st1)) :
    nb.prev_block_hash = TreeBlock.bhash st.root_block ∧
    nb.height = TreeBlock.height st.root_block + 1 ∧
    LCInv { st1 with root_block := TreeBlock.real nb } input := by
  obtain ⟨hf, hdt⟩ := release_cases h
  have hlast_mem : (TreeBlock.bhash st.last_block, st.last_block) ∈ st.blocks_by_hash := by
    rcases hinv.lastMem with h' | h'
    · exact h'
    · rw [h']
      exact hinv.rootMem
  have hnbprev : nb.prev_block_hash = TreeBlock.bhash st.root_block :=
    findChildFrom_prev _ _ _ _ hf
  have hnbmem : (nb.block_hash, TreeBlock.real nb) ∈ st.blocks_by_hash :=
    findChildFrom_mem _ _ _ _ hinv.km hlast_mem hf
  have hrootlook : alookup (TreeBlock.bhash st.root_block) st.blocks_by_hash
      = some st.root_block := alookup_of_mem_nodup hinv.ndk hinv.rootMem
  have hnbh : nb.height = TreeBlock.height st.root_block + 1 := by
    have h0 := hinv.heightOK _ _ hnbmem nb.prev_block_hash rfl st.root_block
      (by rw [hnbprev]; exact hrootlook)
    simpa [TreeBlock.height] using h0
  obtain ⟨P, hlastP, hnbP, hclose⟩ := findChildFrom_path _ _ _ _ hinv.km hinv.ndk
    hinv.heightOK hlast_mem hf
  have hrootP : TreeBlock.bhash st.root_block ∉ P := by
    intro hx
    obtain ⟨b, hbh, hbm, hble, _⟩ := hclose _ hx
    have hbr : TreeBlock.real b = st.root_block := by
      have e1 : alookup (TreeBlock.bhash st.root_block) st.blocks_by_hash
          = some (TreeBlock.real b) := alookup_of_mem_nodup hinv.ndk (hbh ▸ hbm)
      exact Option.some.inj (e1.symm.trans hrootlook)
    have hhb : TreeBlock.height st.root_block = b.height := by
      rw [← hbr]
      rfl
    omega
  have hnbne : nb.block_hash ≠ TreeBlock.bhash st.root_block := by
    intro he
    exact hinv.noSelfLoop _ _ hnbmem (hnbprev.trans he.symm)
  have hnbroot : TreeBlock.real nb ≠ st.root_block := by
    intro he
    refine hnbne ?_
    rw [← he]
    rfl
  obtain ⟨c0, hc0eq, cs0, hcs0, hc0m⟩ := hinv.childMem _ _ hnbmem hnbroot
  obtain rfl : nb = c0 := TreeBlock.real.inj hc0eq
  obtain ⟨stA, C, hdb, hda⟩ := discardTreeFrom_cases hdt
  obtain ⟨v, hp1, hp2, hrootA, hlastA⟩ := discardBlock_cases hdb
  have hCmem : (TreeBlock.bhash st.root_block, C) ∈ st.block_children :=
    mem_of_alookup (apop_lookup hp2)
  have hCeq : cs0 = C := by
    rw [hnbprev] at hcs0
    exact Option.some.inj (hcs0.symm.trans (apop_lookup hp2))
  rw [hCeq] at hc0m
  have hsubA1 : stA.blocks_by_hash.Sublist st.blocks_by_hash := apop_sublist hp1
  have hsubA2 : stA.block_children.Sublist st.block_children := apop_sublist hp2
  have hrdA : TreeBlock.bhash st.root_block ∉ akeys stA.blocks_by_hash :=
    akeys_apop_not_mem hinv.ndk hp1
  have hcoreA : TCore stA := pop_core hinv.core hinv.rootDelisted hdb
  have hdlA := delisted_not_mem hinv.uc hp2
  have hW0 : ∀ w ∈ C.filter (fun c => c ≠ nb), w ∈ C ∧ w ≠ nb := by
    intro w hw
    have := List.mem_filter.mp hw
    exact ⟨this.1, by simpa using this.2⟩
  have hDA : DInv P (TreeBlock.bhash st.root_block) nb st.last_block stA
      (C.filter (fun c => c ≠ nb)) := by
    refine ⟨hcoreA, ?_, ?_, ?_, ?_, hrdA, ?_, ?_, ?_⟩
    · intro k tb hm
      have hm0 := hsubA1.subset hm
      have htbroot : tb ≠ st.root_block := by
        intro he
        have hk : TreeBlock.bhash tb = k := hcoreA.km k tb hm
        refine hrdA ?_
        rw [← he, hk]
        exact akeys_mem_of_mem hm
      obtain ⟨c, hceq, cs', hcs', hc'⟩ := hinv.childMem k tb hm0 htbroot
      subst hceq
      refine ⟨c, rfl, ?_⟩
      by_cases hcp : c.prev_block_hash = TreeBlock.bhash st.root_block
      · rw [hcp] at hcs'
        have : cs' = C := Option.some.inj (hcs'.symm.trans (apop_lookup hp2))
        subst this
        by_cases hcnb : c = nb
        · exact Or.inr (Or.inl hcnb)
        · exact Or.inl (List.mem_filter.mpr ⟨hc', by simpa using hcnb⟩)
      · refine Or.inr (Or.inr ⟨cs', ?_, hc'⟩)
        rw [alookup_apop_other hp2 hcp]
        exact hcs'
    · intro x hx
      obtain ⟨b, hbh, hbm, _, hor⟩ := hclose _ hx
      refine ⟨b, hbh, mem_apop_of_ne hp1 hbm ?_, hor⟩
      intro he
      exact hrootP (he ▸ hx)
    · exact mem_apop_of_ne hp1 hnbmem hnbne
    · exact mem_apop_of_ne hp1 hlast_mem (fun he => hrootP (he ▸ hlastP))
    · intro w hw hwP
      obtain ⟨hwC, hwnb⟩ := hW0 w hw
      obtain ⟨b, hbh, hbm, _, hor⟩ := hclose _ hwP
      have hwm : (w.block_hash, TreeBlock.real w) ∈ st.blocks_by_hash :=
        hinv.listedMem _ _ hCmem w hwC
      have hbw : TreeBlock.real b = TreeBlock.real w := by
        have e1 : alookup w.block_hash st.blocks_by_hash = some (TreeBlock.real b) :=
          alookup_of_mem_nodup hinv.ndk (hbh ▸ hbm)
        have e2 : alookup w.block_hash st.blocks_by_hash = some (TreeBlock.real w) :=
          alookup_of_mem_nodup hinv.ndk hwm
        exact Option.some.inj (e1.symm.trans e2)
      obtain rfl : b = w := TreeBlock.real.inj hbw
      rcases hor with h' | h'
      · rw [hinv.childrenOK _ _ hCmem b hwC] at h'
        exact hrootP h'
      · exact hwnb h'
    · intro w hw
      exact hdlA w (hW0 w hw).1
    · intro w hw he
      have hwC := (hW0 w hw).1
      refine hinv.noSelfLoop _ _ (hinv.listedMem _ _ hCmem w hwC) ?_
      rw [hinv.childrenOK _ _ hCmem w hwC, ← he]
  obtain ⟨hDf, hrootf, hlastf, hkf, hxf⟩ :=
    discardAll_inv hnbP hlastP hnbprev _ _ _ _ hda hDA
  have hlast_eq : st1.last_block = st.last_block := hlastf.trans hlastA
  have hnbdl : nb.block_hash ∉ childHashes st1 :=
    fun hm => hdlA nb hc0m (hxf _ hm)
  refine ⟨hnbprev, hnbh, ?_⟩
  constructor
  case ndk => exact hDf.core.ndk
  case km => exact hDf.core.km
  case rootMem =>
    show ((TreeBlock.real nb).bhash, TreeBlock.real nb) ∈ st1.blocks_by_hash
    exact hDf.nbMem
  case lastMem =>
    refine Or.inl ?_
    show (TreeBlock.bhash st1.last_block, st1.last_block) ∈ st1.blocks_by_hash
    rw [hlast_eq]
    exact hDf.lastMem
  case heightOK => exact hDf.core.heightOK
  case ck => exact hDf.core.ck
  case childrenOK => exact hDf.core.childrenOK
  case uc => exact hDf.core.uc
  case childMem =>
    intro k tb hm htb
    obtain ⟨c, hceq, hor⟩ := hDf.cmW k tb hm
    rcases hor with h' | h' | h'
    · exact absurd h' (by simp)
    · exact absurd (hceq.trans (by rw [h'])) htb
    · exact ⟨c, hceq, h'⟩
  case listedMem => exact hDf.core.listedMem
  case noSelfLoop => exact hDf.core.noSelfLoop
  case rootDelisted =>
    show TreeBlock.bhash (TreeBlock.real nb) ∉ childHashes st1
    exact hnbdl
  case rootPrevDead =>
    intro rp hrp
    simp only [TreeBlock.prevHash?, Option.some.injEq] at hrp
    subst hrp
    show nb.prev_block_hash ∉ akeys st1.blocks_by_hash
    rw [hnbprev]
    exact hDf.rootDead
  case fresh =>
    intro r hr
    obtain ⟨g1, g2, g3⟩ := hinv.fresh r hr
    refine ⟨?_, ?_, ?_⟩
    · intro hm
      exact g1 ((hsubA1.map Prod.fst).subset (hkf _ hm))
    · intro hm
      refine g2 ?_
      exact ((sublist_flatMap hsubA2 Prod.snd).map Block.block_hash).subset (hxf _ hm)
    · intro rp hrp
      simp only [TreeBlock.prevHash?, Option.some.injEq] at hrp
      subst hrp
      rw [hnbprev]
      intro he
      exact g1 (he ▸ akeys_mem_of_mem hinv.rootMem)
  case freshNd => exact hinv.freshNd

/-! ## Claim C1: the longest-chain stream is a chain -/

theorem release_none_eq {margin : Int} {st st1 : LCState}
    (h : getNextBlockToRelease margin st = some (none, st1)) : st1 = st := by
  unfold getNextBlockToRelease at h
  cases hg : checkHeightsGap margin st with
  | none =>
    simp only [hg] at h
    exact absurd h (by simp)
  | some b =>
    cases b with
    | false =>
      simp only [hg, Option.some.injEq, Prod.mk.injEq] at h
      first
      | exact h.symm
      | exact h.2.symm
    | true =>
      simp only [hg] at h
      cases hl : st.leaf_heights.getLast? with
      | none =>
        simp only [hl] at h
        exact absurd h (by simp)
      | some h1 =>
        simp only [hl] at h
        by_cases hlh : TreeBlock.height st.last_block = h1
        · rw [if_pos hlh] at h
          cases hfc : findChildFrom (st.blocks_by_hash.length + 1) st.blocks_by_hash
              st.last_block (TreeBlock.bhash st.root_block) with
          | none =>
            simp only [hfc] at h
            exact absurd h (by simp)
          | some nb' =>
            simp only [hfc] at h
            cases hdt : discardTreeFrom st st.root_block nb' with
            | none =>
              simp only [hdt] at h
              exact absurd h (by simp)
            | some st2 =>
              simp only [hdt] at h
              exact absurd h (by simp)
        · rw [if_neg hlh] at h
          exact absurd h (by simp)

theorem lcNext_spec (margin : Int) : ∀ (input : List Block) (st : LCState),
    LCInv st input → ∀ {b : Block} {st' : LCState} {rest' : List Block},
    lcNext margin none st input = LCStep.yield b st' rest' →
    b.prev_block_hash = TreeBlock.bhash st.root_block ∧
    b.height = TreeBlock.height st.root_block + 1 ∧
    st'.root_block = TreeBlock.real b ∧ LCInv st' rest' := by
  intro input
  induction input with
  | nil =>
    intro st hinv b st' rest' h
    rw [lcNext] at h
    cases hg : getNextBlockToRelease margin st with
    | none =>
      simp only [hg] at h
      exact absurd h (by simp)
    | some pr =>
      obtain ⟨ob, st1⟩ := pr
      cases ob with
      | none =>
        simp only [hg] at h
        exact absurd h (by simp)
      | some nb =>
        simp only [hg, lcCheckBlock] at h
        simp only [LCStep.yield.injEq] at h
        obtain ⟨hb, hst, hre⟩ := h
        obtain ⟨h1, h2, h3⟩ := release_spec hinv hg
        refine ⟨?_, ?_, ?_, ?_⟩
        · rw [← hb]
          exact h1
        · rw [← hb]
          exact h2
        · rw [← hst, ← hb]
        · rw [← hst, ← hre]
          exact h3
  | cons c crest ih =>
    intro st hinv b st' rest' h
    rw [lcNext] at h
    cases hg : getNextBlockToRelease margin st with
    | none =>
      simp only [hg] at h
      exact absurd h (by simp)
    | some pr =>
      obtain ⟨ob, st1⟩ := pr
      cases ob with
      | none =>
        simp only [hg] at h
        rw [release_none_eq hg] at h
        cases hra : readAnotherBlock st c with
        | none =>
          simp only [hra] at h
          exact absurd h (by simp)
        | some st2 =>
          simp only [hra] at h
          obtain ⟨hinv2, hroot2⟩ := readAnotherBlock_inv hinv hra
          obtain ⟨r1, r2, r3, r4⟩ := ih st2 hinv2 h
          rw [hroot2] at r1 r2
          exact ⟨r1, r2, r3, r4⟩
      | some nb =>
        simp only [hg, lcCheckBlock] at h
        simp only [LCStep.yield.injEq] at h
        obtain ⟨hb, hst, hre⟩ := h
        obtain ⟨h1, h2, h3⟩ := release_spec hinv hg
        refine ⟨?_, ?_, ?_, ?_⟩
        · rw [← hb]
          exact h1
        · rw [← hb]
          exact h2
        · rw [← hst, ← hb]
        · rw [← hst, ← hre]
          exact h3

theorem lcRunFuel_chain (margin : Int) : ∀ (fuel : Nat) (st : LCState)
    (input : List Block), LCInv st input → ∀ {out : List Block} {flag : Bool},
    lcRunFuel fuel margin none st input = (out, flag) →
    List.Chain' chainRel out ∧
    (∀ b0, out.head? = some b0 →
      b0.prev_block_hash = TreeBlock.bhash st.root_block ∧
      b0.height = TreeBlock.height st.root_block + 1) := by
  intro fuel
  induction fuel with
  | zero =>
    intro st input hinv out flag h
    rw [lcRunFuel] at h
    obtain ⟨h1, h2⟩ := Prod.mk.injEq .. ▸ h
    rw [← h1]
    exact ⟨List.chain'_nil, by simp⟩
  | succ n ih =>
    intro st input hinv out flag h
    rw [lcRunFuel] at h
    cases hn : lcNext margin none st input with
    | yield b st2 rest =>
      simp only [hn] at h
      obtain ⟨hb1, hb2, hb3, hinv2⟩ := lcNext_spec margin input st hinv hn
      cases hr : lcRunFuel n margin none st2 rest with
      | mk out2 flag2 =>
        rw [hr] at h
        obtain ⟨ho, hfl⟩ := Prod.mk.injEq .. ▸ h
        obtain ⟨ch2, hd2⟩ := ih st2 rest hinv2 hr
        rw [← ho]
        constructor
        · refine List.chain'_cons'.mpr ⟨?_, ch2⟩
          intro y hy
          obtain ⟨p1, p2⟩ := hd2 y hy
          rw [hb3] at p1 p2
          refine ⟨by simpa [TreeBlock.bhash] using p1, ?_⟩
          simpa [TreeBlock.height] using p2
        · intro b0 h0
          simp only [List.head?_cons, Option.some.injEq] at h0
          subst h0
          exact ⟨hb1, hb2⟩
    | stop =>
      simp only [hn] at h
      obtain ⟨h1, h2⟩ := Prod.mk.injEq .. ▸ h
      rw [← h1]
      exact ⟨List.chain'_nil, by simp⟩
    | crash =>
      simp only [hn] at h
      obtain ⟨h1, h2⟩ := Prod.mk.injEq .. ▸ h
      rw [← h1]
      exact ⟨List.chain'_nil, by simp⟩

theorem initLCState_inv (input : List Block)
    (hnd : (input.map Block.block_hash).Nodup)
    (hz : ZERO_HASH ∉ input.map Block.block_hash) :
    LCInv initLCState input := by
  constructor
  case ndk => simp [initLCState, akeys]
  case km =>
    intro k tb hm
    simp only [initLCState, List.mem_singleton, Prod.mk.injEq] at hm
    simp [hm.1, hm.2, TreeBlock.bhash]
  case rootMem => simp [initLCState, TreeBlock.bhash]
  case lastMem => exact Or.inr rfl
  case heightOK =>
    intro k tb hm ph hph p hp
    simp only [initLCState, List.mem_singleton, Prod.mk.injEq] at hm
    rw [hm.2] at hph
    simp [TreeBlock.prevHash?] at hph
  case ck => rfl
  case childrenOK =>
    intro k cs hm c hc
    simp only [initLCState, List.mem_singleton, Prod.mk.injEq] at hm
    rw [hm.2] at hc
    simp at hc
  case uc => simp [initLCState]
  case childMem =>
    intro k tb hm hroot
    simp only [initLCState, List.mem_singleton, Prod.mk.injEq] at hm
    exact absurd hm.2 hroot
  case listedMem =>
    intro k cs hm c hc
    simp only [initLCState, List.mem_singleton, Prod.mk.injEq] at hm
    rw [hm.2] at hc
    simp at hc
  case noSelfLoop =>
    intro k b hm
    simp [initLCState] at hm
  case rootDelisted => simp [initLCState, childHashes]
  case rootPrevDead =>
    intro rp hrp
    simp [initLCState, TreeBlock.prevHash?] at hrp
  case fresh =>
    intro r hr
    refine ⟨?_, ?_, ?_⟩
    · intro hm
      simp only [initLCState, akeys, List.map_singleton, List.mem_singleton] at hm
      exact hz (hm ▸ List.mem_map_of_mem _ hr)
    · intro hm
      simp [initLCState, childHashes] at hm
    · intro rp hrp
      simp [initLCState, TreeBlock.prevHash?] at hrp
  case freshNd => exact hnd

/-- Claim C1: in a run of the longest-chain iterator with no block
filter, every pair of consecutively emitted blocks is linked —
`B(i+1).prev_block_hash = B(i).block_hash` and
`B(i+1).height = B(i).height + 1` — and the first emitted block is a
genesis block: `prev_block_hash` is the 32-zero hash and its height
is 0.  The hypotheses, satisfied by real block data, are that the
stored blocks carry pairwise distinct hashes, none of which is the
32-zero genesis prev-hash. -/
theorem c1_longest_chain_links (margin : Int) (input : List Block)
    (hnd : (input.map Block.block_hash).Nodup)
    (hz : ZERO_HASH ∉ input.map Block.block_hash) :
    List.Chain' chainRel (lcRun margin none input).1 ∧
    ∀ b0 l0, (lcRun margin none input).1 = b0 :: l0 →
      b0.prev_block_hash = ZERO_HASH ∧ b0.height = 0 := by
  have hinv := initLCState_inv input hnd hz
  unfold lcRun
  cases hr : lcRunFuel (input.length + 1) margin none initLCState input with
  | mk out flag =>
    obtain ⟨hch, hhd⟩ := lcRunFuel_chain margin _ _ _ hinv hr
    refine ⟨hch, ?_⟩
    intro b0 l0 h0
    have hout : out = b0 :: l0 := h0
    have hhead : out.head? = some b0 := by
      rw [hout]
      rfl
    obtain ⟨p1, p2⟩ := hhd b0 hhead
    constructor
    · simpa [initLCState, TreeBlock.bhash] using p1
    · have h3 := p2
      simp only [initLCState, TreeBlock.height] at h3
      omega

/-- Witness for C1: the seven-block stored chain, fed through the
topological iterator into the longest-chain iterator with the default
margin 6, emits a linked stream starting at the genesis block. -/
theorem c1_longest_chain_links_witness :
    ((topoRun (exChain 7)).map Block.block_hash).Nodup ∧
    ZERO_HASH ∉ (topoRun (exChain 7)).map Block.block_hash ∧
    (List.Chain' chainRel (lcRun 6 none (topoRun (exChain 7))).1 ∧
      ∀ b0 l0, (lcRun 6 none (topoRun (exChain 7))).1 = b0 :: l0 →
        b0.prev_block_hash = ZERO_HASH ∧ b0.height = 0) :=
  ⟨by decide, by decide,
   c1_longest_chain_links 6 (topoRun (exChain 7)) (by decide) (by decide)⟩

end Chainscan
